import Mathlib

/-!
# Slamity: the per-block DSP path of `SlamityProcessor`

A shallow embedding of `Source/PluginProcessor.cpp` / `Source/PluginProcessor.h`.

Number model.  Every `float` and `double` of the source is an element of one
linearly ordered field `α`, with exact arithmetic: no operation rounds,
overflows or yields a NaN.  The definitions are computable for `α = ℚ`; the
theorems hold for every ordered field, `ℝ` included.  The C library calls
whose value is not a field operation (`sin`, `tan`, `sqrt`, the exponent
written by `frexpf`), the narrowing conversion `(float)x` in front of
`frexpf` and the constant `juce::MathConstants<double>::pi` are the fields of
a `Libm` record the definitions take as an argument; a theorem that needs a
property of one of them states it as a hypothesis.

Rounding.  The one-pole update, the subsonic stage of Mackity and the band
split of DrumSlam are embedded a second time with the rounding of every
operation written out (`onePoleRounded`, `mackHighpassARounded`,
`drumBandSplitRounded`): `fl` maps the exact result of an operation to the
value the machine stores, operations being rounded one by one, and `fl = id`
gives the exact definitions back.  `roundBinary` is rounding to nearest, ties
to even, on `ℚ`, with `roundDouble` and `roundFloat` its instances for the two
IEEE formats (overflow is not modelled).  The double the literal `1.18e-37`
denotes is `flushThreshold`.

The two `uint32_t` dither states are natural numbers, every operation on them
reduced modulo `2^32`.
-/

namespace Slamity

variable {α : Type} [LinearOrderedField α]

/-! ## Data model -/

/-- The C library as the processor uses it: `sin`, `tan`, `std::sqrt`, the
narrowing conversion `(float)x` of a double, the exponent `frexpf` stores
through its pointer argument, and `juce::MathConstants<double>::pi`. -/
structure Libm (α : Type) where
  sin : α → α
  tan : α → α
  sqrt : α → α
  toFloat : α → α
  frexpf : α → Int
  pi : α

/-- The nine raw parameter values `processBlock` reads from `apvts` once per
block (lines 145-153), under their parameter IDs. -/
structure ParameterSnapshot (α : Type) where
  mackInTrim : α
  mackOutPad : α
  mackDryWet : α
  drumDrive : α
  drumOutput : α
  drumDryWet : α
  chainOrder : α
  mainOutput : α
  mainDryWet : α

/-- The data members of `class SlamityProcessor` (PluginProcessor.h, lines
52-93): the five published meter values, the Mackity and DrumSlam filter
memories, the shared flip flag and the two dither states. -/
structure SlamityProcessor (α : Type) where
  vuMackInTrim : α
  vuMackOutPad : α
  vuDrumDrive : α
  vuDrumOutput : α
  vuMainOutput : α
  mack_iirSampleAL : α
  mack_iirSampleBL : α
  mack_iirSampleAR : α
  mack_iirSampleBR : α
  mack_biquadA : Fin 15 → α
  mack_biquadB : Fin 15 → α
  drum_iirSampleAL : α
  drum_iirSampleBL : α
  drum_iirSampleCL : α
  drum_iirSampleDL : α
  drum_iirSampleEL : α
  drum_iirSampleFL : α
  drum_iirSampleGL : α
  drum_iirSampleHL : α
  drum_lastSampleL : α
  drum_iirSampleAR : α
  drum_iirSampleBR : α
  drum_iirSampleCR : α
  drum_iirSampleDR : α
  drum_iirSampleER : α
  drum_iirSampleFR : α
  drum_iirSampleGR : α
  drum_iirSampleHR : α
  drum_lastSampleR : α
  drum_fpFlip : Bool
  fpdL : Nat
  fpdR : Nat

/-- The member initialisers of the class declaration (PluginProcessor.h):
every meter and memory `0`, `drum_fpFlip = true`, `fpdL = fpdR = 1`. -/
def SlamityProcessor.initial : SlamityProcessor α where
  vuMackInTrim := 0
  vuMackOutPad := 0
  vuDrumDrive := 0
  vuDrumOutput := 0
  vuMainOutput := 0
  mack_iirSampleAL := 0
  mack_iirSampleBL := 0
  mack_iirSampleAR := 0
  mack_iirSampleBR := 0
  mack_biquadA := fun _ => 0
  mack_biquadB := fun _ => 0
  drum_iirSampleAL := 0
  drum_iirSampleBL := 0
  drum_iirSampleCL := 0
  drum_iirSampleDL := 0
  drum_iirSampleEL := 0
  drum_iirSampleFL := 0
  drum_iirSampleGL := 0
  drum_iirSampleHL := 0
  drum_lastSampleL := 0
  drum_iirSampleAR := 0
  drum_iirSampleBR := 0
  drum_iirSampleCR := 0
  drum_iirSampleDR := 0
  drum_iirSampleER := 0
  drum_iirSampleFR := 0
  drum_iirSampleGR := 0
  drum_iirSampleHR := 0
  drum_lastSampleR := 0
  drum_fpFlip := true
  fpdL := 1
  fpdR := 1

/-- The block-rate locals of `processBlock` that the two lambdas and the
sample loop capture (lines 158-200). -/
structure BlockLocals (α : Type) where
  mackInTrim : α
  mackOutPad : α
  mackWet : α
  mackIirAmountA : α
  mackIirAmountB : α
  drumIirAmountL : α
  drumIirAmountH : α
  drumDrive : α
  drumOut : α
  drumWet : α
  mainOutGain : α
  mainWet : α
  mackFirst : Bool

/-- What the sample loop mutates: the processor object and the five local RMS
accumulators of `processBlock` (lines 203-205). -/
structure Run (α : Type) where
  self : SlamityProcessor α
  rmsAccMackTrim : α
  rmsAccMackPad : α
  rmsAccDrumDrive : α
  rmsAccDrumOut : α
  rmsAccMainOut : α

/-! ## `prepareToPlay` -/

/-- One reseed loop of `prepareToPlay` (lines 111-112):
`fpd = 1; while (fpd < 16386) fpd = (uint32_t)rand() * (uint32_t)UINT32_MAX;`.
The list holds the values the coming calls of `rand()` return.  The result
is the final `fpd` with the unread values, or `none` when the list is used up
before the loop exits. -/
def reseedLoop (fpd : Nat) : List Nat → Option (Nat × List Nat)
  | [] => if fpd < 16386 then none else some (fpd, [])
  | r :: rs =>
    if fpd < 16386 then reseedLoop (((r % 4294967296) * 4294967295) % 4294967296) rs
    else some (fpd, r :: rs)

/-- The body of `prepareToPlay` before the dither reseed (lines 80-108): every
filter memory of both engines is zeroed, `std::fill` clears both biquad
arrays and `drum_fpFlip` is set. -/
def resetFilters (s : SlamityProcessor α) : SlamityProcessor α :=
  { s with
    mack_iirSampleAL := 0
    mack_iirSampleBL := 0
    mack_iirSampleAR := 0
    mack_iirSampleBR := 0
    mack_biquadA := fun _ => 0
    mack_biquadB := fun _ => 0
    drum_iirSampleAL := 0
    drum_iirSampleBL := 0
    drum_iirSampleCL := 0
    drum_iirSampleDL := 0
    drum_iirSampleEL := 0
    drum_iirSampleFL := 0
    drum_iirSampleGL := 0
    drum_iirSampleHL := 0
    drum_lastSampleL := 0
    drum_iirSampleAR := 0
    drum_iirSampleBR := 0
    drum_iirSampleCR := 0
    drum_iirSampleDR := 0
    drum_iirSampleER := 0
    drum_iirSampleFR := 0
    drum_iirSampleGR := 0
    drum_iirSampleHR := 0
    drum_lastSampleR := 0
    drum_fpFlip := true }

/-- `SlamityProcessor::prepareToPlay` (lines 78-113).  Both arguments of the
source function are unused.  `rands` holds the values `rand()` returns;
the result is `none` when a reseed loop does not exit within them. -/
def prepareToPlay (s : SlamityProcessor α) (rands : List Nat) : Option (SlamityProcessor α) :=
  let s := resetFilters s
  match reseedLoop 1 rands with
  | none => none
  | some (fpdL, rands) =>
    match reseedLoop 1 rands with
    | none => none
    | some (fpdR, _) => some { s with fpdL := fpdL, fpdR := fpdR }

/-! ## Block-rate coefficients -/

/-- The block-rate locals derived from the sample rate and the parameter
snapshot (lines 139-200). -/
def blockLocals (sr : α) (p : ParameterSnapshot α) : BlockLocals α :=
  let overallscale : α := 1.0 / 44100.0 * sr
  let mackInTrim : α := p.mackInTrim * 10.0
  { mackInTrim := mackInTrim * mackInTrim
    mackOutPad := p.mackOutPad
    mackWet := p.mackDryWet
    mackIirAmountA := 0.001860867 / overallscale
    mackIirAmountB := 0.000287496 / overallscale
    drumIirAmountL := 0.0819 / overallscale
    drumIirAmountH := 0.377933067 / overallscale
    drumDrive := (p.drumDrive * 3.0) + 1.0
    drumOut := p.drumOutput
    drumWet := p.drumDryWet
    mainOutGain := p.mainOutput
    mainWet := p.mainDryWet
    mackFirst := decide (p.chainOrder < 0.5) }

/-- The coefficient slots `[0..6]` of one biquad array as `processBlock`
writes them (lines 166-184): frequency ratio, Q, `b0 b1 b2`, `a1 a2`.  The
history slots `[7..14]` are kept. -/
def biquadCoefficients (m : Libm α) (sr Q : α) (b : Fin 15 → α) : Fin 15 → α :=
  let b := Function.update b 0 (19160.0 / sr)
  let b := Function.update b 1 Q
  let K := m.tan (m.pi * b 0)
  let norm := 1.0 / (1.0 + K / b 1 + K * K)
  let b := Function.update b 2 (K * K * norm)
  let b := Function.update b 3 (2.0 * b 2)
  let b := Function.update b 4 (b 2)
  let b := Function.update b 5 (2.0 * (K * K - 1.0) * norm)
  Function.update b 6 ((1.0 - K / b 1 + K * K) * norm)

/-- The processor after the coefficient writes of lines 166-184. -/
def writeCoefficients (m : Libm α) (sr : α) (s : SlamityProcessor α) : SlamityProcessor α :=
  { s with
    mack_biquadA := biquadCoefficients m sr 0.431684981684982 s.mack_biquadA
    mack_biquadB := biquadCoefficients m sr 1.1582298 s.mack_biquadB }

/-! ## The Mackity lambda -/

/-- The double the literal `1.18e-37` denotes, `0x1.4139ff77a85f5p-123`: the
double nearest to the decimal, and a little below it. -/
def flushThreshold : α :=
  5651077306942965 / 2 ^ 175

/-- The denormal guard on a filter memory, `if (fabs(s) < 1.18e-37) s = 0.0;`. -/
def flushMemory (s : α) : α :=
  if |s| < flushThreshold then 0.0 else s

/-- The one-pole update `s = (s * (1.0 - a)) + (x * a)`. -/
def onePole (s x a : α) : α :=
  (s * (1.0 - a)) + (x * a)

/-- The one-pole update with the rounding of its four operations written out:
`1.0 - a`, the two products and the sum are each rounded by `fl`. -/
def onePoleRounded (fl : α → α) (s x a : α) : α :=
  fl (fl (s * fl (1.0 - a)) + fl (x * a))

/-- High-pass IIR filter A, subsonic removal (lines 211-217): both channels'
memories are flushed, updated and subtracted from the samples. -/
def mackHighpassA (c : BlockLocals α) (s : SlamityProcessor α) (sL sR : α) :
    SlamityProcessor α × α × α :=
  let s := { s with mack_iirSampleAL := flushMemory s.mack_iirSampleAL }
  let s := { s with mack_iirSampleAL := onePole s.mack_iirSampleAL sL c.mackIirAmountA }
  let sL := sL - s.mack_iirSampleAL
  let s := { s with mack_iirSampleAR := flushMemory s.mack_iirSampleAR }
  let s := { s with mack_iirSampleAR := onePole s.mack_iirSampleAR sR c.mackIirAmountA }
  let sR := sR - s.mack_iirSampleAR
  (s, sL, sR)

/-- High-pass IIR filter A (lines 211-217) with the rounding written out: the
flush is a comparison and does not round, the update is `onePoleRounded` and
the subtraction `sL -= mack_iirSampleAL` is rounded by `fl`. -/
def mackHighpassARounded (fl : α → α) (c : BlockLocals α) (s : SlamityProcessor α) (sL sR : α) :
    SlamityProcessor α × α × α :=
  let s := { s with mack_iirSampleAL := flushMemory s.mack_iirSampleAL }
  let s := { s with
    mack_iirSampleAL := onePoleRounded fl s.mack_iirSampleAL sL c.mackIirAmountA }
  let sL := fl (sL - s.mack_iirSampleAL)
  let s := { s with mack_iirSampleAR := flushMemory s.mack_iirSampleAR }
  let s := { s with
    mack_iirSampleAR := onePoleRounded fl s.mack_iirSampleAR sR c.mackIirAmountA }
  let sR := fl (sR - s.mack_iirSampleAR)
  (s, sL, sR)

/-- One direct-form-I biquad step on a coefficient/history array (lines
224-225, 227-228, 239-240, 242-243).  The history taps are `x1 x2 y1 y2`:
slots 7, 8, 9, 10 for the left channel and 11, 12, 13, 14 for the right. -/
def biquadDF1 (b : Fin 15 → α) (x1 x2 y1 y2 : Fin 15) (s : α) : (Fin 15 → α) × α :=
  let out := b 2 * s + b 3 * b x1 + b 4 * b x2 - b 5 * b y1 - b 6 * b y2
  let b := Function.update b x2 (b x1)
  let b := Function.update b x1 s
  let s := out
  let b := Function.update b y2 (b y1)
  let b := Function.update b y1 s
  (b, s)

/-- The soft saturation of lines 231-233 on one channel: clamp to `[-1, 1]`,
then `s -= pow(s, 5) * 0.1768`. -/
def mackSoftClip (s : α) : α :=
  let s := if s > 1.0 then 1.0 else s
  let s := if s < -1.0 then -1.0 else s
  s - s ^ 5 * 0.1768

/-- High-pass IIR filter B, DC removal (lines 245-251). -/
def mackHighpassB (c : BlockLocals α) (s : SlamityProcessor α) (sL sR : α) :
    SlamityProcessor α × α × α :=
  let s := { s with mack_iirSampleBL := flushMemory s.mack_iirSampleBL }
  let s := { s with mack_iirSampleBL := onePole s.mack_iirSampleBL sL c.mackIirAmountB }
  let sL := sL - s.mack_iirSampleBL
  let s := { s with mack_iirSampleBR := flushMemory s.mack_iirSampleBR }
  let s := { s with mack_iirSampleBR := onePole s.mack_iirSampleBR sR c.mackIirAmountB }
  let sR := sR - s.mack_iirSampleBR
  (s, sL, sR)

/-- The Mackity lambda up to and including the pad meter tap (lines 211-255):
everything but the local dry/wet. -/
def mackityWet (c : BlockLocals α) (r : Run α) (sL sR : α) : Run α × α × α :=
  -- High-pass IIR filter A
  let (s, sL, sR) := mackHighpassA c r.self sL sR
  -- Input trim
  let sL := if c.mackInTrim ≠ 1.0 then sL * c.mackInTrim else sL
  let sR := if c.mackInTrim ≠ 1.0 then sR * c.mackInTrim else sR
  let rmsAccMackTrim := r.rmsAccMackTrim + (sL * sL + sR * sR)
  -- Biquad A lowpass
  let (bA, sL) := biquadDF1 s.mack_biquadA 7 8 9 10 sL
  let (bA, sR) := biquadDF1 bA 11 12 13 14 sR
  -- Soft saturation
  let sL := mackSoftClip sL
  let sR := mackSoftClip sR
  -- Biquad B lowpass
  let (bB, sL) := biquadDF1 s.mack_biquadB 7 8 9 10 sL
  let (bB, sR) := biquadDF1 bB 11 12 13 14 sR
  let s := { s with mack_biquadA := bA, mack_biquadB := bB }
  -- High-pass IIR filter B
  let (s, sL, sR) := mackHighpassB c s sL sR
  -- Output pad
  let sL := if c.mackOutPad ≠ 1.0 then sL * c.mackOutPad else sL
  let sR := if c.mackOutPad ≠ 1.0 then sR * c.mackOutPad else sR
  let rmsAccMackPad := r.rmsAccMackPad + (sL * sL + sR * sR)
  ({ r with self := s, rmsAccMackTrim := rmsAccMackTrim, rmsAccMackPad := rmsAccMackPad }, sL, sR)

/-- The lambda `processMackity` (lines 208-262): the wet path, then the local
dry/wet crossfade with the samples the lambda was entered with. -/
def processMackity (c : BlockLocals α) (r : Run α) (sL sR : α) : Run α × α × α :=
  let dryL := sL
  let dryR := sR
  let (r, sL, sR) := mackityWet c r sL sR
  -- Mackity dry/wet
  let sL := if c.mackWet ≠ 1.0 then (sL * c.mackWet) + (dryL * (1.0 - c.mackWet)) else sL
  let sR := if c.mackWet ≠ 1.0 then (sR * c.mackWet) + (dryR * (1.0 - c.mackWet)) else sR
  (r, sL, sR)

/-! ## The DrumSlam lambda -/

/-- The band values of one sample frame: low, mid and high on each channel. -/
structure Bands (α : Type) where
  lowSampleL : α
  lowSampleR : α
  midSampleL : α
  midSampleR : α
  highSampleL : α
  highSampleR : α

/-- The 3-band split with alternating filter sets (lines 276-319), flag toggle
included.  `sL`, `sR` are the driven samples. -/
def drumBandSplit (c : BlockLocals α) (s : SlamityProcessor α) (sL sR : α) :
    SlamityProcessor α × Bands α :=
  if s.drum_fpFlip then
    let s := { s with drum_iirSampleAL := onePole s.drum_iirSampleAL sL c.drumIirAmountL }
    let s := { s with drum_iirSampleBL := onePole s.drum_iirSampleBL s.drum_iirSampleAL c.drumIirAmountL }
    let lowSampleL := s.drum_iirSampleBL
    let s := { s with drum_iirSampleAR := onePole s.drum_iirSampleAR sR c.drumIirAmountL }
    let s := { s with drum_iirSampleBR := onePole s.drum_iirSampleBR s.drum_iirSampleAR c.drumIirAmountL }
    let lowSampleR := s.drum_iirSampleBR
    let s := { s with drum_iirSampleEL := onePole s.drum_iirSampleEL sL c.drumIirAmountH }
    let s := { s with drum_iirSampleFL := onePole s.drum_iirSampleFL s.drum_iirSampleEL c.drumIirAmountH }
    let midSampleL := s.drum_iirSampleFL - s.drum_iirSampleBL
    let s := { s with drum_iirSampleER := onePole s.drum_iirSampleER sR c.drumIirAmountH }
    let s := { s with drum_iirSampleFR := onePole s.drum_iirSampleFR s.drum_iirSampleER c.drumIirAmountH }
    let midSampleR := s.drum_iirSampleFR - s.drum_iirSampleBR
    let highSampleL := sL - s.drum_iirSampleFL
    let highSampleR := sR - s.drum_iirSampleFR
    ({ s with drum_fpFlip := !s.drum_fpFlip },
      { lowSampleL := lowSampleL, lowSampleR := lowSampleR, midSampleL := midSampleL,
        midSampleR := midSampleR, highSampleL := highSampleL, highSampleR := highSampleR })
  else
    let s := { s with drum_iirSampleCL := onePole s.drum_iirSampleCL sL c.drumIirAmountL }
    let s := { s with drum_iirSampleDL := onePole s.drum_iirSampleDL s.drum_iirSampleCL c.drumIirAmountL }
    let lowSampleL := s.drum_iirSampleDL
    let s := { s with drum_iirSampleCR := onePole s.drum_iirSampleCR sR c.drumIirAmountL }
    let s := { s with drum_iirSampleDR := onePole s.drum_iirSampleDR s.drum_iirSampleCR c.drumIirAmountL }
    let lowSampleR := s.drum_iirSampleDR
    let s := { s with drum_iirSampleGL := onePole s.drum_iirSampleGL sL c.drumIirAmountH }
    let s := { s with drum_iirSampleHL := onePole s.drum_iirSampleHL s.drum_iirSampleGL c.drumIirAmountH }
    let midSampleL := s.drum_iirSampleHL - s.drum_iirSampleDL
    let s := { s with drum_iirSampleGR := onePole s.drum_iirSampleGR sR c.drumIirAmountH }
    let s := { s with drum_iirSampleHR := onePole s.drum_iirSampleHR s.drum_iirSampleGR c.drumIirAmountH }
    let midSampleR := s.drum_iirSampleHR - s.drum_iirSampleDR
    let highSampleL := sL - s.drum_iirSampleHL
    let highSampleR := sR - s.drum_iirSampleHR
    ({ s with drum_fpFlip := !s.drum_fpFlip },
      { lowSampleL := lowSampleL, lowSampleR := lowSampleR, midSampleL := midSampleL,
        midSampleR := midSampleR, highSampleL := highSampleL, highSampleR := highSampleR })

/-- The 3-band split (lines 276-319) with the rounding written out: every
memory update is `onePoleRounded` and the four subtractions that form the mid
and high values are rounded by `fl`. -/
def drumBandSplitRounded (fl : α → α) (c : BlockLocals α) (s : SlamityProcessor α) (sL sR : α) :
    SlamityProcessor α × Bands α :=
  if s.drum_fpFlip then
    let s := { s with drum_iirSampleAL := onePoleRounded fl s.drum_iirSampleAL sL c.drumIirAmountL }
    let s := { s with drum_iirSampleBL :=
        onePoleRounded fl s.drum_iirSampleBL s.drum_iirSampleAL c.drumIirAmountL }
    let lowSampleL := s.drum_iirSampleBL
    let s := { s with drum_iirSampleAR := onePoleRounded fl s.drum_iirSampleAR sR c.drumIirAmountL }
    let s := { s with drum_iirSampleBR :=
        onePoleRounded fl s.drum_iirSampleBR s.drum_iirSampleAR c.drumIirAmountL }
    let lowSampleR := s.drum_iirSampleBR
    let s := { s with drum_iirSampleEL := onePoleRounded fl s.drum_iirSampleEL sL c.drumIirAmountH }
    let s := { s with drum_iirSampleFL :=
        onePoleRounded fl s.drum_iirSampleFL s.drum_iirSampleEL c.drumIirAmountH }
    let midSampleL := fl (s.drum_iirSampleFL - s.drum_iirSampleBL)
    let s := { s with drum_iirSampleER := onePoleRounded fl s.drum_iirSampleER sR c.drumIirAmountH }
    let s := { s with drum_iirSampleFR :=
        onePoleRounded fl s.drum_iirSampleFR s.drum_iirSampleER c.drumIirAmountH }
    let midSampleR := fl (s.drum_iirSampleFR - s.drum_iirSampleBR)
    let highSampleL := fl (sL - s.drum_iirSampleFL)
    let highSampleR := fl (sR - s.drum_iirSampleFR)
    ({ s with drum_fpFlip := !s.drum_fpFlip },
      { lowSampleL := lowSampleL, lowSampleR := lowSampleR, midSampleL := midSampleL,
        midSampleR := midSampleR, highSampleL := highSampleL, highSampleR := highSampleR })
  else
    let s := { s with drum_iirSampleCL := onePoleRounded fl s.drum_iirSampleCL sL c.drumIirAmountL }
    let s := { s with drum_iirSampleDL :=
        onePoleRounded fl s.drum_iirSampleDL s.drum_iirSampleCL c.drumIirAmountL }
    let lowSampleL := s.drum_iirSampleDL
    let s := { s with drum_iirSampleCR := onePoleRounded fl s.drum_iirSampleCR sR c.drumIirAmountL }
    let s := { s with drum_iirSampleDR :=
        onePoleRounded fl s.drum_iirSampleDR s.drum_iirSampleCR c.drumIirAmountL }
    let lowSampleR := s.drum_iirSampleDR
    let s := { s with drum_iirSampleGL := onePoleRounded fl s.drum_iirSampleGL sL c.drumIirAmountH }
    let s := { s with drum_iirSampleHL :=
        onePoleRounded fl s.drum_iirSampleHL s.drum_iirSampleGL c.drumIirAmountH }
    let midSampleL := fl (s.drum_iirSampleHL - s.drum_iirSampleDL)
    let s := { s with drum_iirSampleGR := onePoleRounded fl s.drum_iirSampleGR sR c.drumIirAmountH }
    let s := { s with drum_iirSampleHR :=
        onePoleRounded fl s.drum_iirSampleHR s.drum_iirSampleGR c.drumIirAmountH }
    let midSampleR := fl (s.drum_iirSampleHR - s.drum_iirSampleDR)
    let highSampleL := fl (sL - s.drum_iirSampleHL)
    let highSampleR := fl (sR - s.drum_iirSampleHR)
    ({ s with drum_fpFlip := !s.drum_fpFlip },
      { lowSampleL := lowSampleL, lowSampleR := lowSampleR, midSampleL := midSampleL,
        midSampleR := midSampleR, highSampleL := highSampleL, highSampleR := highSampleR })

/-- Low band saturation of one channel before the multiplication by the drive
(lines 322-327): clamp to `[-1, 1]`, then
`low -= low * (fabs(low) * 0.448) * (fabs(low) * 0.448)`. -/
def lowBandSaturate (low : α) : α :=
  let low := if low > 1.0 then 1.0 else low
  let low := if low < -1.0 then -1.0 else low
  low - (low * (|low| * 0.448) * (|low| * 0.448))

/-- High band saturation of one channel before the multiplication by the
drive (lines 332-337). -/
def highBandSaturate (high : α) : α :=
  let high := if high > 1.0 then 1.0 else high
  let high := if high < -1.0 then -1.0 else high
  high - (high * (|high| * 0.599) * (|high| * 0.599))

/-- The variable `skew` of the mid shaper after line 354 (lines 346-354, or
367-375): `mid` is the driven mid band value and `last` the last-mid memory. -/
def midSkew (m : Libm α) (mid last : α) : α :=
  let skew := mid - last
  let bridgerectifier := |skew|
  let bridgerectifier := if bridgerectifier > 3.1415926 then 3.1415926 else bridgerectifier
  let bridgerectifier := m.sin bridgerectifier
  let skew := if skew > 0 then bridgerectifier * 3.1415926 else -bridgerectifier * 3.1415926
  let skew := skew * mid
  skew * 1.557079633

/-- The argument of the `sin` call of line 358 (376-378 on the right). -/
def midSinArg1 (m : Libm α) (mid last : α) : α :=
  let bridgerectifier := |mid|
  let bridgerectifier := bridgerectifier + midSkew m mid last
  if bridgerectifier > 1.57079633 then 1.57079633 else bridgerectifier

/-- The argument of the `sin` call of line 362 (383 on the right). -/
def midSinArg2 (m : Libm α) (drumDrive mid last : α) : α :=
  let bridgerectifier := m.sin (midSinArg1 m mid last)
  let bridgerectifier := bridgerectifier * drumDrive
  let bridgerectifier := bridgerectifier + midSkew m mid last
  if bridgerectifier > 1.57079633 then 1.57079633 else bridgerectifier

/-- The shaped mid band value of one channel (lines 346-364, or 367-385). -/
def midBandShape (m : Libm α) (drumDrive mid last : α) : α :=
  let bridgerectifier := m.sin (midSinArg2 m drumDrive mid last)
  if mid > 0 then bridgerectifier else -bridgerectifier

/-- Lines 321-385 on the split bands: the three bands of both channels after
their saturators (low and high multiplied by the drive), and the processor
with both last-mid memories updated. -/
def drumSaturate (m : Libm α) (c : BlockLocals α) (s : SlamityProcessor α) (b : Bands α) :
    SlamityProcessor α × Bands α :=
  let lowSampleL := lowBandSaturate b.lowSampleL * c.drumDrive
  let lowSampleR := lowBandSaturate b.lowSampleR * c.drumDrive
  let highSampleL := highBandSaturate b.highSampleL * c.drumDrive
  let highSampleR := highBandSaturate b.highSampleR * c.drumDrive
  let midSampleL := b.midSampleL * c.drumDrive
  let midSampleR := b.midSampleR * c.drumDrive
  let shapedL := midBandShape m c.drumDrive midSampleL s.drum_lastSampleL
  let s := { s with drum_lastSampleL := midSampleL }
  let shapedR := midBandShape m c.drumDrive midSampleR s.drum_lastSampleR
  let s := { s with drum_lastSampleR := midSampleR }
  (s, { lowSampleL := lowSampleL, lowSampleR := lowSampleR, midSampleL := shapedL,
        midSampleR := shapedR, highSampleL := highSampleL, highSampleR := highSampleR })

/-- The DrumSlam lambda up to and including the drum-output meter tap (lines
272-390): everything but the local dry/wet. -/
def drumSlamWet (m : Libm α) (c : BlockLocals α) (r : Run α) (sL sR : α) : Run α × α × α :=
  let sL := sL * c.drumDrive
  let sR := sR * c.drumDrive
  let rmsAccDrumDrive := r.rmsAccDrumDrive + (sL * sL + sR * sR)
  let (s, b) := drumBandSplit c r.self sL sR
  let (s, b) := drumSaturate m c s b
  -- Recombine bands
  let sL := ((b.lowSampleL + b.midSampleL + b.highSampleL) / c.drumDrive) * c.drumOut
  let sR := ((b.lowSampleR + b.midSampleR + b.highSampleR) / c.drumDrive) * c.drumOut
  let rmsAccDrumOut := r.rmsAccDrumOut + (sL * sL + sR * sR)
  ({ r with self := s, rmsAccDrumDrive := rmsAccDrumDrive, rmsAccDrumOut := rmsAccDrumOut }, sL, sR)

/-- The lambda `processDrumSlam` (lines 265-397). -/
def processDrumSlam (m : Libm α) (c : BlockLocals α) (r : Run α) (sL sR : α) : Run α × α × α :=
  let dryL := sL
  let dryR := sR
  let (r, sL, sR) := drumSlamWet m c r sL sR
  -- DrumSlam dry/wet
  let sL := if c.drumWet ≠ 1.0 then (sL * c.drumWet) + (dryL * (1.0 - c.drumWet)) else sL
  let sR := if c.drumWet ≠ 1.0 then (sR * c.drumWet) + (dryR * (1.0 - c.drumWet)) else sR
  (r, sL, sR)

/-! ## The sample loop and `processBlock` -/

/-- Airwindows denormal protection (lines 411-412):
`if (fabs(x) < 1.18e-23) x = fpd * 1.18e-17;`. -/
def denormalGuard (fpd : Nat) (x : α) : α :=
  if |x| < 1.18e-23 then (fpd : α) * 1.18e-17 else x

/-- The chain in the selected order (lines 418-425). -/
def processChain (m : Libm α) (c : BlockLocals α) (r : Run α) (sL sR : α) : Run α × α × α :=
  if c.mackFirst then
    let (r, sL, sR) := processMackity c r sL sR
    processDrumSlam m c r sL sR
  else
    let (r, sL, sR) := processDrumSlam m c r sL sR
    processMackity c r sL sR

/-- The body of the sample loop down to the main-output meter tap (lines
407-436) on the frame `x = (channelL[i], channelR[i])`: the run after it and
the two samples as they stand just before the dither is added. -/
def preDither (m : Libm α) (c : BlockLocals α) (r : Run α) (x : α × α) : Run α × α × α :=
  let inputSampleL := denormalGuard r.self.fpdL x.1
  let inputSampleR := denormalGuard r.self.fpdR x.2
  -- Save for main dry/wet
  let mainDryL := inputSampleL
  let mainDryR := inputSampleR
  let (r, inputSampleL, inputSampleR) := processChain m c r inputSampleL inputSampleR
  -- Main output gain
  let inputSampleL := inputSampleL * c.mainOutGain
  let inputSampleR := inputSampleR * c.mainOutGain
  -- Main dry/wet
  let inputSampleL :=
    if c.mainWet ≠ 1.0 then (inputSampleL * c.mainWet) + (mainDryL * (1.0 - c.mainWet))
    else inputSampleL
  let inputSampleR :=
    if c.mainWet ≠ 1.0 then (inputSampleR * c.mainWet) + (mainDryR * (1.0 - c.mainWet))
    else inputSampleR
  ({ r with rmsAccMainOut := r.rmsAccMainOut + (inputSampleL * inputSampleL + inputSampleR * inputSampleR) },
    inputSampleL, inputSampleR)

/-- One advance of the dither generator (lines 440, 443):
`fpd ^= fpd << 13; fpd ^= fpd >> 17; fpd ^= fpd << 5;` on a `uint32_t`. -/
def xorshift (fpd : Nat) : Nat :=
  let fpd := (fpd ^^^ (fpd <<< 13)) % 4294967296
  let fpd := (fpd ^^^ (fpd >>> 17)) % 4294967296
  (fpd ^^^ (fpd <<< 5)) % 4294967296

/-- The value added to a sample by lines 439-441 and 442-444, `fpd` being the
generator state after its advance and `x` the pre-dither sample:
`frexpf((float)x, &expon)` and then
`(double(fpd) - uint32_t(0x7fffffff)) * 5.5e-36l * pow(2, expon + 62)`. -/
def ditherTerm (m : Libm α) (fpd : Nat) (x : α) : α :=
  ((fpd : α) - 2147483647) * 5.5e-36 * (2 : α) ^ (m.frexpf (m.toFloat x) + 62)

/-- The whole body of the sample loop (lines 407-447): the run after the frame
and the pair written to `channelL[i]`, `channelR[i]`. -/
def processSample (m : Libm α) (c : BlockLocals α) (r : Run α) (x : α × α) : Run α × (α × α) :=
  let (r, inputSampleL, inputSampleR) := preDither m c r x
  let s := { r.self with fpdL := xorshift r.self.fpdL }
  let outL := inputSampleL + ditherTerm m s.fpdL inputSampleL
  let s := { s with fpdR := xorshift s.fpdR }
  let outR := inputSampleR + ditherTerm m s.fpdR inputSampleR
  ({ r with self := s }, (outL, outR))

/-- The sample loop (lines 405-448) over the frames of the buffer: the run
after the last frame and the frames written back. -/
def sampleLoop (m : Libm α) (c : BlockLocals α) : Run α → List (α × α) → Run α × List (α × α)
  | r, [] => (r, [])
  | r, x :: xs =>
    let (r, y) := processSample m c r x
    let (r, ys) := sampleLoop m c r xs
    (r, y :: ys)

/-- Meter finalisation (lines 450-456): the five meters are stored from the
accumulators and the frame count. -/
def storeMeters (m : Libm α) (p : ParameterSnapshot α) (sampleFrames : Nat) (r : Run α) :
    SlamityProcessor α :=
  let invN : α := 1.0 / (sampleFrames : α)
  { r.self with
    vuMackInTrim := m.sqrt (r.rmsAccMackTrim * invN * 0.5)
    vuMackOutPad := m.sqrt (r.rmsAccMackPad * invN * 0.5) * p.mackInTrim * 10.0
    vuDrumDrive := m.sqrt (r.rmsAccDrumDrive * invN * 0.5) * 1.5
    vuDrumOutput := m.sqrt (r.rmsAccDrumOut * invN * 0.5) * 1.75
    vuMainOutput := m.sqrt (r.rmsAccMainOut * invN * 0.5) * 2.25 }

/-- The run the sample loop starts from (lines 166-205): coefficient slots
written, the five accumulators at `0.0`. -/
def startRun (m : Libm α) (sr : α) (s : SlamityProcessor α) : Run α :=
  { self := writeCoefficients m sr s
    rmsAccMackTrim := 0.0
    rmsAccMackPad := 0.0
    rmsAccDrumDrive := 0.0
    rmsAccDrumOut := 0.0
    rmsAccMainOut := 0.0 }

/-- `SlamityProcessor::processBlock` (lines 126-457) on a stereo buffer, given
as the list of its frames `(channelL[i], channelR[i])`.  `sr` is what
`getSampleRate()` returns and `p` what the nine parameter reads return.  The
bus layout is stereo in, stereo out, so the channel-clearing loop of lines
133-134 has no iteration.  Returns the processor and the buffer after the
call. -/
def processBlock (m : Libm α) (sr : α) (p : ParameterSnapshot α) (s : SlamityProcessor α)
    (buffer : List (α × α)) : SlamityProcessor α × List (α × α) :=
  let sampleFrames := buffer.length
  if sampleFrames = 0 then (s, buffer)
  else
    let c := blockLocals sr p
    let (r, out) := sampleLoop m c (startRun m sr s) buffer
    (storeMeters m p sampleFrames r, out)

/-! ## Views of the state used by the statements -/

/-- The processor with its five published meter values overwritten by `0`:
what is left is the filter memories (coefficient slots included), the flip
flag and the two dither states. -/
def withoutMeters (s : SlamityProcessor α) : SlamityProcessor α :=
  { s with vuMackInTrim := 0, vuMackOutPad := 0, vuDrumDrive := 0, vuDrumOutput := 0,
           vuMainOutput := 0 }

/-- The part of a run the audio path reads: the processor without its meters.
The five accumulators are left out. -/
def Run.core (r : Run α) : SlamityProcessor α := withoutMeters r.self

/-- The run `r` with the five meters and the five accumulators of `t`. -/
def Run.metersFrom (r t : Run α) : Run α :=
  { self :=
      { r.self with
        vuMackInTrim := t.self.vuMackInTrim
        vuMackOutPad := t.self.vuMackOutPad
        vuDrumDrive := t.self.vuDrumDrive
        vuDrumOutput := t.self.vuDrumOutput
        vuMainOutput := t.self.vuMainOutput }
    rmsAccMackTrim := t.rmsAccMackTrim
    rmsAccMackPad := t.rmsAccMackPad
    rmsAccDrumDrive := t.rmsAccDrumDrive
    rmsAccDrumOut := t.rmsAccDrumOut
    rmsAccMainOut := t.rmsAccMainOut }

/-- The filter memories of the Mackity engine: its four one-pole memories and
its two biquad arrays. -/
def mackMemories (s : SlamityProcessor α) : α × α × α × α × (Fin 15 → α) × (Fin 15 → α) :=
  (s.mack_iirSampleAL, s.mack_iirSampleBL, s.mack_iirSampleAR, s.mack_iirSampleBR,
    s.mack_biquadA, s.mack_biquadB)

/-- Mackity's subsonic stage fed the constant frame `(xL, xR)`: the processor
after the `n`-th sample and the frame the stage puts out on it (for `n = 0`
nothing has run yet: the given processor, with the input frame). -/
def mackHighpassAConstant (c : BlockLocals α) (s : SlamityProcessor α) (xL xR : α) :
    Nat → SlamityProcessor α × α × α
  | 0 => (s, xL, xR)
  | n + 1 => mackHighpassA c (mackHighpassAConstant c s xL xR n).1 xL xR

/-- Mackity's subsonic stage with the rounding written out, fed the constant
frame `(xL, xR)`: the processor after the `n`-th sample and the frame the stage
puts out on it. -/
def mackHighpassAConstantRounded (fl : α → α) (c : BlockLocals α) (s : SlamityProcessor α)
    (xL xR : α) : Nat → SlamityProcessor α × α × α
  | 0 => (s, xL, xR)
  | n + 1 =>
    mackHighpassARounded fl c (mackHighpassAConstantRounded fl c s xL xR n).1 xL xR

/-- Both dither states are nonzero 32-bit values. -/
def DitherSeeded (s : SlamityProcessor α) : Prop :=
  (s.fpdL ≠ 0 ∧ s.fpdL < 4294967296) ∧ (s.fpdR ≠ 0 ∧ s.fpdR < 4294967296)

/-- The coefficient slots of a biquad array that the sample loop reads, on
both channels: `b0 b1 b2 a1 a2` in slots 2 to 6. -/
def coeffSlots (b : Fin 15 → α) : α × α × α × α × α :=
  (b 2, b 3, b 4, b 5, b 6)

/-- The state of the left channel: the left one-pole memories and history taps
(slots 7 to 10 of both biquad arrays) of Mackity, the eight left cascade
memories and the left last-mid memory of DrumSlam, the shared flip flag and
the left dither state. -/
def leftMemories (s : SlamityProcessor α) :
    (α × α) × (α × α × α × α) × (α × α × α × α) ×
      (α × α × α × α × α × α × α × α × α) × Bool × Nat :=
  ((s.mack_iirSampleAL, s.mack_iirSampleBL),
    (s.mack_biquadA 7, s.mack_biquadA 8, s.mack_biquadA 9, s.mack_biquadA 10),
    (s.mack_biquadB 7, s.mack_biquadB 8, s.mack_biquadB 9, s.mack_biquadB 10),
    (s.drum_iirSampleAL, s.drum_iirSampleBL, s.drum_iirSampleCL, s.drum_iirSampleDL,
      s.drum_iirSampleEL, s.drum_iirSampleFL, s.drum_iirSampleGL, s.drum_iirSampleHL,
      s.drum_lastSampleL),
    s.drum_fpFlip, s.fpdL)

/-- The state of the right channel: as `leftMemories`, with the right
memories, the history taps in slots 11 to 14 and the right dither state. -/
def rightMemories (s : SlamityProcessor α) :
    (α × α) × (α × α × α × α) × (α × α × α × α) ×
      (α × α × α × α × α × α × α × α × α) × Bool × Nat :=
  ((s.mack_iirSampleAR, s.mack_iirSampleBR),
    (s.mack_biquadA 11, s.mack_biquadA 12, s.mack_biquadA 13, s.mack_biquadA 14),
    (s.mack_biquadB 11, s.mack_biquadB 12, s.mack_biquadB 13, s.mack_biquadB 14),
    (s.drum_iirSampleAR, s.drum_iirSampleBR, s.drum_iirSampleCR, s.drum_iirSampleDR,
      s.drum_iirSampleER, s.drum_iirSampleFR, s.drum_iirSampleGR, s.drum_iirSampleHR,
      s.drum_lastSampleR),
    s.drum_fpFlip, s.fpdR)

/-- The rounding `fl` has unit roundoff `u` above the magnitude `L`: it keeps
`0`, it is monotone, and the error of rounding `x` is at most `u * |x|`, or
`u * L` when `|x| < L` (the subnormal range). -/
def RoundsWithin (fl : α → α) (u L : α) : Prop :=
  fl 0 = 0 ∧ (∀ x y : α, x ≤ y → fl x ≤ fl y) ∧ ∀ x : α, |fl x - x| ≤ u * max |x| L

/-! ## Binary rounding -/

/-- The integer nearest to `q`, a tie going to the even neighbour. -/
def roundHalfEven (q : ℚ) : Int :=
  if Int.fract q < 1 / 2 then ⌊q⌋
  else if 1 / 2 < Int.fract q then ⌊q⌋ + 1
  else if ⌊q⌋ % 2 = 0 then ⌊q⌋ else ⌊q⌋ + 1

/-- The exponent of the spacing of the binary format with `p` significant bits
and least exponent `emin` around `x > 0`. -/
def quantumExponent (p : Nat) (emin : Int) (x : ℚ) : Int :=
  max (Int.log 2 x + 1 - p) emin

/-- A value `x ≥ 0` rounded to the nearest value of the binary format with `p`
significant bits and least exponent `emin`, ties to even: the nearest
multiple of the spacing around `x`. -/
def roundMagnitude (p : Nat) (emin : Int) (x : ℚ) : ℚ :=
  if x = 0 then 0
  else (roundHalfEven (x / 2 ^ quantumExponent p emin x) : ℚ) * 2 ^ quantumExponent p emin x

/-- Rounding to nearest, ties to even, in the binary format with `p`
significant bits and least exponent `emin` (subnormal values included, the
exponent is not bounded above). -/
def roundBinary (p : Nat) (emin : Int) (x : ℚ) : ℚ :=
  if 0 ≤ x then roundMagnitude p emin x else -roundMagnitude p emin (-x)

/-- The double nearest to `x`: 53 significant bits, least spacing `2 ^ (-1074)`. -/
def roundDouble (x : ℚ) : ℚ := roundBinary 53 (-1074) x

/-- The `float` nearest to `x`: 24 significant bits, least spacing `2 ^ (-149)`;
the conversion `(float)x` of a double. -/
def roundFloat (x : ℚ) : ℚ := roundBinary 24 (-149) x

/-! ## Concrete inputs for the examples -/

/-- The default values `createParameterLayout` registers for the nine
parameters (lines 24-60). -/
def defaultParameters : ParameterSnapshot α where
  mackInTrim := 0.1
  mackOutPad := 1.0
  mackDryWet := 1.0
  drumDrive := 0.0
  drumOutput := 1.0
  drumDryWet := 1.0
  chainOrder := 0.0
  mainOutput := 1.0
  mainDryWet := 1.0

/-- Rational stand-ins for the C library, to run the definitions on concrete
inputs: the cubic Taylor polynomials of `sin` and `tan`, `Rat.sqrt`, the
conversion to the nearest `float`, the exact binary exponent and `355/113` for
pi.  No theorem depends on the values of `sin`, `tan`, `sqrt` and `pi`. -/
def ratLibm : Libm ℚ where
  sin := fun x => x - x ^ 3 / 6
  tan := fun x => x + x ^ 3 / 3
  sqrt := Rat.sqrt
  toFloat := roundFloat
  frexpf := fun x => if x = 0 then 0 else Int.log 2 |x| + 1
  pi := 355 / 113

/-- A processor in mid-stream, every memory nonzero: a concrete prior state
for the examples. -/
def usedProcessor : SlamityProcessor ℚ where
  vuMackInTrim := 1 / 8
  vuMackOutPad := 1 / 9
  vuDrumDrive := 1 / 10
  vuDrumOutput := 1 / 11
  vuMainOutput := 1 / 12
  mack_iirSampleAL := 1 / 3
  mack_iirSampleBL := -1 / 5
  mack_iirSampleAR := 1 / 7
  mack_iirSampleBR := -1 / 4
  mack_biquadA := fun i => (i.val + 1 : ℚ) / 100
  mack_biquadB := fun i => -(i.val + 1 : ℚ) / 200
  drum_iirSampleAL := 1 / 13
  drum_iirSampleBL := 1 / 14
  drum_iirSampleCL := 1 / 15
  drum_iirSampleDL := 1 / 16
  drum_iirSampleEL := 1 / 17
  drum_iirSampleFL := 1 / 18
  drum_iirSampleGL := 1 / 19
  drum_iirSampleHL := 1 / 20
  drum_lastSampleL := 1 / 21
  drum_iirSampleAR := -1 / 13
  drum_iirSampleBR := -1 / 14
  drum_iirSampleCR := -1 / 15
  drum_iirSampleDR := -1 / 16
  drum_iirSampleER := -1 / 17
  drum_iirSampleFR := -1 / 18
  drum_iirSampleGR := -1 / 19
  drum_iirSampleHR := -1 / 20
  drum_lastSampleR := -1 / 21
  drum_fpFlip := false
  fpdL := 123456789
  fpdR := 987654321

/-- The defaults with `chainOrder = 1`: DrumSlam first. -/
def drumFirstParameters : ParameterSnapshot α where
  mackInTrim := 0.1
  mackOutPad := 1.0
  mackDryWet := 1.0
  drumDrive := 0.0
  drumOutput := 1.0
  drumDryWet := 1.0
  chainOrder := 1.0
  mainOutput := 1.0
  mainDryWet := 1.0

/-- The processor `usedProcessor` with every right-channel memory and the
right dither state replaced: the left channel's state is untouched. -/
def rightAlteredProcessor : SlamityProcessor ℚ :=
  { usedProcessor with
    mack_iirSampleAR := 5
    mack_iirSampleBR := -3
    mack_biquadA := fun i => if 11 ≤ i.val then 9 else (i.val + 1 : ℚ) / 100
    mack_biquadB := fun i => if 11 ≤ i.val then -7 else -(i.val + 1 : ℚ) / 200
    drum_iirSampleAR := 1 / 2
    drum_iirSampleBR := 1 / 3
    drum_iirSampleCR := 1 / 4
    drum_iirSampleDR := 1 / 5
    drum_iirSampleER := 1 / 6
    drum_iirSampleFR := 1 / 7
    drum_iirSampleGR := 1 / 8
    drum_iirSampleHR := 1 / 9
    drum_lastSampleR := 2
    fpdR := 42 }

/-- The processor `usedProcessor` with every left-channel memory and the left
dither state replaced: the right channel's state is untouched. -/
def leftAlteredProcessor : SlamityProcessor ℚ :=
  { usedProcessor with
    mack_iirSampleAL := 5
    mack_iirSampleBL := -3
    mack_biquadA := fun i => if 7 ≤ i.val ∧ i.val < 11 then 9 else (i.val + 1 : ℚ) / 100
    mack_biquadB := fun i => if 7 ≤ i.val ∧ i.val < 11 then -7 else -(i.val + 1 : ℚ) / 200
    drum_iirSampleAL := 1 / 2
    drum_iirSampleBL := 1 / 3
    drum_iirSampleCL := 1 / 4
    drum_iirSampleDL := 1 / 5
    drum_iirSampleEL := 1 / 6
    drum_iirSampleFL := 1 / 7
    drum_iirSampleGL := 1 / 8
    drum_iirSampleHL := 1 / 9
    drum_lastSampleL := 2
    fpdL := 42 }

/-- The block locals at 44100 Hz and the default parameters with the four
one-pole coefficients as the doubles the code holds for them (`overallscale`
is exactly `1.0` there): the doubles nearest to `0.001860867`, `0.000287496`,
`0.0819` and `0.377933067`. -/
def doubleLocals : BlockLocals ℚ :=
  { blockLocals 44100 defaultParameters with
    mackIirAmountA := 4290867163026459 / 2305843009213693952
    mackIirAmountB := 5303365134215201 / 18446744073709551616
    drumIirAmountL := 2950758475853149 / 36028797018963968
    drumIirAmountH := 6808236878848755 / 18014398509481984 }

/-- Block locals whose subsonic coefficient `mackIirAmountA` is the double
`1 - 2^(-20)`, in `(0, 1)` and close to `1`; the other fields are those of
`doubleLocals`. -/
def nearOneLocals : BlockLocals ℚ :=
  { doubleLocals with mackIirAmountA := 1048575 / 1048576 }

/-- A freshly constructed processor whose two subsonic memories hold
`0.5 - 67 * 2^(-52)`, the double they hold in the code after 16660 samples of
the constant input `0.5` at 44100 Hz. -/
def stalledProcessor : SlamityProcessor ℚ :=
  { SlamityProcessor.initial with
    mack_iirSampleAL := 2251799813685181 / 4503599627370496
    mack_iirSampleAR := 2251799813685181 / 4503599627370496 }

theorem lit_one : (1.0 : α) = 1 := by norm_num

theorem lit_zero : (0.0 : α) = 0 := by norm_num

/-! ## The dry paths and the shape of the pre-dither samples -/

theorem denormalGuard_of_le (fpd : Nat) (x : α) (h : 1.18e-23 ≤ |x|) :
    denormalGuard fpd x = x := by
  simp [denormalGuard, not_lt.mpr h]

theorem preDither_fst (m : Libm α) (c : BlockLocals α) (r : Run α) (x : α × α) :
    (preDither m c r x).2.1 =
      if c.mainWet ≠ 1.0 then
        ((processChain m c r (denormalGuard r.self.fpdL x.1) (denormalGuard r.self.fpdR x.2)).2.1
            * c.mainOutGain) * c.mainWet + denormalGuard r.self.fpdL x.1 * (1.0 - c.mainWet)
      else (processChain m c r (denormalGuard r.self.fpdL x.1) (denormalGuard r.self.fpdR x.2)).2.1
            * c.mainOutGain := by
  simp only [preDither]

theorem preDither_snd (m : Libm α) (c : BlockLocals α) (r : Run α) (x : α × α) :
    (preDither m c r x).2.2 =
      if c.mainWet ≠ 1.0 then
        ((processChain m c r (denormalGuard r.self.fpdL x.1) (denormalGuard r.self.fpdR x.2)).2.2
            * c.mainOutGain) * c.mainWet + denormalGuard r.self.fpdR x.2 * (1.0 - c.mainWet)
      else (processChain m c r (denormalGuard r.self.fpdL x.1) (denormalGuard r.self.fpdR x.2)).2.2
            * c.mainOutGain := by
  simp only [preDither]

theorem processBlock_of_ne_nil (m : Libm α) (sr : α) (p : ParameterSnapshot α)
    (s : SlamityProcessor α) (buffer : List (α × α)) (h : buffer ≠ []) :
    processBlock m sr p s buffer =
      (storeMeters m p buffer.length (sampleLoop m (blockLocals sr p) (startRun m sr s) buffer).1,
        (sampleLoop m (blockLocals sr p) (startRun m sr s) buffer).2) := by
  have hl : buffer.length ≠ 0 := fun h0 => h (List.length_eq_zero.mp h0)
  simp only [processBlock, hl, if_false]

/-! ## What the audio path does not read: meters and accumulators -/

theorem Run.eq_metersFrom (r t : Run α) (h : r.core = t.core) : t = r.metersFrom t := by
  obtain ⟨s1, a1, a2, a3, a4, a5⟩ := r
  obtain ⟨s2, b1, b2, b3, b4, b5⟩ := t
  cases s1; cases s2
  simp only [Run.core, withoutMeters, SlamityProcessor.mk.injEq, true_and] at h
  simp only [Run.metersFrom, Run.mk.injEq, SlamityProcessor.mk.injEq, true_and, and_true]
  simp only [h, and_self]

theorem Run.core_metersFrom (r t : Run α) : (r.metersFrom t).core = r.core := rfl

theorem processMackity_metersFrom (c : BlockLocals α) (r t : Run α) (sL sR : α) :
    (processMackity c (r.metersFrom t) sL sR).1.core = (processMackity c r sL sR).1.core ∧
    (processMackity c (r.metersFrom t) sL sR).2 = (processMackity c r sL sR).2 := ⟨rfl, rfl⟩

theorem processDrumSlam_metersFrom (m : Libm α) (c : BlockLocals α) (r t : Run α) (sL sR : α) :
    (processDrumSlam m c (r.metersFrom t) sL sR).1.core = (processDrumSlam m c r sL sR).1.core ∧
    (processDrumSlam m c (r.metersFrom t) sL sR).2 = (processDrumSlam m c r sL sR).2 := by
  obtain ⟨s, a1, a2, a3, a4, a5⟩ := r
  cases hf : s.drum_fpFlip <;>
    exact ⟨by simp [processDrumSlam, drumSlamWet, drumBandSplit, Run.metersFrom, hf, Run.core,
                withoutMeters, drumSaturate],
           by simp [processDrumSlam, drumSlamWet, drumBandSplit, Run.metersFrom, hf, Run.core,
                withoutMeters, drumSaturate]⟩

theorem Run.core_fpdL (r t : Run α) (h : r.core = t.core) : r.self.fpdL = t.self.fpdL := by
  have h1 := congrArg SlamityProcessor.fpdL h
  exact h1

theorem Run.core_fpdR (r t : Run α) (h : r.core = t.core) : r.self.fpdR = t.self.fpdR := by
  have h1 := congrArg SlamityProcessor.fpdR h
  exact h1

theorem processMackity_congr (c : BlockLocals α) (r t : Run α) (sL sR uL uR : α)
    (h : r.core = t.core) (hL : sL = uL) (hR : sR = uR) :
    (processMackity c r sL sR).1.core = (processMackity c t uL uR).1.core ∧
    (processMackity c r sL sR).2 = (processMackity c t uL uR).2 := by
  subst hL hR
  rw [Run.eq_metersFrom r t h]
  exact ⟨(processMackity_metersFrom c r t sL sR).1.symm, (processMackity_metersFrom c r t sL sR).2.symm⟩

theorem processDrumSlam_congr (m : Libm α) (c : BlockLocals α) (r t : Run α) (sL sR uL uR : α)
    (h : r.core = t.core) (hL : sL = uL) (hR : sR = uR) :
    (processDrumSlam m c r sL sR).1.core = (processDrumSlam m c t uL uR).1.core ∧
    (processDrumSlam m c r sL sR).2 = (processDrumSlam m c t uL uR).2 := by
  subst hL hR
  rw [Run.eq_metersFrom r t h]
  exact ⟨(processDrumSlam_metersFrom m c r t sL sR).1.symm,
    (processDrumSlam_metersFrom m c r t sL sR).2.symm⟩

theorem processChain_congr (m : Libm α) (c : BlockLocals α) (r t : Run α) (sL sR uL uR : α)
    (h : r.core = t.core) (hL : sL = uL) (hR : sR = uR) :
    (processChain m c r sL sR).1.core = (processChain m c t uL uR).1.core ∧
    (processChain m c r sL sR).2 = (processChain m c t uL uR).2 := by
  unfold processChain
  cases c.mackFirst
  · have h1 := processDrumSlam_congr m c r t sL sR uL uR h hL hR
    exact processMackity_congr c _ _ _ _ _ _ h1.1 (congrArg Prod.fst h1.2) (congrArg Prod.snd h1.2)
  · have h1 := processMackity_congr c r t sL sR uL uR h hL hR
    exact processDrumSlam_congr m c _ _ _ _ _ _ h1.1 (congrArg Prod.fst h1.2)
      (congrArg Prod.snd h1.2)

theorem preDither_congr (m : Libm α) (c : BlockLocals α) (r t : Run α) (x : α × α)
    (h : r.core = t.core) :
    (preDither m c r x).1.core = (preDither m c t x).1.core ∧
    (preDither m c r x).2 = (preDither m c t x).2 := by
  have hL : r.self.fpdL = t.self.fpdL := Run.core_fpdL r t h
  have hR : r.self.fpdR = t.self.fpdR := Run.core_fpdR r t h
  have h1 := processChain_congr m c r t (denormalGuard r.self.fpdL x.1)
    (denormalGuard r.self.fpdR x.2) (denormalGuard t.self.fpdL x.1)
    (denormalGuard t.self.fpdR x.2) h (by rw [hL]) (by rw [hR])
  have h2 : (processChain m c r (denormalGuard r.self.fpdL x.1)
      (denormalGuard r.self.fpdR x.2)).2.1 = (processChain m c t (denormalGuard t.self.fpdL x.1)
      (denormalGuard t.self.fpdR x.2)).2.1 := congrArg Prod.fst h1.2
  have h3 : (processChain m c r (denormalGuard r.self.fpdL x.1)
      (denormalGuard r.self.fpdR x.2)).2.2 = (processChain m c t (denormalGuard t.self.fpdL x.1)
      (denormalGuard t.self.fpdR x.2)).2.2 := congrArg Prod.snd h1.2
  refine ⟨h1.1, ?_⟩
  simp only [hL, hR] at h2 h3
  simp only [preDither, hL, hR, h2, h3]

theorem processSample_congr (m : Libm α) (c : BlockLocals α) (r t : Run α) (x : α × α)
    (h : r.core = t.core) :
    (processSample m c r x).1.core = (processSample m c t x).1.core ∧
    (processSample m c r x).2 = (processSample m c t x).2 := by
  have h1 := preDither_congr m c r t x h
  have hL := Run.core_fpdL _ _ h1.1
  have hR := Run.core_fpdR _ _ h1.1
  have h2 : (preDither m c r x).2.1 = (preDither m c t x).2.1 := congrArg Prod.fst h1.2
  have h3 : (preDither m c r x).2.2 = (preDither m c t x).2.2 := congrArg Prod.snd h1.2
  have h4 := h1.1
  constructor
  · simp only [Run.core, withoutMeters, SlamityProcessor.mk.injEq, true_and] at h4
    simp only [processSample, Run.core, withoutMeters, SlamityProcessor.mk.injEq, true_and]
    simp only [h4, hL, hR, and_self]
  · simp only [processSample, h2, h3, hL, hR]

theorem sampleLoop_congr (m : Libm α) (c : BlockLocals α) (xs : List (α × α)) :
    ∀ r t : Run α, r.core = t.core →
      (sampleLoop m c r xs).1.core = (sampleLoop m c t xs).1.core ∧
      (sampleLoop m c r xs).2 = (sampleLoop m c t xs).2 := by
  induction xs with
  | nil => intro r t h; exact ⟨h, rfl⟩
  | cons x xs ih =>
    intro r t h
    have h1 := processSample_congr m c r t x h
    have h2 := ih _ _ h1.1
    simp only [sampleLoop]
    exact ⟨h2.1, by rw [h1.2, h2.2]⟩

theorem sampleLoop_append (m : Libm α) (c : BlockLocals α) (xs ys : List (α × α)) :
    ∀ r : Run α, sampleLoop m c r (xs ++ ys) =
      ((sampleLoop m c (sampleLoop m c r xs).1 ys).1,
        (sampleLoop m c r xs).2 ++ (sampleLoop m c (sampleLoop m c r xs).1 ys).2) := by
  induction xs with
  | nil => intro r; rfl
  | cons x xs ih =>
    intro r
    rw [List.cons_append]
    simp only [sampleLoop]
    rw [ih]
    rfl

/-! ### The coefficient slots are not touched by the sample loop -/

theorem biquadDF1_slot (b : Fin 15 → α) (x1 x2 y1 y2 i : Fin 15) (s : α)
    (h1 : i ≠ x1) (h2 : i ≠ x2) (h3 : i ≠ y1) (h4 : i ≠ y2) :
    (biquadDF1 b x1 x2 y1 y2 s).1 i = b i := by
  simp [biquadDF1, Function.update_apply, h1, h2, h3, h4]

theorem fin_ne_of_lt_seven (i j : Fin 15) (hi : i.val < 7) (hj : 7 ≤ j.val) : i ≠ j := by
  intro h
  rw [h] at hi
  omega

theorem biquadDF1_left_coeff (b : Fin 15 → α) (i : Fin 15) (s : α) (hi : i.val < 7) :
    (biquadDF1 b 7 8 9 10 s).1 i = b i :=
  biquadDF1_slot b 7 8 9 10 i s (fin_ne_of_lt_seven i 7 hi (by decide))
    (fin_ne_of_lt_seven i 8 hi (by decide)) (fin_ne_of_lt_seven i 9 hi (by decide))
    (fin_ne_of_lt_seven i 10 hi (by decide))

theorem biquadDF1_right_coeff (b : Fin 15 → α) (i : Fin 15) (s : α) (hi : i.val < 7) :
    (biquadDF1 b 11 12 13 14 s).1 i = b i :=
  biquadDF1_slot b 11 12 13 14 i s (fin_ne_of_lt_seven i 11 hi (by decide))
    (fin_ne_of_lt_seven i 12 hi (by decide)) (fin_ne_of_lt_seven i 13 hi (by decide))
    (fin_ne_of_lt_seven i 14 hi (by decide))

theorem processMackity_coeff (c : BlockLocals α) (r : Run α) (sL sR : α) (i : Fin 15)
    (hi : i.val < 7) :
    (processMackity c r sL sR).1.self.mack_biquadA i = r.self.mack_biquadA i ∧
    (processMackity c r sL sR).1.self.mack_biquadB i = r.self.mack_biquadB i := by
  constructor
  · show (biquadDF1 (biquadDF1 r.self.mack_biquadA 7 8 9 10 _).1 11 12 13 14 _).1 i = _
    rw [biquadDF1_right_coeff _ _ _ hi, biquadDF1_left_coeff _ _ _ hi]
  · show (biquadDF1 (biquadDF1 r.self.mack_biquadB 7 8 9 10 _).1 11 12 13 14 _).1 i = _
    rw [biquadDF1_right_coeff _ _ _ hi, biquadDF1_left_coeff _ _ _ hi]

theorem processDrumSlam_biquad (m : Libm α) (c : BlockLocals α) (r : Run α) (sL sR : α) :
    (processDrumSlam m c r sL sR).1.self.mack_biquadA = r.self.mack_biquadA ∧
    (processDrumSlam m c r sL sR).1.self.mack_biquadB = r.self.mack_biquadB := by
  cases hf : r.self.drum_fpFlip <;>
    simp [processDrumSlam, drumSlamWet, drumBandSplit, hf, drumSaturate]

theorem processChain_coeff (m : Libm α) (c : BlockLocals α) (r : Run α) (sL sR : α) (i : Fin 15)
    (hi : i.val < 7) :
    (processChain m c r sL sR).1.self.mack_biquadA i = r.self.mack_biquadA i ∧
    (processChain m c r sL sR).1.self.mack_biquadB i = r.self.mack_biquadB i := by
  unfold processChain
  cases c.mackFirst
  · have h1 := processDrumSlam_biquad m c r sL sR
    have h2 := processMackity_coeff c (processDrumSlam m c r sL sR).1
      (processDrumSlam m c r sL sR).2.1 (processDrumSlam m c r sL sR).2.2 i hi
    rw [h1.1, h1.2] at h2
    exact h2
  · have h1 := processMackity_coeff c r sL sR i hi
    have h2 := processDrumSlam_biquad m c (processMackity c r sL sR).1
      (processMackity c r sL sR).2.1 (processMackity c r sL sR).2.2
    rw [← h1.1, ← h1.2]
    exact ⟨congrFun h2.1 i, congrFun h2.2 i⟩

theorem processSample_coeff (m : Libm α) (c : BlockLocals α) (r : Run α) (x : α × α) (i : Fin 15)
    (hi : i.val < 7) :
    (processSample m c r x).1.self.mack_biquadA i = r.self.mack_biquadA i ∧
    (processSample m c r x).1.self.mack_biquadB i = r.self.mack_biquadB i :=
  processChain_coeff m c r (denormalGuard r.self.fpdL x.1) (denormalGuard r.self.fpdR x.2) i hi

theorem sampleLoop_coeff (m : Libm α) (c : BlockLocals α) (xs : List (α × α)) (i : Fin 15)
    (hi : i.val < 7) :
    ∀ r : Run α, (sampleLoop m c r xs).1.self.mack_biquadA i = r.self.mack_biquadA i ∧
      (sampleLoop m c r xs).1.self.mack_biquadB i = r.self.mack_biquadB i := by
  induction xs with
  | nil => intro r; exact ⟨rfl, rfl⟩
  | cons x xs ih =>
    intro r
    have h1 := processSample_coeff m c r x i hi
    have h2 := ih (processSample m c r x).1
    simp only [sampleLoop]
    exact ⟨h2.1.trans h1.1, h2.2.trans h1.2⟩

theorem biquadCoefficients_idem (m : Libm α) (sr Q : α) (b b0 : Fin 15 → α)
    (h : ∀ i : Fin 15, i.val < 7 → b i = biquadCoefficients m sr Q b0 i) :
    biquadCoefficients m sr Q b = b := by
  funext i
  by_cases hi : i.val < 7
  · rw [h i hi]
    revert hi
    fin_cases i <;> intro hi <;>
      first
      | (exfalso; revert hi; decide)
      | simp [biquadCoefficients, Function.update_apply]
  · revert hi
    fin_cases i <;> intro hi <;>
      first
      | (exfalso; apply hi; decide)
      | simp [biquadCoefficients, Function.update_apply]

theorem startRun_storeMeters_core (m : Libm α) (sr : α) (p : ParameterSnapshot α) (n : Nat)
    (r : Run α)
    (hA : ∀ i : Fin 15, i.val < 7 →
      r.self.mack_biquadA i = biquadCoefficients m sr 0.431684981684982 r.self.mack_biquadA i)
    (hB : ∀ i : Fin 15, i.val < 7 →
      r.self.mack_biquadB i = biquadCoefficients m sr 1.1582298 r.self.mack_biquadB i) :
    (startRun m sr (storeMeters m p n r)).core = r.core := by
  have h1 := biquadCoefficients_idem m sr 0.431684981684982 r.self.mack_biquadA _ hA
  have h2 := biquadCoefficients_idem m sr 1.1582298 r.self.mack_biquadB _ hB
  simp only [Run.core, withoutMeters, startRun, writeCoefficients, storeMeters, h1, h2]

theorem biquadCoefficients_coeff (m : Libm α) (sr Q : α) (b b0 : Fin 15 → α) (i : Fin 15)
    (hi : i.val < 7) : biquadCoefficients m sr Q b i = biquadCoefficients m sr Q b0 i := by
  revert hi
  fin_cases i <;> intro hi <;>
    first
    | (exfalso; revert hi; decide)
    | simp [biquadCoefficients, Function.update_apply]

/-! ## C1: fully dry pass-through -/

/-- Claim C2.  For every parameter snapshot, run and sample pair: the state the
loop body leaves is the state after one pass of the chain on the guarded input
frame; that pass is Mackity followed by DrumSlam when `chainOrder < 0.5`, and
DrumSlam followed by Mackity otherwise, in particular for `chainOrder = 0.5`
and `chainOrder = 1`.  Each lambda is applied once in either order. -/
theorem chain_routing (m : Libm α) (sr : α) (p : ParameterSnapshot α) (r : Run α) (sL sR : α)
    (x : α × α) :
    (preDither m (blockLocals sr p) r x).1.self =
      (processChain m (blockLocals sr p) r (denormalGuard r.self.fpdL x.1)
        (denormalGuard r.self.fpdR x.2)).1.self ∧
    (p.chainOrder < 0.5 →
      processChain m (blockLocals sr p) r sL sR =
        processDrumSlam m (blockLocals sr p) (processMackity (blockLocals sr p) r sL sR).1
          (processMackity (blockLocals sr p) r sL sR).2.1
          (processMackity (blockLocals sr p) r sL sR).2.2) ∧
    (¬ p.chainOrder < 0.5 →
      processChain m (blockLocals sr p) r sL sR =
        processMackity (blockLocals sr p) (processDrumSlam m (blockLocals sr p) r sL sR).1
          (processDrumSlam m (blockLocals sr p) r sL sR).2.1
          (processDrumSlam m (blockLocals sr p) r sL sR).2.2) ∧
    (p.chainOrder = 0.5 ∨ p.chainOrder = 1 →
      processChain m (blockLocals sr p) r sL sR =
        processMackity (blockLocals sr p) (processDrumSlam m (blockLocals sr p) r sL sR).1
          (processDrumSlam m (blockLocals sr p) r sL sR).2.1
          (processDrumSlam m (blockLocals sr p) r sL sR).2.2) := by
  have hnot : ¬ p.chainOrder < 0.5 →
      processChain m (blockLocals sr p) r sL sR =
        processMackity (blockLocals sr p) (processDrumSlam m (blockLocals sr p) r sL sR).1
          (processDrumSlam m (blockLocals sr p) r sL sR).2.1
          (processDrumSlam m (blockLocals sr p) r sL sR).2.2 := by
    intro h
    simp [processChain, blockLocals, h]
  refine ⟨rfl, ?_, hnot, ?_⟩
  · intro h
    simp [processChain, blockLocals, h]
  · intro h
    apply hnot
    rcases h with h | h <;> rw [h] <;> norm_num

/-- Claim C2 on a concrete frame with `chainOrder = 1`: DrumSlam runs first. -/
theorem chain_routing_witness :
    processChain ratLibm (blockLocals 44100 drumFirstParameters)
        (startRun ratLibm 44100 usedProcessor) (1 / 2) (-1 / 4) =
      processMackity (blockLocals 44100 drumFirstParameters)
        (processDrumSlam ratLibm (blockLocals 44100 drumFirstParameters)
          (startRun ratLibm 44100 usedProcessor) (1 / 2) (-1 / 4)).1
        (processDrumSlam ratLibm (blockLocals 44100 drumFirstParameters)
          (startRun ratLibm 44100 usedProcessor) (1 / 2) (-1 / 4)).2.1
        (processDrumSlam ratLibm (blockLocals 44100 drumFirstParameters)
          (startRun ratLibm 44100 usedProcessor) (1 / 2) (-1 / 4)).2.2 :=
  (chain_routing ratLibm 44100 drumFirstParameters (startRun ratLibm 44100 usedProcessor)
    (1 / 2) (-1 / 4) (0, 0)).2.2.2 (Or.inr (by norm_num [drumFirstParameters]))

/-! ## C3: global dry -/

/-- Claim C4.  `processBlock` on a buffer of zero frames returns the processor
it was given, unchanged in every field (filter memories, the coefficient slots
of both biquad arrays, `drum_fpFlip`, both dither states, all five meters),
with the empty buffer.  This holds for every library, sample rate and
parameter snapshot: nothing is computed from them, and the division by the
frame count, which the source performs only after the early return, is
not reached. -/
theorem empty_block_noop (m : Libm α) (sr : α) (p : ParameterSnapshot α)
    (s : SlamityProcessor α) : processBlock m sr p s [] = (s, []) := rfl

/-! ## C5: state persists across block boundaries -/

/-- Claim C5.  For every library, sample rate, parameter snapshot, processor
state and two non-empty blocks `A`, `B`: processing `A ++ B` as one block
writes the same output frames as processing `A` and then `B`, and leaves the
same processor apart from the five meter values (same filter memories and
coefficient slots, same `drum_fpFlip`, same dither states). -/
theorem block_concatenation (m : Libm α) (sr : α) (p : ParameterSnapshot α)
    (s : SlamityProcessor α) (A B : List (α × α)) (hA : A ≠ []) (hB : B ≠ []) :
    (processBlock m sr p s (A ++ B)).2 =
      (processBlock m sr p s A).2 ++ (processBlock m sr p (processBlock m sr p s A).1 B).2 ∧
    withoutMeters (processBlock m sr p s (A ++ B)).1 =
      withoutMeters (processBlock m sr p (processBlock m sr p s A).1 B).1 := by
  have hlA : A.length ≠ 0 := fun h => hA (List.length_eq_zero.mp h)
  have hlB : B.length ≠ 0 := fun h => hB (List.length_eq_zero.mp h)
  have hlAB : (A ++ B).length ≠ 0 := by
    rw [List.length_append]; omega
  have hcore : (startRun m sr (storeMeters m p A.length
      (sampleLoop m (blockLocals sr p) (startRun m sr s) A).1)).core =
      (sampleLoop m (blockLocals sr p) (startRun m sr s) A).1.core := by
    apply startRun_storeMeters_core
    · intro i hi
      rw [(sampleLoop_coeff m (blockLocals sr p) A i hi (startRun m sr s)).1]
      exact biquadCoefficients_coeff m sr _ _ _ i hi
    · intro i hi
      rw [(sampleLoop_coeff m (blockLocals sr p) A i hi (startRun m sr s)).2]
      exact biquadCoefficients_coeff m sr _ _ _ i hi
  have hloop := sampleLoop_congr m (blockLocals sr p) B _ _ hcore
  simp only [processBlock, hlA, hlB, hlAB, if_false, sampleLoop_append]
  exact ⟨by rw [hloop.2], hloop.1.symm⟩

/-- Claim C5 on concrete blocks of one and two frames. -/
theorem block_concatenation_witness :
    (processBlock ratLibm 44100 defaultParameters usedProcessor
        ([(1 / 2, -1 / 4)] ++ [(1 / 8, 0), (0, 1)])).2 =
      (processBlock ratLibm 44100 defaultParameters usedProcessor [(1 / 2, -1 / 4)]).2 ++
        (processBlock ratLibm 44100 defaultParameters
          (processBlock ratLibm 44100 defaultParameters usedProcessor [(1 / 2, -1 / 4)]).1
          [(1 / 8, 0), (0, 1)]).2 :=
  (block_concatenation ratLibm 44100 defaultParameters usedProcessor [(1 / 2, -1 / 4)]
    [(1 / 8, 0), (0, 1)] (by simp) (by simp)).1

/-! ## C6: the state after `prepareToPlay` -/

theorem reseedLoop_ge (rands : List Nat) :
    ∀ fpd fpd' rest, reseedLoop fpd rands = some (fpd', rest) → 16386 ≤ fpd' := by
  induction rands with
  | nil =>
    intro fpd fpd' rest h
    simp only [reseedLoop] at h
    split at h
    · exact absurd h (by simp)
    · simp only [Option.some.injEq, Prod.mk.injEq] at h
      omega
  | cons r rs ih =>
    intro fpd fpd' rest h
    simp only [reseedLoop] at h
    split at h
    · exact ih _ _ _ h
    · simp only [Option.some.injEq, Prod.mk.injEq] at h
      omega

/-- `prepareToPlay` returns whenever the next two values of `rand()` lie in
`[1, 2^31 - 1]`: each reseed loop then exits after one draw, on `2^32 - r`. -/
theorem prepareToPlay_returns (s : SlamityProcessor α) (r1 r2 : Nat) (rest : List Nat)
    (h1 : 1 ≤ r1 ∧ r1 ≤ 2147483647) (h2 : 1 ≤ r2 ∧ r2 ≤ 2147483647) :
    prepareToPlay s (r1 :: r2 :: rest) =
      some { resetFilters s with fpdL := 4294967296 - r1, fpdR := 4294967296 - r2 } := by
  have e1 : ((r1 % 4294967296) * 4294967295) % 4294967296 = 4294967296 - r1 := by omega
  have e2 : ((r2 % 4294967296) * 4294967295) % 4294967296 = 4294967296 - r2 := by omega
  have g1 : ¬ (4294967296 - r1 < 16386) := by omega
  have g2 : ¬ (4294967296 - r2 < 16386) := by omega
  cases rest <;> simp [prepareToPlay, reseedLoop, e1, e2, g1, g2]

/-- Claim C6.  Whatever the prior state and the values `rand()` returns, if both
reseed loops exit then after `prepareToPlay` the four Mackity one-pole
memories, every entry of both biquad arrays, the sixteen DrumSlam one-pole
memories and both last-mid memories are `0`, `drum_fpFlip` is `true`, and
both dither states are at least `16386`, hence nonzero. -/
theorem prepareToPlay_postcondition (s s' : SlamityProcessor α) (rands : List Nat)
    (h : prepareToPlay s rands = some s') :
    (s'.mack_iirSampleAL = 0 ∧ s'.mack_iirSampleBL = 0 ∧ s'.mack_iirSampleAR = 0 ∧
      s'.mack_iirSampleBR = 0) ∧
    ((∀ i, s'.mack_biquadA i = 0) ∧ (∀ i, s'.mack_biquadB i = 0)) ∧
    (s'.drum_iirSampleAL = 0 ∧ s'.drum_iirSampleBL = 0 ∧ s'.drum_iirSampleCL = 0 ∧
      s'.drum_iirSampleDL = 0 ∧ s'.drum_iirSampleEL = 0 ∧ s'.drum_iirSampleFL = 0 ∧
      s'.drum_iirSampleGL = 0 ∧ s'.drum_iirSampleHL = 0 ∧
      s'.drum_iirSampleAR = 0 ∧ s'.drum_iirSampleBR = 0 ∧ s'.drum_iirSampleCR = 0 ∧
      s'.drum_iirSampleDR = 0 ∧ s'.drum_iirSampleER = 0 ∧ s'.drum_iirSampleFR = 0 ∧
      s'.drum_iirSampleGR = 0 ∧ s'.drum_iirSampleHR = 0) ∧
    (s'.drum_lastSampleL = 0 ∧ s'.drum_lastSampleR = 0) ∧
    s'.drum_fpFlip = true ∧
    (16386 ≤ s'.fpdL ∧ 16386 ≤ s'.fpdR) ∧ (s'.fpdL ≠ 0 ∧ s'.fpdR ≠ 0) := by
  unfold prepareToPlay at h
  rcases hL : reseedLoop 1 rands with _ | ⟨fpdL, rest⟩
  · simp [hL] at h
  · rcases hR : reseedLoop 1 rest with _ | ⟨fpdR, rest'⟩
    · simp [hL, hR] at h
    · simp only [hL, hR, Option.some.injEq] at h
      have gL := reseedLoop_ge rands 1 fpdL rest hL
      have gR := reseedLoop_ge rest 1 fpdR rest' hR
      subst h
      refine ⟨⟨rfl, rfl, rfl, rfl⟩, ⟨fun _ => rfl, fun _ => rfl⟩,
        ⟨rfl, rfl, rfl, rfl, rfl, rfl, rfl, rfl, rfl, rfl, rfl, rfl, rfl, rfl, rfl, rfl⟩,
        ⟨rfl, rfl⟩, rfl, ⟨gL, gR⟩,
        ⟨Nat.pos_iff_ne_zero.mp (Nat.lt_of_lt_of_le (by decide) gL),
          Nat.pos_iff_ne_zero.mp (Nat.lt_of_lt_of_le (by decide) gR)⟩⟩

/-- Claim C6 on a processor in mid-stream with `rand()` returning `0, 5, 7`:
the first draw gives `0` and is rejected, the next two seed the generators. -/
theorem prepareToPlay_postcondition_witness :
    prepareToPlay usedProcessor [0, 5, 7] =
      some { resetFilters usedProcessor with fpdL := 4294967291, fpdR := 4294967289 } ∧
    (∀ i, (({ resetFilters usedProcessor with fpdL := 4294967291, fpdR := 4294967289 } :
      SlamityProcessor ℚ).mack_biquadA i = 0)) := by
  have h : prepareToPlay usedProcessor [0, 5, 7] =
      some { resetFilters usedProcessor with fpdL := 4294967291, fpdR := 4294967289 } := by
    simp [prepareToPlay, reseedLoop]
  exact ⟨h, (prepareToPlay_postcondition _ _ _ h).2.1.1⟩

/-! ## C7: meter finalisation -/

theorem processMackity_frame (c : BlockLocals α) (r : Run α) (sL sR : α) :
    (processMackity c r sL sR).1.self.fpdL = r.self.fpdL ∧
    (processMackity c r sL sR).1.self.fpdR = r.self.fpdR ∧
    (processMackity c r sL sR).1.rmsAccDrumDrive = r.rmsAccDrumDrive := ⟨rfl, rfl, rfl⟩

theorem processDrumSlam_frame (m : Libm α) (c : BlockLocals α) (r : Run α) (sL sR : α) :
    (processDrumSlam m c r sL sR).1.self.fpdL = r.self.fpdL ∧
    (processDrumSlam m c r sL sR).1.self.fpdR = r.self.fpdR ∧
    mackMemories (processDrumSlam m c r sL sR).1.self = mackMemories r.self ∧
    (processDrumSlam m c r sL sR).1.rmsAccDrumDrive =
      r.rmsAccDrumDrive + c.drumDrive ^ 2 * (sL * sL + sR * sR) := by
  cases hf : r.self.drum_fpFlip <;>
    (simp [processDrumSlam, drumSlamWet, drumBandSplit, hf, drumSaturate, mackMemories]; ring)

theorem processChain_fpd (m : Libm α) (c : BlockLocals α) (r : Run α) (sL sR : α) :
    (processChain m c r sL sR).1.self.fpdL = r.self.fpdL ∧
    (processChain m c r sL sR).1.self.fpdR = r.self.fpdR := by
  unfold processChain
  cases c.mackFirst
  · exact ⟨(processDrumSlam_frame m c r sL sR).1, (processDrumSlam_frame m c r sL sR).2.1⟩
  · have h := processDrumSlam_frame m c (processMackity c r sL sR).1
      (processMackity c r sL sR).2.1 (processMackity c r sL sR).2.2
    exact ⟨h.1, h.2.1⟩

theorem processSample_fpd (m : Libm α) (c : BlockLocals α) (r : Run α) (x : α × α) :
    (processSample m c r x).1.self.fpdL = xorshift r.self.fpdL ∧
    (processSample m c r x).1.self.fpdR = xorshift r.self.fpdR := by
  have h := processChain_fpd m c r (denormalGuard r.self.fpdL x.1) (denormalGuard r.self.fpdR x.2)
  exact ⟨congrArg xorshift h.1, congrArg xorshift h.2⟩

theorem saturate_abs_le (k y : α) (hk0 : 0 ≤ k) (hk1 : k ≤ 1) (hy : |y| ≤ 1) :
    |y - y * (|y| * k) * (|y| * k)| ≤ 1 := by
  have ha : 0 ≤ |y| := abs_nonneg y
  have hq0 : 0 ≤ (|y| * k) * (|y| * k) := mul_self_nonneg _
  have hq1 : (|y| * k) * (|y| * k) ≤ 1 := by
    have h1 : |y| * k ≤ 1 := by
      calc |y| * k ≤ 1 * 1 := mul_le_mul hy hk1 hk0 (by norm_num)
        _ = 1 := by norm_num
    calc (|y| * k) * (|y| * k) ≤ 1 * 1 := mul_le_mul h1 h1 (mul_nonneg ha hk0) (by norm_num)
      _ = 1 := by norm_num
  have he : y - y * (|y| * k) * (|y| * k) = y * (1 - (|y| * k) * (|y| * k)) := by ring
  rw [he, abs_mul]
  have h2 : |1 - (|y| * k) * (|y| * k)| ≤ 1 := by
    rw [abs_le]; constructor <;> linarith
  calc |y| * |1 - (|y| * k) * (|y| * k)| ≤ 1 * 1 := mul_le_mul hy h2 (abs_nonneg _) (by norm_num)
    _ = 1 := by norm_num

theorem clamp_abs_le (x : α) :
    |(if (if x > 1.0 then (1.0 : α) else x) < -1.0 then (-1.0 : α)
      else (if x > 1.0 then (1.0 : α) else x))| ≤ 1 := by
  rw [abs_le]
  split_ifs with h1 h2 h3
  all_goals norm_num at *
  all_goals exact ⟨by linarith, by linarith⟩

theorem lowBandSaturate_abs_le (x : α) : |lowBandSaturate x| ≤ 1 :=
  saturate_abs_le 0.448 _ (by norm_num) (by norm_num) (clamp_abs_le x)

theorem highBandSaturate_abs_le (x : α) : |highBandSaturate x| ≤ 1 :=
  saturate_abs_le 0.599 _ (by norm_num) (by norm_num) (clamp_abs_le x)

theorem midBandShape_abs_le (m : Libm α) (drumDrive mid last : α) (hsin : ∀ x : α, |m.sin x| ≤ 1) :
    |midBandShape m drumDrive mid last| ≤ 1 := by
  unfold midBandShape
  split
  · exact hsin _
  · rw [abs_neg]; exact hsin _

/-- Claim C9.  For every processor state, every input frame `(sL, sR)` of any
magnitude and every drive (the range `[1, 4]` included), on the bands the
splitter produces from the driven frame: the low and the high band values
after their saturators lie in `[-1, 1]`, they are what `drumSaturate`
multiplies by the drive, and the shaped mid band values lie in `[-1, 1]`.
The mid band bound uses only that `sin` takes its values in `[-1, 1]`. -/
theorem saturator_band_bounds (m : Libm α) (c : BlockLocals α) (s : SlamityProcessor α)
    (sL sR : α) (hsin : ∀ x : α, |m.sin x| ≤ 1) :
    (|lowBandSaturate (drumBandSplit c s (sL * c.drumDrive) (sR * c.drumDrive)).2.lowSampleL| ≤ 1 ∧
     |lowBandSaturate (drumBandSplit c s (sL * c.drumDrive) (sR * c.drumDrive)).2.lowSampleR| ≤ 1 ∧
     |highBandSaturate (drumBandSplit c s (sL * c.drumDrive) (sR * c.drumDrive)).2.highSampleL| ≤ 1 ∧
     |highBandSaturate (drumBandSplit c s (sL * c.drumDrive) (sR * c.drumDrive)).2.highSampleR| ≤ 1) ∧
    ((drumSaturate m c (drumBandSplit c s (sL * c.drumDrive) (sR * c.drumDrive)).1
        (drumBandSplit c s (sL * c.drumDrive) (sR * c.drumDrive)).2).2.lowSampleL =
      lowBandSaturate (drumBandSplit c s (sL * c.drumDrive) (sR * c.drumDrive)).2.lowSampleL
        * c.drumDrive ∧
     (drumSaturate m c (drumBandSplit c s (sL * c.drumDrive) (sR * c.drumDrive)).1
        (drumBandSplit c s (sL * c.drumDrive) (sR * c.drumDrive)).2).2.lowSampleR =
      lowBandSaturate (drumBandSplit c s (sL * c.drumDrive) (sR * c.drumDrive)).2.lowSampleR
        * c.drumDrive ∧
     (drumSaturate m c (drumBandSplit c s (sL * c.drumDrive) (sR * c.drumDrive)).1
        (drumBandSplit c s (sL * c.drumDrive) (sR * c.drumDrive)).2).2.highSampleL =
      highBandSaturate (drumBandSplit c s (sL * c.drumDrive) (sR * c.drumDrive)).2.highSampleL
        * c.drumDrive ∧
     (drumSaturate m c (drumBandSplit c s (sL * c.drumDrive) (sR * c.drumDrive)).1
        (drumBandSplit c s (sL * c.drumDrive) (sR * c.drumDrive)).2).2.highSampleR =
      highBandSaturate (drumBandSplit c s (sL * c.drumDrive) (sR * c.drumDrive)).2.highSampleR
        * c.drumDrive) ∧
    (|(drumSaturate m c (drumBandSplit c s (sL * c.drumDrive) (sR * c.drumDrive)).1
        (drumBandSplit c s (sL * c.drumDrive) (sR * c.drumDrive)).2).2.midSampleL| ≤ 1 ∧
     |(drumSaturate m c (drumBandSplit c s (sL * c.drumDrive) (sR * c.drumDrive)).1
        (drumBandSplit c s (sL * c.drumDrive) (sR * c.drumDrive)).2).2.midSampleR| ≤ 1) :=
  ⟨⟨lowBandSaturate_abs_le _, lowBandSaturate_abs_le _, highBandSaturate_abs_le _,
      highBandSaturate_abs_le _⟩,
    ⟨rfl, rfl, rfl, rfl⟩,
    ⟨midBandShape_abs_le m _ _ _ hsin, midBandShape_abs_le m _ _ _ hsin⟩⟩

/-- Claim C9 in the reals, `sin` being `Real.sin`: the shaped left mid band
value for the input frame `(1000000, -3)` at the defaults. -/
theorem saturator_band_bounds_witness :
    |(drumSaturate (Libm.mk Real.sin Real.tan Real.sqrt id
          (fun x => if x = 0 then 0 else Int.log 2 |x| + 1) Real.pi)
        (blockLocals (44100 : ℝ) defaultParameters)
        (drumBandSplit (blockLocals (44100 : ℝ) defaultParameters) SlamityProcessor.initial
          ((1000000 : ℝ) * (blockLocals (44100 : ℝ) defaultParameters).drumDrive)
          ((-3 : ℝ) * (blockLocals (44100 : ℝ) defaultParameters).drumDrive)).1
        (drumBandSplit (blockLocals (44100 : ℝ) defaultParameters) SlamityProcessor.initial
          ((1000000 : ℝ) * (blockLocals (44100 : ℝ) defaultParameters).drumDrive)
          ((-3 : ℝ) * (blockLocals (44100 : ℝ) defaultParameters).drumDrive)).2).2.midSampleL| ≤ 1 :=
  (saturator_band_bounds _ _ _ 1000000 (-3) (fun x => Real.abs_sin_le_one x)).2.2.1

/-! ## Binary rounding: evaluation, monotonicity and error -/

theorem roundHalfEven_bounds (q : ℚ) : ⌊q⌋ ≤ roundHalfEven q ∧ roundHalfEven q ≤ ⌊q⌋ + 1 := by
  unfold roundHalfEven
  split_ifs <;> constructor <;> omega

theorem roundHalfEven_intCast (n : Int) : roundHalfEven (n : ℚ) = n := by
  simp [roundHalfEven]

theorem roundHalfEven_abs_sub_le (q : ℚ) : |(roundHalfEven q : ℚ) - q| ≤ 1 / 2 := by
  have h0 := Int.fract_nonneg q
  have h1 := Int.fract_lt_one q
  have hq : q = ⌊q⌋ + Int.fract q := (Int.floor_add_fract q).symm
  unfold roundHalfEven
  rw [abs_le]
  split_ifs with a b c
  · constructor <;> linarith
  · push_cast
    constructor <;> linarith
  · constructor <;> linarith
  · push_cast
    constructor <;> linarith

theorem roundHalfEven_eq_of_abs_sub_lt (q : ℚ) (n : Int) (h : |q - n| < 1 / 2) :
    roundHalfEven q = n := by
  have h1 := roundHalfEven_abs_sub_le q
  have h2 : |((roundHalfEven q - n : Int) : ℚ)| < 1 := by
    push_cast
    have e : (roundHalfEven q : ℚ) - n = ((roundHalfEven q : ℚ) - q) + (q - n) := by ring
    rw [e]
    calc |((roundHalfEven q : ℚ) - q) + (q - n)| ≤ |(roundHalfEven q : ℚ) - q| + |q - n| :=
          abs_add _ _
      _ < 1 / 2 + 1 / 2 := add_lt_add_of_le_of_lt h1 h
      _ = 1 := by norm_num
  have h3 : |roundHalfEven q - n| < 1 := by exact_mod_cast h2
  have h4 := Int.abs_lt_one_iff.mp h3
  omega

theorem roundHalfEven_mono (q r : ℚ) (h : q ≤ r) : roundHalfEven q ≤ roundHalfEven r := by
  have hf : ⌊q⌋ ≤ ⌊r⌋ := Int.floor_le_floor h
  rcases lt_or_eq_of_le hf with hlt | heq
  · have := (roundHalfEven_bounds q).2
    have := (roundHalfEven_bounds r).1
    omega
  · have hq : q = ⌊q⌋ + Int.fract q := (Int.floor_add_fract q).symm
    have hr : r = ⌊r⌋ + Int.fract r := (Int.floor_add_fract r).symm
    have hfr : Int.fract q ≤ Int.fract r := by
      have e : ((⌊q⌋ : Int) : ℚ) = ⌊r⌋ := by rw [heq]
      linarith
    unfold roundHalfEven
    rw [heq]
    split_ifs <;> first | omega | (exfalso; linarith)

theorem log_two_eq (x : ℚ) (k : Int) (hx : 0 < x) (hlo : (2 : ℚ) ^ k ≤ x)
    (hhi : x < (2 : ℚ) ^ (k + 1)) : Int.log 2 x = k := by
  have h1 : k ≤ Int.log 2 x := by
    apply (Int.zpow_le_iff_le_log (by norm_num : 1 < 2) hx).mp
    exact_mod_cast hlo
  have h2 : Int.log 2 x < k + 1 := by
    apply (Int.lt_zpow_iff_log_lt (by norm_num : 1 < 2) hx).mp
    exact_mod_cast hhi
  omega

theorem zpow_log_two_le (x : ℚ) (hx : 0 < x) : (2 : ℚ) ^ Int.log 2 x ≤ x := by
  have h := Int.zpow_log_le_self (by norm_num : 1 < 2) hx
  exact_mod_cast h

theorem lt_zpow_log_two_succ (x : ℚ) : x < (2 : ℚ) ^ (Int.log 2 x + 1) := by
  have h := Int.lt_zpow_succ_log_self (by norm_num : 1 < 2) x
  exact_mod_cast h

/-- Evaluation of a rounding in the normal range: `n` is what the quotient
`x / 2 ^ e` rounds to, `e` being the spacing exponent of the binade of `x`. -/
theorem roundMagnitude_eq (p : Nat) (emin : Int) (x : ℚ) (e n : Int) (hx : 0 < x)
    (hlo : (2 : ℚ) ^ (e + p - 1) ≤ x) (hhi : x < (2 : ℚ) ^ (e + p)) (he : emin ≤ e)
    (hn : roundHalfEven (x / 2 ^ e) = n) : roundMagnitude p emin x = n * 2 ^ e := by
  have hlog : Int.log 2 x = e + p - 1 := by
    apply log_two_eq x _ hx hlo
    have : e + p - 1 + 1 = e + p := by ring
    rw [this]
    exact hhi
  have hq : quantumExponent p emin x = e := by
    unfold quantumExponent
    rw [hlog]
    have : e + p - 1 + 1 - p = e := by ring
    rw [this]
    exact max_eq_left he
  unfold roundMagnitude
  rw [if_neg (ne_of_gt hx), hq, hn]

theorem roundBinary_eq (p : Nat) (emin : Int) (x : ℚ) (e n : Int) (hx : 0 < x)
    (hlo : (2 : ℚ) ^ (e + p - 1) ≤ x) (hhi : x < (2 : ℚ) ^ (e + p)) (he : emin ≤ e)
    (hn : roundHalfEven (x / 2 ^ e) = n) : roundBinary p emin x = n * 2 ^ e := by
  unfold roundBinary
  rw [if_pos (le_of_lt hx)]
  exact roundMagnitude_eq p emin x e n hx hlo hhi he hn

theorem roundBinary_eq_of_neg (p : Nat) (emin : Int) (x : ℚ) (e n : Int) (hx : x < 0)
    (hlo : (2 : ℚ) ^ (e + p - 1) ≤ -x) (hhi : -x < (2 : ℚ) ^ (e + p)) (he : emin ≤ e)
    (hn : roundHalfEven (-x / 2 ^ e) = n) : roundBinary p emin x = -(n * 2 ^ e) := by
  unfold roundBinary
  rw [if_neg (not_le.mpr hx)]
  rw [roundMagnitude_eq p emin (-x) e n (by linarith) hlo hhi he hn]

theorem roundBinary_zero (p : Nat) (emin : Int) : roundBinary p emin 0 = 0 := by
  simp [roundBinary, roundMagnitude]

theorem roundBinary_neg (p : Nat) (emin : Int) (x : ℚ) :
    roundBinary p emin (-x) = -roundBinary p emin x := by
  rcases lt_trichotomy x 0 with h | h | h
  · unfold roundBinary
    rw [if_pos (by linarith), if_neg (by linarith)]
    simp
  · subst h
    simp [roundBinary_zero]
  · unfold roundBinary
    rw [if_neg (by linarith), if_pos (by linarith)]
    simp

theorem roundMagnitude_nonneg (p : Nat) (emin : Int) (x : ℚ) (hx : 0 ≤ x) :
    0 ≤ roundMagnitude p emin x := by
  unfold roundMagnitude
  split_ifs with h
  · exact le_refl _
  · have hp : (0 : ℚ) < 2 ^ quantumExponent p emin x := zpow_pos (by norm_num) _
    have hq : (0 : ℚ) ≤ x / 2 ^ quantumExponent p emin x := div_nonneg hx (le_of_lt hp)
    have h1 : (0 : Int) ≤ ⌊x / 2 ^ quantumExponent p emin x⌋ := Int.floor_nonneg.mpr hq
    have h2 := (roundHalfEven_bounds (x / 2 ^ quantumExponent p emin x)).1
    have h3 : (0 : ℚ) ≤ (roundHalfEven (x / 2 ^ quantumExponent p emin x) : ℚ) := by
      exact_mod_cast le_trans h1 h2
    exact mul_nonneg h3 (le_of_lt hp)

theorem roundMagnitude_le_of_le (p : Nat) (emin : Int) (x : ℚ) (k : Int) (hx : 0 < x)
    (h : x ≤ k * 2 ^ quantumExponent p emin x) :
    roundMagnitude p emin x ≤ k * 2 ^ quantumExponent p emin x := by
  have hp : (0 : ℚ) < 2 ^ quantumExponent p emin x := zpow_pos (by norm_num) _
  unfold roundMagnitude
  rw [if_neg (ne_of_gt hx)]
  have hq : x / 2 ^ quantumExponent p emin x ≤ k := (div_le_iff₀ hp).mpr h
  have hr := roundHalfEven_mono _ _ hq
  rw [roundHalfEven_intCast] at hr
  have hr' : (roundHalfEven (x / 2 ^ quantumExponent p emin x) : ℚ) ≤ k := by exact_mod_cast hr
  exact mul_le_mul_of_nonneg_right hr' (le_of_lt hp)

theorem le_roundMagnitude_of_le (p : Nat) (emin : Int) (x : ℚ) (k : Int) (hx : 0 < x)
    (h : k * 2 ^ quantumExponent p emin x ≤ x) :
    k * 2 ^ quantumExponent p emin x ≤ roundMagnitude p emin x := by
  have hp : (0 : ℚ) < 2 ^ quantumExponent p emin x := zpow_pos (by norm_num) _
  unfold roundMagnitude
  rw [if_neg (ne_of_gt hx)]
  have hq : (k : ℚ) ≤ x / 2 ^ quantumExponent p emin x := (le_div_iff₀ hp).mpr h
  have hr := roundHalfEven_mono _ _ hq
  rw [roundHalfEven_intCast] at hr
  have hr' : (k : ℚ) ≤ (roundHalfEven (x / 2 ^ quantumExponent p emin x) : ℚ) := by
    exact_mod_cast hr
  exact mul_le_mul_of_nonneg_right hr' (le_of_lt hp)

theorem zpow_two_eq_intCast_mul (a b : Int) (h : b ≤ a) :
    (2 : ℚ) ^ a = ((2 ^ (a - b).toNat : Int) : ℚ) * 2 ^ b := by
  have e : a = ((a - b).toNat : Int) + b := by
    have := Int.toNat_of_nonneg (by omega : 0 ≤ a - b)
    omega
  conv_lhs => rw [e]
  rw [zpow_add₀ (by norm_num : (2 : ℚ) ≠ 0), zpow_natCast]
  push_cast
  rfl

theorem roundMagnitude_mono (p : Nat) (emin : Int) (hp1 : 1 ≤ p) (x y : ℚ) (hx : 0 < x)
    (hxy : x ≤ y) : roundMagnitude p emin x ≤ roundMagnitude p emin y := by
  have hy : 0 < y := lt_of_lt_of_le hx hxy
  have hlog : Int.log 2 x ≤ Int.log 2 y := Int.log_mono_right hx hxy
  have he : quantumExponent p emin x ≤ quantumExponent p emin y := by
    unfold quantumExponent
    exact max_le_max (by omega) (le_refl _)
  rcases lt_or_eq_of_le he with hlt | heq
  · have hey : quantumExponent p emin y = Int.log 2 y + 1 - p := by
      unfold quantumExponent at hlt ⊢
      apply max_eq_left
      by_contra hc
      rw [max_eq_right (le_of_lt (not_le.mp hc))] at hlt
      exact absurd (le_max_right _ _) (not_le.mpr hlt)
    have hex : Int.log 2 x + 1 - p ≤ quantumExponent p emin x := le_max_left _ _
    have hL : Int.log 2 x + 1 ≤ Int.log 2 y := by omega
    have hz1 : x ≤ (2 : ℚ) ^ Int.log 2 y := by
      have h1 := lt_zpow_log_two_succ x
      have h2 : (2 : ℚ) ^ (Int.log 2 x + 1) ≤ 2 ^ Int.log 2 y :=
        zpow_le_zpow_right₀ (by norm_num) hL
      linarith
    have hz2 : (2 : ℚ) ^ Int.log 2 y ≤ y := zpow_log_two_le y hy
    have e1 := zpow_two_eq_intCast_mul (Int.log 2 y) (quantumExponent p emin x) (by omega)
    have e2 := zpow_two_eq_intCast_mul (Int.log 2 y) (quantumExponent p emin y) (by omega)
    have a1 := roundMagnitude_le_of_le p emin x _ hx (by rw [← e1]; exact hz1)
    have a2 := le_roundMagnitude_of_le p emin y _ hy (by rw [← e2]; exact hz2)
    rw [← e1] at a1
    rw [← e2] at a2
    exact le_trans a1 a2
  · have hp : (0 : ℚ) < 2 ^ quantumExponent p emin y := zpow_pos (by norm_num) _
    unfold roundMagnitude
    rw [if_neg (ne_of_gt hx), if_neg (ne_of_gt hy), heq]
    have hq : x / 2 ^ quantumExponent p emin y ≤ y / 2 ^ quantumExponent p emin y :=
      div_le_div_of_nonneg_right hxy (le_of_lt hp)
    have hr : (roundHalfEven (x / 2 ^ quantumExponent p emin y) : ℚ) ≤
        (roundHalfEven (y / 2 ^ quantumExponent p emin y) : ℚ) := by
      exact_mod_cast roundHalfEven_mono _ _ hq
    exact mul_le_mul_of_nonneg_right hr (le_of_lt hp)

/-- Rounding to nearest is monotone. -/
theorem roundBinary_mono (p : Nat) (emin : Int) (hp1 : 1 ≤ p) (x y : ℚ) (hxy : x ≤ y) :
    roundBinary p emin x ≤ roundBinary p emin y := by
  unfold roundBinary
  by_cases hx : 0 ≤ x
  · have hy : 0 ≤ y := le_trans hx hxy
    rw [if_pos hx, if_pos hy]
    rcases lt_or_eq_of_le hx with h | h
    · exact roundMagnitude_mono p emin hp1 x y h hxy
    · rw [← h]
      simp only [roundMagnitude, if_true]
      exact roundMagnitude_nonneg p emin y hy
  · rw [if_neg hx]
    have hx' : 0 < -x := by linarith [not_le.mp hx]
    by_cases hy : 0 ≤ y
    · rw [if_pos hy]
      have h1 := roundMagnitude_nonneg p emin (-x) (le_of_lt hx')
      have h2 := roundMagnitude_nonneg p emin y hy
      linarith
    · rw [if_neg hy]
      have hy' : 0 < -y := by linarith [not_le.mp hy]
      have := roundMagnitude_mono p emin hp1 (-y) (-x) hy' (by linarith)
      linarith

theorem roundMagnitude_abs_sub_le (p : Nat) (emin : Int) (x : ℚ) (hx : 0 < x) :
    |roundMagnitude p emin x - x| ≤ 1 / 2 ^ p * max x (2 ^ (emin + p - 1)) := by
  have hp : (0 : ℚ) < 2 ^ quantumExponent p emin x := zpow_pos (by norm_num) _
  have h2p : (0 : ℚ) < 2 ^ p := pow_pos (by norm_num) _
  unfold roundMagnitude
  rw [if_neg (ne_of_gt hx)]
  have e : (roundHalfEven (x / 2 ^ quantumExponent p emin x) : ℚ) * 2 ^ quantumExponent p emin x
      - x = ((roundHalfEven (x / 2 ^ quantumExponent p emin x) : ℚ)
        - x / 2 ^ quantumExponent p emin x) * 2 ^ quantumExponent p emin x := by
    field_simp
  rw [e, abs_mul, abs_of_pos hp]
  have h1 := roundHalfEven_abs_sub_le (x / 2 ^ quantumExponent p emin x)
  have h3 : |(roundHalfEven (x / 2 ^ quantumExponent p emin x) : ℚ)
      - x / 2 ^ quantumExponent p emin x| * 2 ^ quantumExponent p emin x ≤
      1 / 2 * 2 ^ quantumExponent p emin x := mul_le_mul_of_nonneg_right h1 (le_of_lt hp)
  refine le_trans h3 ?_
  have key : (2 : ℚ) ^ quantumExponent p emin x ≤
      2 / 2 ^ p * max x (2 ^ (emin + p - 1)) := by
    unfold quantumExponent
    rcases le_total (Int.log 2 x + 1 - (p : Int)) emin with hle | hle
    · rw [max_eq_right hle]
      have e1 : (2 : ℚ) / 2 ^ p * 2 ^ (emin + p - 1) = 2 ^ emin := by
        have : emin + p - 1 = emin + (p : Int) + (-1) := by ring
        rw [this, zpow_add₀ (by norm_num : (2 : ℚ) ≠ 0), zpow_add₀ (by norm_num : (2 : ℚ) ≠ 0),
          zpow_natCast]
        field_simp
        ring
      calc (2 : ℚ) ^ emin = 2 / 2 ^ p * 2 ^ (emin + p - 1) := e1.symm
        _ ≤ 2 / 2 ^ p * max x (2 ^ (emin + p - 1)) :=
          mul_le_mul_of_nonneg_left (le_max_right _ _) (by positivity)
    · rw [max_eq_left hle]
      have e1 : (2 : ℚ) ^ (Int.log 2 x + 1 - (p : Int)) = 2 / 2 ^ p * 2 ^ Int.log 2 x := by
        have : Int.log 2 x + 1 - (p : Int) = Int.log 2 x + 1 + (-(p : Int)) := by ring
        rw [this, zpow_add₀ (by norm_num : (2 : ℚ) ≠ 0), zpow_add₀ (by norm_num : (2 : ℚ) ≠ 0),
          zpow_neg, zpow_natCast]
        field_simp
        ring
      rw [e1]
      exact mul_le_mul_of_nonneg_left (le_trans (zpow_log_two_le x hx) (le_max_left _ _))
        (by positivity)
  calc 1 / 2 * (2 : ℚ) ^ quantumExponent p emin x
      ≤ 1 / 2 * (2 / 2 ^ p * max x (2 ^ (emin + p - 1))) :=
        mul_le_mul_of_nonneg_left key (by norm_num)
    _ = 1 / 2 ^ p * max x (2 ^ (emin + p - 1)) := by ring

/-- The error of a rounding is at most `2 ^ (-p)` times the magnitude of the
value, or of the least normal value `2 ^ (emin + p - 1)` when that is larger. -/
theorem roundBinary_abs_sub_le (p : Nat) (emin : Int) (x : ℚ) :
    |roundBinary p emin x - x| ≤ 1 / 2 ^ p * max |x| (2 ^ (emin + p - 1)) := by
  rcases lt_trichotomy x 0 with h | h | h
  · unfold roundBinary
    rw [if_neg (not_le.mpr h), abs_of_neg h]
    have := roundMagnitude_abs_sub_le p emin (-x) (by linarith)
    have e : -roundMagnitude p emin (-x) - x = -(roundMagnitude p emin (-x) - -x) := by ring
    rw [e, abs_neg]
    exact this
  · subst h
    rw [roundBinary_zero]
    simp only [sub_zero, abs_zero]
    positivity
  · unfold roundBinary
    rw [if_pos (le_of_lt h), abs_of_pos h]
    exact roundMagnitude_abs_sub_le p emin x h

theorem roundDouble_zero : roundDouble 0 = 0 := roundBinary_zero 53 (-1074)

theorem roundDouble_eval (x r : ℚ) (e n : Int) (hx : 0 < x)
    (hlo : (2 : ℚ) ^ (e + (53 : Nat) - 1) ≤ x) (hhi : x < (2 : ℚ) ^ (e + (53 : Nat)))
    (he : -1074 ≤ e) (hn : |x / 2 ^ e - n| < 1 / 2) (hr : r = n * 2 ^ e) : roundDouble x = r := by
  rw [hr]
  exact roundBinary_eq 53 (-1074) x e n hx hlo hhi he (roundHalfEven_eq_of_abs_sub_lt _ n hn)

theorem roundDouble_eval_neg (x r : ℚ) (e n : Int) (hx : x < 0)
    (hlo : (2 : ℚ) ^ (e + (53 : Nat) - 1) ≤ -x) (hhi : -x < (2 : ℚ) ^ (e + (53 : Nat)))
    (he : -1074 ≤ e) (hn : |-x / 2 ^ e - n| < 1 / 2) (hr : r = -(n * 2 ^ e)) :
    roundDouble x = r := by
  rw [hr]
  exact roundBinary_eq_of_neg 53 (-1074) x e n hx hlo hhi he
    (roundHalfEven_eq_of_abs_sub_lt _ n hn)

theorem roundFloat_eval (x r : ℚ) (e n : Int) (hx : 0 < x)
    (hlo : (2 : ℚ) ^ (e + (24 : Nat) - 1) ≤ x) (hhi : x < (2 : ℚ) ^ (e + (24 : Nat)))
    (he : -149 ≤ e) (hn : |x / 2 ^ e - n| < 1 / 2) (hr : r = n * 2 ^ e) : roundFloat x = r := by
  rw [hr]
  exact roundBinary_eq 24 (-149) x e n hx hlo hhi he (roundHalfEven_eq_of_abs_sub_lt _ n hn)

theorem roundDouble_neg (x : ℚ) : roundDouble (-x) = -roundDouble x :=
  roundBinary_neg 53 (-1074) x

/-- Rounding to the nearest double has unit roundoff `2^(-53)` above the least
normal double `2^(-1022)`. -/
theorem roundDouble_roundsWithin : RoundsWithin roundDouble (1 / 2 ^ 53) (1 / 2 ^ 1022) := by
  refine ⟨roundDouble_zero, fun x y h => roundBinary_mono 53 (-1074) (by norm_num) x y h, ?_⟩
  intro x
  have h := roundBinary_abs_sub_le 53 (-1074) x
  have e : (2 : ℚ) ^ (-1074 + ((53 : Nat) : Int) - 1) = 1 / 2 ^ 1022 := by
    have : (-1074 + ((53 : Nat) : Int) - 1) = -((1022 : Nat) : Int) := by norm_num
    rw [this, zpow_neg, zpow_natCast, one_div]
  rw [e] at h
  exact h

/-! ## C10: DC removal by the first stage of Mackity -/

theorem flushThreshold_pos : (0 : α) < flushThreshold := by
  unfold flushThreshold
  positivity

theorem flushThreshold_lt_one : (flushThreshold : α) < 1 := by
  unfold flushThreshold
  rw [div_lt_one (by positivity)]
  norm_num

theorem flushMemory_of_zero_or_le (s : α) (h : s = 0 ∨ flushThreshold ≤ |s|) :
    flushMemory s = s := by
  unfold flushMemory
  rcases h with h | h
  · subst h
    simp only [abs_zero, lit_zero, ite_self]
  · rw [if_neg (not_lt.mpr h)]

/-- Bounds on a sum rounded three times over: with `0 ≤ u ≤ 1/8`, a product
`y1` within relative error `u` of `m * b`, `b` within relative error `u` of
`1 - a`, `p` within relative error `u` of `c * a` and `y2` within relative
error `u` of `y1 + p`, the value `y2` is within `4 u m (1 - a) + 3 u c a` of
`m * (1 - a) + c * a`. -/
theorem rounded_sum_bounds (u a c b p m y1 y2 : α) (hu0 : 0 ≤ u) (hu1 : u ≤ 1 / 8)
    (hA0 : 0 < 1 - a) (hca : 0 < c * a) (hm0 : 0 ≤ m)
    (hbl : (1 - u) * (1 - a) ≤ b) (hbu : b ≤ (1 + u) * (1 - a))
    (hy1l : (1 - u) * (m * b) ≤ y1) (hy1u : y1 ≤ (1 + u) * (m * b))
    (hpl : (1 - u) * (c * a) ≤ p) (hpu : p ≤ (1 + u) * (c * a))
    (hy2l : (1 - u) * (y1 + p) ≤ y2) (hy2u : y2 ≤ (1 + u) * (y1 + p)) :
    y2 ≤ (1 + 4 * u) * (m * (1 - a)) + (1 + 3 * u) * (c * a) ∧
    (1 - 3 * u) * (m * (1 - a)) + (1 - 2 * u) * (c * a) ≤ y2 := by
  have hu2 : u * u ≤ u / 8 := by
    have := mul_le_mul_of_nonneg_right hu1 hu0
    linarith only [this]
  have hu3 : 0 ≤ u * u := mul_nonneg hu0 hu0
  have hmA : 0 ≤ m * (1 - a) := mul_nonneg hm0 (le_of_lt hA0)
  have hmbu : m * b ≤ (1 + u) * (m * (1 - a)) := by
    have := mul_le_mul_of_nonneg_left hbu hm0
    linarith only [this]
  have hmbl : (1 - u) * (m * (1 - a)) ≤ m * b := by
    have := mul_le_mul_of_nonneg_left hbl hm0
    linarith only [this]
  have hy1u' : y1 ≤ (1 + 17 / 8 * u) * (m * (1 - a)) := by
    have h2 : (1 + u) * (m * b) ≤ (1 + u) * ((1 + u) * (m * (1 - a))) :=
      mul_le_mul_of_nonneg_left hmbu (by linarith only [hu0])
    have h3 : (1 + u) * (1 + u) * (m * (1 - a)) ≤ (1 + 17 / 8 * u) * (m * (1 - a)) :=
      mul_le_mul_of_nonneg_right (by linarith only [hu2]) hmA
    linarith only [hy1u, h2, h3]
  have hy1l' : (1 - 2 * u) * (m * (1 - a)) ≤ y1 := by
    have h2 : (1 - u) * ((1 - u) * (m * (1 - a))) ≤ (1 - u) * (m * b) :=
      mul_le_mul_of_nonneg_left hmbl (by linarith only [hu1])
    have h3 : (1 - 2 * u) * (m * (1 - a)) ≤ (1 - u) * (1 - u) * (m * (1 - a)) :=
      mul_le_mul_of_nonneg_right (by linarith only [hu3]) hmA
    linarith only [hy1l, h2, h3]
  constructor
  · have h2 : (1 + u) * (y1 + p) ≤
        (1 + u) * ((1 + 17 / 8 * u) * (m * (1 - a)) + (1 + u) * (c * a)) :=
      mul_le_mul_of_nonneg_left (by linarith only [hy1u', hpu]) (by linarith only [hu0])
    have h5 : (1 + u) * (1 + 17 / 8 * u) * (m * (1 - a)) ≤ (1 + 4 * u) * (m * (1 - a)) :=
      mul_le_mul_of_nonneg_right (by linarith only [hu2, hu0]) hmA
    have h6 : (1 + u) * (1 + u) * (c * a) ≤ (1 + 3 * u) * (c * a) :=
      mul_le_mul_of_nonneg_right (by linarith only [hu2, hu0]) (le_of_lt hca)
    linarith only [hy2u, h2, h5, h6]
  · have h2 : (1 - u) * ((1 - 2 * u) * (m * (1 - a)) + (1 - u) * (c * a)) ≤
        (1 - u) * (y1 + p) :=
      mul_le_mul_of_nonneg_left (by linarith only [hy1l', hpl]) (by linarith only [hu1])
    have h5 : (1 - 3 * u) * (m * (1 - a)) ≤ (1 - u) * (1 - 2 * u) * (m * (1 - a)) :=
      mul_le_mul_of_nonneg_right (by linarith only [hu3]) hmA
    have h6 : (1 - 2 * u) * (c * a) ≤ (1 - u) * (1 - u) * (c * a) :=
      mul_le_mul_of_nonneg_right (by linarith only [hu3]) (le_of_lt hca)
    linarith only [hy2l, h2, h5, h6]

/-- From the bounds of `rounded_sum_bounds` to the invariant: a memory
`m ≤ 2 c` within `8 u c / a` of `e` is taken to `y2 ≤ 2 c` within
`8 u c / a` of `e * (1 - a) + c * a`, as long as `8 u ≤ a`. -/
theorem rounded_step_contracts (u a c m e y2 : α) (hu0 : 0 ≤ u) (hu8 : 8 * u ≤ a)
    (ha0 : 0 < a) (ha1 : a < 1) (hc : 0 < c) (hm0 : 0 ≤ m) (hm2 : m ≤ 2 * c)
    (hme : |m - e| ≤ 8 * u * c / a)
    (hup : y2 ≤ (1 + 4 * u) * (m * (1 - a)) + (1 + 3 * u) * (c * a))
    (hlow : (1 - 3 * u) * (m * (1 - a)) + (1 - 2 * u) * (c * a) ≤ y2) :
    y2 ≤ 2 * c ∧ |y2 - (e * (1 - a) + c * a)| ≤ 8 * u * c / a := by
  have hA0 : 0 < 1 - a := by linarith only [ha1]
  have hmA : 0 ≤ m * (1 - a) := mul_nonneg hm0 (le_of_lt hA0)
  have hmAc : m * (1 - a) ≤ 2 * c * (1 - a) := mul_le_mul_of_nonneg_right hm2 (le_of_lt hA0)
  have huc : 0 ≤ u * c := mul_nonneg hu0 (le_of_lt hc)
  have humA : u * (m * (1 - a)) ≤ u * (2 * c * (1 - a)) := mul_le_mul_of_nonneg_left hmAc hu0
  have humA0 : 0 ≤ u * (m * (1 - a)) := mul_nonneg hu0 hmA
  have huca : 0 ≤ u * c * a := mul_nonneg huc (le_of_lt ha0)
  have h8 : 8 * u * c ≤ a * c := mul_le_mul_of_nonneg_right hu8 (le_of_lt hc)
  have hD : 8 * u * c / a * a = 8 * u * c := by field_simp
  have hdelta_up : y2 - (m * (1 - a) + c * a) ≤ 8 * u * c := by
    linarith only [hup, humA, huca]
  have hdelta_lo : -(8 * u * c) ≤ y2 - (m * (1 - a) + c * a) := by
    linarith only [hlow, humA, huca, humA0, huc]
  constructor
  · linarith only [hup, humA, huca, hmAc, h8]
  · obtain ⟨hme1, hme2⟩ := abs_le.mp hme
    have e1 : y2 - (e * (1 - a) + c * a) =
        (y2 - (m * (1 - a) + c * a)) + (1 - a) * (m - e) := by ring
    have h9 : (1 - a) * (m - e) ≤ (1 - a) * (8 * u * c / a) :=
      mul_le_mul_of_nonneg_left hme2 (le_of_lt hA0)
    have h10 : (1 - a) * (-(8 * u * c / a)) ≤ (1 - a) * (m - e) :=
      mul_le_mul_of_nonneg_left hme1 (le_of_lt hA0)
    have h11 : (1 - a) * (8 * u * c / a) = 8 * u * c / a - 8 * u * c := by
      rw [sub_mul, one_mul, mul_comm a, hD]
    rw [e1, abs_le]
    constructor
    · linarith only [hdelta_lo, h10, h11]
    · linarith only [hdelta_up, h9, h11]

/-- One rounded update of the memory under a positive constant input `c`: `b`
stands for the rounded `1 - a` and `p` for the rounded `c * a`.  A memory
that is `0` or at least the threshold `T`, at most `2 * c` and within
`8 * u * c / a` of the exact memory `e` is taken to one at least `T`, at most
`2 * c` and within `8 * u * c / a` of the next exact memory. -/
theorem rounded_step_pos (f : α → α) (u L T a c b p m e : α)
    (hf : RoundsWithin f u L) (hu0 : 0 ≤ u) (hu8 : 8 * u ≤ a) (ha0 : 0 < a) (ha1 : a < 1)
    (hc : 0 < c) (hT0 : 0 < T) (hT : f T = T) (hL : L ≤ T * (1 - a) / 2)
    (hb : |b - (1 - a)| ≤ u * (1 - a)) (hp1 : T ≤ p) (hp2 : |p - c * a| ≤ u * (c * a))
    (hm : m = 0 ∨ T ≤ m) (hm2 : m ≤ 2 * c) (hme : |m - e| ≤ 8 * u * c / a) :
    T ≤ f (f (m * b) + p) ∧ f (f (m * b) + p) ≤ 2 * c ∧
    |f (f (m * b) + p) - (e * (1 - a) + c * a)| ≤ 8 * u * c / a := by
  obtain ⟨hf0, hmono, herr⟩ := hf
  have hA0 : 0 < 1 - a := by linarith only [ha1]
  have hu1 : u ≤ 1 / 8 := by linarith only [hu8, ha1]
  have hLT : L ≤ T := by
    have : 0 ≤ T * a := le_of_lt (mul_pos hT0 ha0)
    linarith only [this, hL, hT0]
  have hm0 : 0 ≤ m := by
    rcases hm with h | h
    · rw [h]
    · linarith only [h, hT0]
  obtain ⟨hb1, hb2⟩ := abs_le.mp hb
  have hbl : (1 - u) * (1 - a) ≤ b := by linarith only [hb1]
  have hbu : b ≤ (1 + u) * (1 - a) := by linarith only [hb2]
  have hb0 : 0 ≤ b := le_trans (mul_nonneg (by linarith only [hu1]) (le_of_lt hA0)) hbl
  have hmb0 : 0 ≤ m * b := mul_nonneg hm0 hb0
  have hy1 : |f (m * b) - m * b| ≤ u * (m * b) := by
    rcases hm with h | h
    · rw [h, zero_mul, hf0]
      simp
    · have hge : L ≤ m * b := by
        have h1 : (1 - a) / 2 ≤ b := by
          have : 0 ≤ (1 / 2 - u) * (1 - a) :=
            mul_nonneg (by linarith only [hu1]) (le_of_lt hA0)
          linarith only [this, hbl]
        have h2 : T * ((1 - a) / 2) ≤ m * b :=
          mul_le_mul h h1 (by linarith only [hA0]) hm0
        linarith only [h2, hL]
      have := herr (m * b)
      rwa [abs_of_nonneg hmb0, max_eq_left hge] at this
  obtain ⟨hy1l, hy1u⟩ := abs_le.mp hy1
  have hy0 : 0 ≤ f (m * b) := by
    have := hmono 0 (m * b) hmb0
    rwa [hf0] at this
  have hs : T ≤ f (m * b) + p := by linarith only [hy0, hp1]
  have hs0 : 0 < f (m * b) + p := by linarith only [hs, hT0]
  have hy2 : |f (f (m * b) + p) - (f (m * b) + p)| ≤ u * (f (m * b) + p) := by
    have := herr (f (m * b) + p)
    rwa [abs_of_pos hs0, max_eq_left (le_trans hLT hs)] at this
  obtain ⟨hy2l, hy2u⟩ := abs_le.mp hy2
  have hTle : T ≤ f (f (m * b) + p) := by
    have := hmono T (f (m * b) + p) hs
    rwa [hT] at this
  obtain ⟨hp2l, hp2u⟩ := abs_le.mp hp2
  have hca : 0 < c * a := mul_pos hc ha0
  obtain ⟨hup, hlow⟩ := rounded_sum_bounds u a c b p m (f (m * b)) (f (f (m * b) + p)) hu0 hu1
    hA0 hca hm0 hbl hbu (by linarith only [hy1l]) (by linarith only [hy1u])
    (by linarith only [hp2l]) (by linarith only [hp2u]) (by linarith only [hy2l])
    (by linarith only [hy2u])
  obtain ⟨h1, h2⟩ := rounded_step_contracts u a c m e (f (f (m * b) + p)) hu0 hu8 ha0 ha1 hc
    hm0 hm2 hme hup hlow
  exact ⟨hTle, h1, h2⟩

theorem RoundsWithin.mirror (fl : α → α) (u L : α) (h : RoundsWithin fl u L) :
    RoundsWithin (fun y => -fl (-y)) u L := by
  obtain ⟨h0, hmono, herr⟩ := h
  refine ⟨?_, ?_, ?_⟩
  · show -fl (-0) = 0
    rw [neg_zero, h0, neg_zero]
  · intro x y hxy
    show -fl (-x) ≤ -fl (-y)
    exact neg_le_neg (hmono (-y) (-x) (neg_le_neg hxy))
  · intro x
    show |-fl (-x) - x| ≤ u * max |x| L
    have := herr (-x)
    rw [abs_neg] at this
    have e : -fl (-x) - x = -(fl (-x) - -x) := by ring
    rw [e, abs_neg]
    exact this

/-- One rounded update of the memory under a constant input `x` of either
sign with `|x| * a` at least the flush threshold: the invariant of the run
(the memory is `0` or at least the threshold in magnitude, has the sign of the
input, is at most `2 |x|` in magnitude and within `8 u |x| / a` of the exact
memory `e`) is kept, and the new memory is not `0`. -/
theorem rounded_step (fl : α → α) (u L a x m e : α)
    (hfl : RoundsWithin fl u L) (hu0 : 0 ≤ u) (hu8 : 8 * u ≤ a) (ha0 : 0 < a) (ha1 : a < 1)
    (hT : fl flushThreshold = flushThreshold) (hT' : fl (-flushThreshold) = -flushThreshold)
    (hL : L ≤ flushThreshold * (1 - a) / 2) (hx : flushThreshold ≤ |x| * a)
    (hm : m = 0 ∨ flushThreshold ≤ |m|) (hsign : 0 ≤ m * x) (hm2 : |m| ≤ 2 * |x|)
    (hme : |m - e| ≤ 8 * u * |x| / a) :
    flushThreshold ≤ |onePoleRounded fl m x a| ∧ 0 ≤ onePoleRounded fl m x a * x ∧
    |onePoleRounded fl m x a| ≤ 2 * |x| ∧
    |onePoleRounded fl m x a - (e * (1 - a) + x * a)| ≤ 8 * u * |x| / a := by
  have hT0 : (0 : α) < flushThreshold := flushThreshold_pos
  have hT1 : (flushThreshold : α) < 1 := flushThreshold_lt_one
  have hA0 : 0 < 1 - a := by linarith only [ha1]
  have hLT : L ≤ flushThreshold := by
    have : 0 ≤ (flushThreshold : α) * a := le_of_lt (mul_pos hT0 ha0)
    linarith only [this, hL, hT0]
  have hLA : L ≤ 1 - a := by
    have : (flushThreshold : α) * (1 - a) ≤ 1 * (1 - a) :=
      mul_le_mul_of_nonneg_right (le_of_lt hT1) (le_of_lt hA0)
    linarith only [this, hL, hA0]
  have hb : |fl (1 - a) - (1 - a)| ≤ u * (1 - a) := by
    have := hfl.2.2 (1 - a)
    rwa [abs_of_pos hA0, max_eq_left hLA] at this
  have hxa : |fl (x * a) - x * a| ≤ u * |x * a| := by
    have := hfl.2.2 (x * a)
    have h1 : L ≤ |x * a| := by
      rw [abs_mul, abs_of_pos ha0]
      exact le_trans hLT hx
    rwa [max_eq_left h1] at this
  have hunfold : onePoleRounded fl m x a = fl (fl (m * fl (1 - a)) + fl (x * a)) := by
    unfold onePoleRounded
    rw [lit_one]
  rw [hunfold]
  rcases lt_trichotomy x 0 with hneg | hzero | hpos
  · -- negative input: the run is the mirror image of a run with input `-x`
    have habs : |x| = -x := abs_of_neg hneg
    rw [habs] at hx hm2 hme ⊢
    have hm0 : m ≤ 0 := by
      by_contra h
      have : m * x < 0 := mul_neg_of_pos_of_neg (not_le.mp h) hneg
      linarith only [this, hsign]
    have hxa0 : x * a < 0 := mul_neg_of_neg_of_pos hneg ha0
    have hp1 : flushThreshold ≤ -fl (x * a) := by
      have := hfl.2.1 (x * a) (-flushThreshold) (by linarith only [hx])
      rw [hT'] at this
      linarith only [this]
    have hp2 : |-fl (x * a) - -x * a| ≤ u * (-x * a) := by
      have e : -fl (x * a) - -x * a = -(fl (x * a) - x * a) := by ring
      rw [e, abs_neg]
      rw [abs_of_neg hxa0] at hxa
      linarith only [hxa]
    have hm' : -m = 0 ∨ flushThreshold ≤ -m := by
      rcases hm with h | h
      · left
        rw [h, neg_zero]
      · right
        rwa [abs_of_nonpos hm0] at h
    have hm2' : -m ≤ 2 * -x := by
      rwa [abs_of_nonpos hm0] at hm2
    have hme' : |-m - -e| ≤ 8 * u * -x / a := by
      have e1 : -m - -e = -(m - e) := by ring
      rw [e1, abs_neg]
      exact hme
    have key := rounded_step_pos (fun y => -fl (-y)) u L flushThreshold a (-x) (fl (1 - a))
      (-fl (x * a)) (-m) (-e) (RoundsWithin.mirror fl u L hfl) hu0 hu8 ha0 ha1
      (by linarith only [hneg]) hT0 (by show -fl (-flushThreshold) = flushThreshold; rw [hT', neg_neg])
      hL hb hp1 hp2 hm' hm2' hme'
    have e2 : (fun y => -fl (-y)) ((fun y => -fl (-y)) (-m * fl (1 - a)) + -fl (x * a)) =
        -fl (fl (m * fl (1 - a)) + fl (x * a)) := by
      show -fl (-(-fl (-(-m * fl (1 - a))) + -fl (x * a))) = _
      have e3 : -(-m * fl (1 - a)) = m * fl (1 - a) := by ring
      rw [e3]
      have e4 : -(-fl (m * fl (1 - a)) + -fl (x * a)) = fl (m * fl (1 - a)) + fl (x * a) := by
        ring
      rw [e4]
    rw [e2] at key
    obtain ⟨k1, k2, k3⟩ := key
    have hy0 : fl (fl (m * fl (1 - a)) + fl (x * a)) ≤ 0 := by linarith only [k1, hT0]
    refine ⟨?_, ?_, ?_, ?_⟩
    · rw [abs_of_nonpos hy0]
      exact k1
    · exact mul_nonneg_of_nonpos_of_nonpos hy0 (le_of_lt hneg)
    · rw [abs_of_nonpos hy0]
      exact k2
    · have e5 : -fl (fl (m * fl (1 - a)) + fl (x * a)) - (-e * (1 - a) + -x * a) =
          -(fl (fl (m * fl (1 - a)) + fl (x * a)) - (e * (1 - a) + x * a)) := by ring
      rw [e5, abs_neg] at k3
      exact k3
  · exfalso
    rw [hzero, abs_zero, zero_mul] at hx
    linarith only [hx, hT0]
  · have habs : |x| = x := abs_of_pos hpos
    rw [habs] at hx hm2 hme ⊢
    have hm0 : 0 ≤ m := by
      by_contra h
      have : m * x < 0 := mul_neg_of_neg_of_pos (not_le.mp h) hpos
      linarith only [this, hsign]
    have hxa0 : 0 < x * a := mul_pos hpos ha0
    have hp1 : flushThreshold ≤ fl (x * a) := by
      have := hfl.2.1 flushThreshold (x * a) hx
      rwa [hT] at this
    have hp2 : |fl (x * a) - x * a| ≤ u * (x * a) := by
      rwa [abs_of_pos hxa0] at hxa
    have hm' : m = 0 ∨ flushThreshold ≤ m := by
      rcases hm with h | h
      · exact Or.inl h
      · right
        rwa [abs_of_nonneg hm0] at h
    have hm2' : m ≤ 2 * x := by
      rwa [abs_of_nonneg hm0] at hm2
    obtain ⟨k1, k2, k3⟩ := rounded_step_pos fl u L flushThreshold a x (fl (1 - a))
      (fl (x * a)) m e hfl hu0 hu8 ha0 ha1 hpos hT0 hT hL hb hp1 hp2 hm' hm2' hme
    have hy0 : 0 ≤ fl (fl (m * fl (1 - a)) + fl (x * a)) := by linarith only [k1, hT0]
    refine ⟨?_, ?_, ?_, k3⟩
    · rw [abs_of_nonneg hy0]
      exact k1
    · exact mul_nonneg hy0 (le_of_lt hpos)
    · rw [abs_of_nonneg hy0]
      exact k2

theorem one_sub_pow_bounds (a : α) (ha0 : 0 < a) (ha1 : a < 1) (n : Nat) :
    0 < (1 - a) ^ n ∧ (1 - a) ^ (n + 1) ≤ 1 - a := by
  have h0 : 0 < 1 - a := by linarith
  have h1 : 1 - a ≤ 1 := by linarith
  refine ⟨pow_pos h0 n, ?_⟩
  have : (1 - a) ^ n ≤ 1 := pow_le_one₀ (le_of_lt h0) h1
  calc (1 - a) ^ (n + 1) = (1 - a) ^ n * (1 - a) := pow_succ _ _
    _ ≤ 1 * (1 - a) := mul_le_mul_of_nonneg_right this (le_of_lt h0)
    _ = 1 - a := one_mul _

/-- A one-pole memory that holds `x * (1 - (1 - a) ^ n)` is either `0` (for
`n = 0`) or at least `|x| * a` in magnitude, so the flush leaves it alone. -/
theorem constant_memory_not_flushed (a x : α) (ha0 : 0 < a) (ha1 : a < 1)
    (hx : flushThreshold ≤ |x| * a) (n : Nat) :
    flushMemory (x * (1 - (1 - a) ^ n)) = x * (1 - (1 - a) ^ n) := by
  apply flushMemory_of_zero_or_le
  cases n with
  | zero => left; simp
  | succ k =>
    right
    have hb := (one_sub_pow_bounds a ha0 ha1 k).2
    have h1 : a ≤ 1 - (1 - a) ^ (k + 1) := by linarith
    have h2 : 0 ≤ 1 - (1 - a) ^ (k + 1) := by linarith
    rw [abs_mul, abs_of_nonneg h2]
    calc (flushThreshold : α) ≤ |x| * a := hx
      _ ≤ |x| * (1 - (1 - a) ^ (k + 1)) := mul_le_mul_of_nonneg_left h1 (abs_nonneg x)

theorem mackHighpassAConstant_left (c : BlockLocals α) (s : SlamityProcessor α) (xL xR : α)
    (ha0 : 0 < c.mackIirAmountA) (ha1 : c.mackIirAmountA < 1) (hs : s.mack_iirSampleAL = 0)
    (hx : flushThreshold ≤ |xL| * c.mackIirAmountA) (n : Nat) :
    (mackHighpassAConstant c s xL xR n).1.mack_iirSampleAL =
      xL * (1 - (1 - c.mackIirAmountA) ^ n) ∧
    (mackHighpassAConstant c s xL xR (n + 1)).2.1 = xL * (1 - c.mackIirAmountA) ^ (n + 1) := by
  induction n with
  | zero =>
    have h0 : (mackHighpassAConstant c s xL xR 0).1.mack_iirSampleAL = 0 := hs
    refine ⟨by rw [h0]; simp, ?_⟩
    show xL - onePole (flushMemory s.mack_iirSampleAL) xL c.mackIirAmountA = _
    rw [hs, flushMemory_of_zero_or_le 0 (Or.inl rfl)]
    simp only [onePole, lit_one]
    ring
  | succ k ih =>
    have hmem : (mackHighpassAConstant c s xL xR (k + 1)).1.mack_iirSampleAL =
        xL * (1 - (1 - c.mackIirAmountA) ^ (k + 1)) := by
      show onePole (flushMemory (mackHighpassAConstant c s xL xR k).1.mack_iirSampleAL) xL
        c.mackIirAmountA = _
      rw [ih.1, constant_memory_not_flushed _ _ ha0 ha1 hx k]
      simp only [onePole, lit_one]
      ring
    refine ⟨hmem, ?_⟩
    show xL - onePole (flushMemory (mackHighpassAConstant c s xL xR (k + 1)).1.mack_iirSampleAL) xL
        c.mackIirAmountA = _
    rw [hmem, constant_memory_not_flushed _ _ ha0 ha1 hx (k + 1)]
    simp only [onePole, lit_one]
    ring

theorem mackHighpassAConstant_right (c : BlockLocals α) (s : SlamityProcessor α) (xL xR : α)
    (ha0 : 0 < c.mackIirAmountA) (ha1 : c.mackIirAmountA < 1) (hs : s.mack_iirSampleAR = 0)
    (hx : flushThreshold ≤ |xR| * c.mackIirAmountA) (n : Nat) :
    (mackHighpassAConstant c s xL xR n).1.mack_iirSampleAR =
      xR * (1 - (1 - c.mackIirAmountA) ^ n) ∧
    (mackHighpassAConstant c s xL xR (n + 1)).2.2 = xR * (1 - c.mackIirAmountA) ^ (n + 1) := by
  induction n with
  | zero =>
    have h0 : (mackHighpassAConstant c s xL xR 0).1.mack_iirSampleAR = 0 := hs
    refine ⟨by rw [h0]; simp, ?_⟩
    show xR - onePole (flushMemory s.mack_iirSampleAR) xR c.mackIirAmountA = _
    rw [hs, flushMemory_of_zero_or_le 0 (Or.inl rfl)]
    simp only [onePole, lit_one]
    ring
  | succ k ih =>
    have hmem : (mackHighpassAConstant c s xL xR (k + 1)).1.mack_iirSampleAR =
        xR * (1 - (1 - c.mackIirAmountA) ^ (k + 1)) := by
      show onePole (flushMemory (mackHighpassAConstant c s xL xR k).1.mack_iirSampleAR) xR
        c.mackIirAmountA = _
      rw [ih.1, constant_memory_not_flushed _ _ ha0 ha1 hx k]
      simp only [onePole, lit_one]
      ring
    refine ⟨hmem, ?_⟩
    show xR - onePole (flushMemory (mackHighpassAConstant c s xL xR (k + 1)).1.mack_iirSampleAR) xR
        c.mackIirAmountA = _
    rw [hmem, constant_memory_not_flushed _ _ ha0 ha1 hx (k + 1)]
    simp only [onePole, lit_one]
    ring

theorem geometric_strict_decrease (a x : α) (ha0 : 0 < a) (ha1 : a < 1)
    (hx : flushThreshold ≤ |x| * a) (n : Nat) :
    |x * (1 - a) ^ (n + 1)| < |x * (1 - a) ^ n| := by
  have hpos : 0 < |x| := by
    have h : (0 : α) < |x| * a := lt_of_lt_of_le flushThreshold_pos hx
    exact (pos_iff_pos_of_mul_pos h).mpr ha0
  have hp := (one_sub_pow_bounds a ha0 ha1 n).1
  have h0 : 0 < 1 - a := by linarith
  rw [abs_mul, abs_mul, abs_of_pos hp, abs_of_pos (pow_pos h0 (n + 1)), pow_succ]
  have : |x| * ((1 - a) ^ n * (1 - a)) = |x| * (1 - a) ^ n * (1 - a) := by ring
  rw [this]
  have hq : 0 < |x| * (1 - a) ^ n := mul_pos hpos hp
  nlinarith

theorem geometric_eventually_small [Archimedean α] (a x ε : α) (ha0 : 0 < a) (ha1 : a < 1)
    (hε : 0 < ε) : ∃ N : Nat, ∀ n, N ≤ n → |x * (1 - a) ^ n| < ε := by
  have h0 : 0 < 1 - a := by linarith
  have h1 : 1 - a < 1 := by linarith
  have hpos : 0 < ε / (|x| + 1) := div_pos hε (by positivity)
  obtain ⟨N, hN⟩ := exists_pow_lt_of_lt_one hpos h1
  refine ⟨N, fun n hn => ?_⟩
  have hle : (1 - a) ^ n ≤ (1 - a) ^ N := pow_le_pow_of_le_one (le_of_lt h0) (le_of_lt h1) hn
  rw [abs_mul, abs_of_pos (pow_pos h0 n)]
  have hx1 : 0 < |x| + 1 := by positivity
  have h2 : (1 - a) ^ n * (|x| + 1) < ε := by
    have := lt_of_le_of_lt hle hN
    rwa [lt_div_iff₀ hx1] at this
  have h3 : |x| * (1 - a) ^ n ≤ (1 - a) ^ n * (|x| + 1) := by
    have := pow_pos h0 n
    nlinarith [abs_nonneg x]
  linarith

/-- The memory of a rounded run under the constant input `x`, started at `0`:
after every number of samples it is `0` or at least the threshold in
magnitude (so that the flush leaves it alone), has the sign of the input, is
at most `2 |x|` in magnitude and within `8 u |x| / a` of the exact memory
`x * (1 - (1 - a) ^ n)`. -/
theorem rounded_run_memory (fl : α → α) (u L a x : α) (M : Nat → α)
    (hfl : RoundsWithin fl u L) (hu0 : 0 ≤ u) (hu8 : 8 * u ≤ a) (ha0 : 0 < a) (ha1 : a < 1)
    (hT : fl flushThreshold = flushThreshold) (hT' : fl (-flushThreshold) = -flushThreshold)
    (hL : L ≤ flushThreshold * (1 - a) / 2) (hx : flushThreshold ≤ |x| * a)
    (h0 : M 0 = 0) (hstep : ∀ n, M (n + 1) = onePoleRounded fl (flushMemory (M n)) x a)
    (n : Nat) :
    (M n = 0 ∨ flushThreshold ≤ |M n|) ∧ 0 ≤ M n * x ∧ |M n| ≤ 2 * |x| ∧
    |M n - x * (1 - (1 - a) ^ n)| ≤ 8 * u * |x| / a := by
  have hD : 0 ≤ 8 * u * |x| / a :=
    div_nonneg (mul_nonneg (mul_nonneg (by norm_num) hu0) (abs_nonneg x)) (le_of_lt ha0)
  induction n with
  | zero =>
    rw [h0]
    refine ⟨Or.inl rfl, by rw [zero_mul], ?_, ?_⟩
    · rw [abs_zero]
      exact mul_nonneg (by norm_num) (abs_nonneg x)
    · simp only [pow_zero, sub_self, mul_zero, abs_zero]
      exact hD
  | succ k ih =>
    obtain ⟨i1, i2, i3, i4⟩ := ih
    rw [hstep k, flushMemory_of_zero_or_le _ i1]
    obtain ⟨k1, k2, k3, k4⟩ := rounded_step fl u L a x (M k) (x * (1 - (1 - a) ^ k)) hfl hu0 hu8
      ha0 ha1 hT hT' hL hx i1 i2 i3 i4
    refine ⟨Or.inr k1, k2, k3, ?_⟩
    have e : x * (1 - (1 - a) ^ (k + 1)) = x * (1 - (1 - a) ^ k) * (1 - a) + x * a := by
      rw [pow_succ]
      ring
    rw [e]
    exact k4

/-- The output of the rounded stage on a sample whose updated memory `m`
satisfies the invariant of `rounded_run_memory`: it is within `9 u |x| / a` of
the exact output `x * (1 - a) ^ n`. -/
theorem rounded_run_output (fl : α → α) (u L a x m : α) (n : Nat)
    (hfl : RoundsWithin fl u L) (hu0 : 0 ≤ u) (ha0 : 0 < a) (ha1 : a < 1)
    (hL : L ≤ flushThreshold * (1 - a) / 2) (hx : flushThreshold ≤ |x| * a)
    (hsign : 0 ≤ m * x) (hm2 : |m| ≤ 2 * |x|)
    (hme : |m - x * (1 - (1 - a) ^ n)| ≤ 8 * u * |x| / a) :
    |fl (x - m) - x * (1 - a) ^ n| ≤ 9 * u * |x| / a := by
  have hT0 : (0 : α) < flushThreshold := flushThreshold_pos
  have hxm : |x - m| ≤ |x| := by
    rcases le_total 0 x with h | h
    · have hm0 : 0 ≤ m := by
        by_contra hc
        have hx0 : 0 < x := by
          rcases lt_or_eq_of_le h with h1 | h1
          · exact h1
          · exfalso
            rw [← h1, abs_zero, zero_mul] at hx
            linarith only [hx, hT0]
        have : m * x < 0 := mul_neg_of_neg_of_pos (not_le.mp hc) hx0
        linarith only [this, hsign]
      rw [abs_of_nonneg h, abs_of_nonneg hm0] at *
      rw [abs_le]
      constructor <;> linarith only [hm0, hm2]
    · have hm0 : m ≤ 0 := by
        by_contra hc
        have hx0 : x < 0 := by
          rcases lt_or_eq_of_le h with h1 | h1
          · exact h1
          · exfalso
            rw [h1, abs_zero, zero_mul] at hx
            linarith only [hx, hT0]
        have : m * x < 0 := mul_neg_of_pos_of_neg (not_le.mp hc) hx0
        linarith only [this, hsign]
      rw [abs_of_nonpos h, abs_of_nonpos hm0] at *
      rw [abs_le]
      constructor <;> linarith only [hm0, hm2]
  have hLx : L ≤ |x| := by
    have h1 : 0 ≤ (flushThreshold : α) * a := le_of_lt (mul_pos hT0 ha0)
    have h2 : |x| * a ≤ |x| * 1 := mul_le_mul_of_nonneg_left (le_of_lt ha1) (abs_nonneg x)
    linarith only [h1, h2, hL, hx, hT0]
  have h1 : |fl (x - m) - (x - m)| ≤ u * |x| :=
    le_trans (hfl.2.2 (x - m)) (mul_le_mul_of_nonneg_left (max_le hxm hLx) hu0)
  have hux : 0 ≤ u * |x| := mul_nonneg hu0 (abs_nonneg x)
  have h2 : u * |x| ≤ u * |x| / a := by
    rw [le_div_iff₀ ha0]
    have := mul_le_mul_of_nonneg_left (le_of_lt ha1) hux
    linarith only [this]
  have e : fl (x - m) - x * (1 - a) ^ n =
      (fl (x - m) - (x - m)) - (m - x * (1 - (1 - a) ^ n)) := by ring
  have h3 : 9 * u * |x| / a = u * |x| / a + 8 * u * |x| / a := by ring
  rw [e, h3]
  calc |(fl (x - m) - (x - m)) - (m - x * (1 - (1 - a) ^ n))|
      ≤ |fl (x - m) - (x - m)| + |m - x * (1 - (1 - a) ^ n)| := abs_sub _ _
    _ ≤ u * |x| / a + 8 * u * |x| / a := add_le_add (le_trans h1 h2) hme

theorem roundDouble_flushThreshold : roundDouble flushThreshold = flushThreshold := by
  have e : (flushThreshold : ℚ) = (5651077306942965 /
      47890485652059026823698344598447161988085597568237568 : ℚ) := by
    unfold flushThreshold
    norm_num
  rw [e]
  exact roundDouble_eval _ _ (-175) (5651077306942965) (by norm_num) (by norm_num) (by norm_num) (by
      norm_num) (by norm_num [abs_lt]) (by norm_num)

/-- Claim C10 fails in double arithmetic.  With the coefficient
`a = 1 - 2^(-20)` (`nearOneLocals`), a freshly constructed processor and the
constant input `1`, every operation rounded to the nearest double: the memory
reaches `1` on the third sample, so the output on the third sample is `0`, not
`(1 - a) ^ 3 = 2^(-60)`, and the output on the fourth sample is `0` again, not
smaller in magnitude. -/
theorem mackity_dc_removal_counterexample :
    (0 < nearOneLocals.mackIirAmountA ∧ nearOneLocals.mackIirAmountA < 1 ∧
      flushThreshold ≤ |(1 : ℚ)| * nearOneLocals.mackIirAmountA) ∧
    (mackHighpassAConstantRounded roundDouble nearOneLocals SlamityProcessor.initial 1 1 3).2.1 ≠
      1 * (1 - nearOneLocals.mackIirAmountA) ^ 3 ∧
    ¬ (|(mackHighpassAConstantRounded roundDouble nearOneLocals SlamityProcessor.initial 1 1 4).2.1|
        <
      |(mackHighpassAConstantRounded roundDouble nearOneLocals SlamityProcessor.initial 1 1 3).2.1|)
          := by
  have h1 : onePoleRounded roundDouble (0 : ℚ) (1 : ℚ) (1048575 / 1048576 : ℚ) = (1048575 / 1048576
      : ℚ) := by
    have h101 : roundDouble (1.0 - (1048575 / 1048576 : ℚ)) = (1 / 1048576 : ℚ) := by
      rw [show (1.0 - (1048575 / 1048576 : ℚ) : ℚ) = (1 / 1048576 : ℚ) by norm_num]
      exact roundDouble_eval _ _ (-72) (4503599627370496) (by norm_num) (by norm_num) (by norm_num)
          (by norm_num) (by norm_num [abs_lt]) (by norm_num)
    have h102 : roundDouble ((0 : ℚ) * (1 / 1048576 : ℚ)) = (0 : ℚ) := by
      rw [show ((0 : ℚ) * (1 / 1048576 : ℚ) : ℚ) = (0 : ℚ) by norm_num]
      exact roundDouble_zero
    have h103 : roundDouble ((1 : ℚ) * (1048575 / 1048576 : ℚ)) = (1048575 / 1048576 : ℚ) := by
      rw [show ((1 : ℚ) * (1048575 / 1048576 : ℚ) : ℚ) = (1048575 / 1048576 : ℚ) by norm_num]
      exact roundDouble_eval _ _ (-53) (9007190664806400) (by norm_num) (by norm_num) (by norm_num)
          (by norm_num) (by norm_num [abs_lt]) (by norm_num)
    have h104 : roundDouble ((0 : ℚ) + (1048575 / 1048576 : ℚ)) = (1048575 / 1048576 : ℚ) := by
      rw [show ((0 : ℚ) + (1048575 / 1048576 : ℚ) : ℚ) = (1048575 / 1048576 : ℚ) by norm_num]
      exact roundDouble_eval _ _ (-53) (9007190664806400) (by norm_num) (by norm_num) (by norm_num)
          (by norm_num) (by norm_num [abs_lt]) (by norm_num)
    unfold onePoleRounded
    rw [h101, h102, h103, h104]
  have h2 : onePoleRounded roundDouble (1048575 / 1048576 : ℚ) (1 : ℚ) (1048575 / 1048576 : ℚ) =
      (1099511627775 / 1099511627776 : ℚ) := by
    have h201 : roundDouble (1.0 - (1048575 / 1048576 : ℚ)) = (1 / 1048576 : ℚ) := by
      rw [show (1.0 - (1048575 / 1048576 : ℚ) : ℚ) = (1 / 1048576 : ℚ) by norm_num]
      exact roundDouble_eval _ _ (-72) (4503599627370496) (by norm_num) (by norm_num) (by norm_num)
          (by norm_num) (by norm_num [abs_lt]) (by norm_num)
    have h202 : roundDouble ((1048575 / 1048576 : ℚ) * (1 / 1048576 : ℚ)) = (1048575 / 1099511627776
        : ℚ) := by
      rw [show ((1048575 / 1048576 : ℚ) * (1 / 1048576 : ℚ) : ℚ) = (1048575 / 1099511627776 : ℚ) by
          norm_num]
      exact roundDouble_eval _ _ (-73) (9007190664806400) (by norm_num) (by norm_num) (by norm_num)
          (by norm_num) (by norm_num [abs_lt]) (by norm_num)
    have h203 : roundDouble ((1 : ℚ) * (1048575 / 1048576 : ℚ)) = (1048575 / 1048576 : ℚ) := by
      rw [show ((1 : ℚ) * (1048575 / 1048576 : ℚ) : ℚ) = (1048575 / 1048576 : ℚ) by norm_num]
      exact roundDouble_eval _ _ (-53) (9007190664806400) (by norm_num) (by norm_num) (by norm_num)
          (by norm_num) (by norm_num [abs_lt]) (by norm_num)
    have h204 : roundDouble ((1048575 / 1099511627776 : ℚ) + (1048575 / 1048576 : ℚ)) =
        (1099511627775 / 1099511627776 : ℚ) := by
      rw [show ((1048575 / 1099511627776 : ℚ) + (1048575 / 1048576 : ℚ) : ℚ) = (1099511627775 /
          1099511627776 : ℚ) by norm_num]
      exact roundDouble_eval _ _ (-53) (9007199254732800) (by norm_num) (by norm_num) (by norm_num)
          (by norm_num) (by norm_num [abs_lt]) (by norm_num)
    unfold onePoleRounded
    rw [h201, h202, h203, h204]
  have h3 : onePoleRounded roundDouble (1099511627775 / 1099511627776 : ℚ) (1 : ℚ) (1048575 /
      1048576 : ℚ) = (1 : ℚ) := by
    have h301 : roundDouble (1.0 - (1048575 / 1048576 : ℚ)) = (1 / 1048576 : ℚ) := by
      rw [show (1.0 - (1048575 / 1048576 : ℚ) : ℚ) = (1 / 1048576 : ℚ) by norm_num]
      exact roundDouble_eval _ _ (-72) (4503599627370496) (by norm_num) (by norm_num) (by norm_num)
          (by norm_num) (by norm_num [abs_lt]) (by norm_num)
    have h302 : roundDouble ((1099511627775 / 1099511627776 : ℚ) * (1 / 1048576 : ℚ)) =
        (1099511627775 / 1152921504606846976 : ℚ) := by
      rw [show ((1099511627775 / 1099511627776 : ℚ) * (1 / 1048576 : ℚ) : ℚ) = (1099511627775 /
          1152921504606846976 : ℚ) by norm_num]
      exact roundDouble_eval _ _ (-73) (9007199254732800) (by norm_num) (by norm_num) (by norm_num)
          (by norm_num) (by norm_num [abs_lt]) (by norm_num)
    have h303 : roundDouble ((1 : ℚ) * (1048575 / 1048576 : ℚ)) = (1048575 / 1048576 : ℚ) := by
      rw [show ((1 : ℚ) * (1048575 / 1048576 : ℚ) : ℚ) = (1048575 / 1048576 : ℚ) by norm_num]
      exact roundDouble_eval _ _ (-53) (9007190664806400) (by norm_num) (by norm_num) (by norm_num)
          (by norm_num) (by norm_num [abs_lt]) (by norm_num)
    have h304 : roundDouble ((1099511627775 / 1152921504606846976 : ℚ) + (1048575 / 1048576 : ℚ)) =
        (1 : ℚ) := by
      rw [show ((1099511627775 / 1152921504606846976 : ℚ) + (1048575 / 1048576 : ℚ) : ℚ) =
          (1152921504606846975 / 1152921504606846976 : ℚ) by norm_num]
      exact roundDouble_eval _ _ (-53) (9007199254740992) (by norm_num) (by norm_num) (by norm_num)
          (by norm_num) (by norm_num [abs_lt]) (by norm_num)
    unfold onePoleRounded
    rw [h301, h302, h303, h304]
  have h4 : onePoleRounded roundDouble (1 : ℚ) (1 : ℚ) (1048575 / 1048576 : ℚ) = (1 : ℚ) := by
    have h401 : roundDouble (1.0 - (1048575 / 1048576 : ℚ)) = (1 / 1048576 : ℚ) := by
      rw [show (1.0 - (1048575 / 1048576 : ℚ) : ℚ) = (1 / 1048576 : ℚ) by norm_num]
      exact roundDouble_eval _ _ (-72) (4503599627370496) (by norm_num) (by norm_num) (by norm_num)
          (by norm_num) (by norm_num [abs_lt]) (by norm_num)
    have h402 : roundDouble ((1 : ℚ) * (1 / 1048576 : ℚ)) = (1 / 1048576 : ℚ) := by
      rw [show ((1 : ℚ) * (1 / 1048576 : ℚ) : ℚ) = (1 / 1048576 : ℚ) by norm_num]
      exact roundDouble_eval _ _ (-72) (4503599627370496) (by norm_num) (by norm_num) (by norm_num)
          (by norm_num) (by norm_num [abs_lt]) (by norm_num)
    have h403 : roundDouble ((1 : ℚ) * (1048575 / 1048576 : ℚ)) = (1048575 / 1048576 : ℚ) := by
      rw [show ((1 : ℚ) * (1048575 / 1048576 : ℚ) : ℚ) = (1048575 / 1048576 : ℚ) by norm_num]
      exact roundDouble_eval _ _ (-53) (9007190664806400) (by norm_num) (by norm_num) (by norm_num)
          (by norm_num) (by norm_num [abs_lt]) (by norm_num)
    have h404 : roundDouble ((1 / 1048576 : ℚ) + (1048575 / 1048576 : ℚ)) = (1 : ℚ) := by
      rw [show ((1 / 1048576 : ℚ) + (1048575 / 1048576 : ℚ) : ℚ) = (1 : ℚ) by norm_num]
      exact roundDouble_eval _ _ (-52) (4503599627370496) (by norm_num) (by norm_num) (by norm_num)
          (by norm_num) (by norm_num [abs_lt]) (by norm_num)
    unfold onePoleRounded
    rw [h401, h402, h403, h404]
  have h5 : roundDouble ((1 : ℚ) - (1 : ℚ)) = (0 : ℚ) := by
    rw [show ((1 : ℚ) - (1 : ℚ) : ℚ) = (0 : ℚ) by norm_num]
    exact roundDouble_zero
  have h6 : roundDouble ((1 : ℚ) - (1 : ℚ)) = (0 : ℚ) := by
    rw [show ((1 : ℚ) - (1 : ℚ) : ℚ) = (0 : ℚ) by norm_num]
    exact roundDouble_zero
  have m1 : (mackHighpassAConstantRounded roundDouble nearOneLocals SlamityProcessor.initial 1 1
      1).1.mack_iirSampleAL =
      (1048575 / 1048576 : ℚ) := by
    show onePoleRounded roundDouble (flushMemory (mackHighpassAConstantRounded roundDouble
        nearOneLocals SlamityProcessor.initial 1 1 0).1.mack_iirSampleAL)
      (1 : ℚ) (1048575 / 1048576 : ℚ) = _
    have e0 : (mackHighpassAConstantRounded roundDouble nearOneLocals SlamityProcessor.initial 1 1
        0).1.mack_iirSampleAL = (0 : ℚ) := rfl
    rw [e0, flushMemory_of_zero_or_le 0 (Or.inl rfl)]
    exact h1
  have m2 : (mackHighpassAConstantRounded roundDouble nearOneLocals SlamityProcessor.initial 1 1
      2).1.mack_iirSampleAL =
      (1099511627775 / 1099511627776 : ℚ) := by
    show onePoleRounded roundDouble (flushMemory (mackHighpassAConstantRounded roundDouble
        nearOneLocals SlamityProcessor.initial 1 1 1).1.mack_iirSampleAL)
      (1 : ℚ) (1048575 / 1048576 : ℚ) = _
    rw [m1, flushMemory_of_zero_or_le _ (Or.inr (by norm_num [flushThreshold, abs_of_pos]))]
    exact h2
  have m3 : (mackHighpassAConstantRounded roundDouble nearOneLocals SlamityProcessor.initial 1 1
      3).1.mack_iirSampleAL =
      (1 : ℚ) := by
    show onePoleRounded roundDouble (flushMemory (mackHighpassAConstantRounded roundDouble
        nearOneLocals SlamityProcessor.initial 1 1 2).1.mack_iirSampleAL)
      (1 : ℚ) (1048575 / 1048576 : ℚ) = _
    rw [m2, flushMemory_of_zero_or_le _ (Or.inr (by norm_num [flushThreshold, abs_of_pos]))]
    exact h3
  have m4 : (mackHighpassAConstantRounded roundDouble nearOneLocals SlamityProcessor.initial 1 1
      4).1.mack_iirSampleAL =
      (1 : ℚ) := by
    show onePoleRounded roundDouble (flushMemory (mackHighpassAConstantRounded roundDouble
        nearOneLocals SlamityProcessor.initial 1 1 3).1.mack_iirSampleAL)
      (1 : ℚ) (1048575 / 1048576 : ℚ) = _
    rw [m3, flushMemory_of_zero_or_le _ (Or.inr (by norm_num [flushThreshold, abs_of_pos]))]
    exact h4
  have o3 : (mackHighpassAConstantRounded roundDouble nearOneLocals SlamityProcessor.initial 1 1
      3).2.1 = 0 := by
    show roundDouble ((1 : ℚ) - (mackHighpassAConstantRounded roundDouble nearOneLocals
        SlamityProcessor.initial 1 1 3).1.mack_iirSampleAL) = _
    rw [m3]
    exact h5
  have o4 : (mackHighpassAConstantRounded roundDouble nearOneLocals SlamityProcessor.initial 1 1
      4).2.1 = 0 := by
    show roundDouble ((1 : ℚ) - (mackHighpassAConstantRounded roundDouble nearOneLocals
        SlamityProcessor.initial 1 1 4).1.mack_iirSampleAL) = _
    rw [m4]
    exact h6
  refine ⟨⟨by norm_num [nearOneLocals], by norm_num [nearOneLocals],
    by norm_num [nearOneLocals, flushThreshold, abs_of_pos]⟩, ?_, ?_⟩
  · rw [o3]
    norm_num [nearOneLocals]
  · rw [o3, o4]
    norm_num

/-- The rounded stage has a fixed point away from the input.  At 44100 Hz
(`doubleLocals`) with the constant input `0.5`, a subsonic memory that holds
`0.5 - 67 * 2^(-52)` is taken to itself by the rounded update, so from
`stalledProcessor` the memory stays there and the output is `67 * 2^(-52)`,
about `1.4877e-14`, on every sample: a sustained offset. -/
theorem mackHighpassARounded_stall (n : Nat) :
    (mackHighpassAConstantRounded roundDouble doubleLocals stalledProcessor (1 / 2) (1 / 2)
        n).1.mack_iirSampleAL = 2251799813685181 / 4503599627370496 ∧
    (mackHighpassAConstantRounded roundDouble doubleLocals stalledProcessor (1 / 2) (1 / 2)
        (n + 1)).2.1 = 67 / 4503599627370496 := by
  have h1 : onePoleRounded roundDouble (2251799813685181 / 4503599627370496 : ℚ) (1 / 2 : ℚ)
      (4290867163026459 / 2305843009213693952 : ℚ) = (2251799813685181 / 4503599627370496 : ℚ) := by
    have h101 : roundDouble (1.0 - (4290867163026459 / 2305843009213693952 : ℚ)) = (2247609513721355
        / 2251799813685248 : ℚ) := by
      rw [show (1.0 - (4290867163026459 / 2305843009213693952 : ℚ) : ℚ) = (2301552142050667493 /
          2305843009213693952 : ℚ) by norm_num]
      exact roundDouble_eval _ _ (-53) (8990438054885420) (by norm_num) (by norm_num) (by norm_num)
          (by norm_num) (by norm_num [abs_lt]) (by norm_num)
    have h102 : roundDouble ((2251799813685181 / 4503599627370496 : ℚ) * (2247609513721355 /
        2251799813685248 : ℚ)) = (280951189215161 / 562949953421312 : ℚ) := by
      rw [show ((2251799813685181 / 4503599627370496 : ℚ) * (2247609513721355 / 2251799813685248 :
          ℚ) : ℚ) = (5061166684234787457327726740255 / 10141204801825835211973625643008 : ℚ) by
          norm_num]
      exact roundDouble_eval _ _ (-54) (8990438054885152) (by norm_num) (by norm_num) (by norm_num)
          (by norm_num) (by norm_num [abs_lt]) (by norm_num)
    have h103 : roundDouble ((1 / 2 : ℚ) * (4290867163026459 / 2305843009213693952 : ℚ)) =
        (4290867163026459 / 4611686018427387904 : ℚ) := by
      rw [show ((1 / 2 : ℚ) * (4290867163026459 / 2305843009213693952 : ℚ) : ℚ) = (4290867163026459
          / 4611686018427387904 : ℚ) by norm_num]
      exact roundDouble_eval _ _ (-63) (8581734326052918) (by norm_num) (by norm_num) (by norm_num)
          (by norm_num) (by norm_num [abs_lt]) (by norm_num)
    have h104 : roundDouble ((280951189215161 / 562949953421312 : ℚ) + (4290867163026459 /
        4611686018427387904 : ℚ)) = (2251799813685181 / 4503599627370496 : ℚ) := by
      rw [show ((280951189215161 / 562949953421312 : ℚ) + (4290867163026459 / 4611686018427387904 :
          ℚ) : ℚ) = (2305843009213625371 / 4611686018427387904 : ℚ) by norm_num]
      exact roundDouble_eval _ _ (-54) (9007199254740724) (by norm_num) (by norm_num) (by norm_num)
          (by norm_num) (by norm_num [abs_lt]) (by norm_num)
    unfold onePoleRounded
    rw [h101, h102, h103, h104]
  have h2 : roundDouble ((1 / 2 : ℚ) - (2251799813685181 / 4503599627370496 : ℚ)) = (67 /
      4503599627370496 : ℚ) := by
    rw [show ((1 / 2 : ℚ) - (2251799813685181 / 4503599627370496 : ℚ) : ℚ) = (67 / 4503599627370496
        : ℚ) by norm_num]
    exact roundDouble_eval _ _ (-98) (4714705859903488) (by norm_num) (by norm_num) (by norm_num)
        (by norm_num) (by norm_num [abs_lt]) (by norm_num)
  have hstep : ∀ k, (mackHighpassAConstantRounded roundDouble doubleLocals stalledProcessor
      (1 / 2) (1 / 2) k).1.mack_iirSampleAL = 2251799813685181 / 4503599627370496 := by
    intro k
    induction k with
    | zero => rfl
    | succ j ih =>
      show onePoleRounded roundDouble (flushMemory (mackHighpassAConstantRounded roundDouble
        doubleLocals stalledProcessor (1 / 2) (1 / 2) j).1.mack_iirSampleAL) (1 / 2 : ℚ)
        (4290867163026459 / 2305843009213693952 : ℚ) = _
      rw [ih, flushMemory_of_zero_or_le _ (Or.inr (by norm_num [flushThreshold, abs_of_pos]))]
      exact h1
  refine ⟨hstep n, ?_⟩
  show roundDouble ((1 / 2 : ℚ) - (mackHighpassAConstantRounded roundDouble doubleLocals
    stalledProcessor (1 / 2) (1 / 2) (n + 1)).1.mack_iirSampleAL) = _
  rw [hstep (n + 1)]
  exact h2

/-- Claim C10, amended.  Let the coefficient `a = mackIirAmountA` lie in
`(0, 1)`, let every operation of the stage be rounded by `fl`, a monotone
rounding that keeps `0`, `1.18e-37` and `-1.18e-37` and has unit roundoff `u`
with `8 u ≤ a` above a magnitude `L ≤ 1.18e-37 * (1 - a) / 2` (as rounding to
the nearest double has, with `u = 2^(-53)` and `L = 2^(-1022)`), and feed the
stage the constant frame `(xL, xR)`.  On a channel whose one-pole memory
starts at `0` and whose input `x` satisfies `|x| * a ≥ 1.18e-37`, the output
on the `n`-th sample (`n ≥ 1`) is within `9 u |x| / a` of `x * (1 - a) ^ n`,
so it falls below every bound larger than `9 u |x| / a`; with `u = 0`, and in
the exact stage `mackHighpassA`, it is exactly `x * (1 - a) ^ n`.  Nothing is
said of a strict decrease or of a limit `0`. -/
theorem mackity_dc_removal [Archimedean α] (fl : α → α) (u L : α) (c : BlockLocals α)
    (s : SlamityProcessor α) (xL xR : α)
    (ha0 : 0 < c.mackIirAmountA) (ha1 : c.mackIirAmountA < 1)
    (hfl : RoundsWithin fl u L) (hu0 : 0 ≤ u) (hu8 : 8 * u ≤ c.mackIirAmountA)
    (hL : L ≤ flushThreshold * (1 - c.mackIirAmountA) / 2)
    (hT : fl flushThreshold = flushThreshold) (hT' : fl (-flushThreshold) = -flushThreshold) :
    (s.mack_iirSampleAL = 0 → flushThreshold ≤ |xL| * c.mackIirAmountA →
      (∀ n, 1 ≤ n →
        |(mackHighpassAConstantRounded fl c s xL xR n).2.1 - xL * (1 - c.mackIirAmountA) ^ n| ≤
          9 * u * |xL| / c.mackIirAmountA) ∧
      (∀ ε : α, 0 < ε → ∃ N, ∀ n, N ≤ n →
        |(mackHighpassAConstantRounded fl c s xL xR n).2.1| <
          ε + 9 * u * |xL| / c.mackIirAmountA) ∧
      (∀ n, 1 ≤ n →
        (mackHighpassAConstant c s xL xR n).2.1 = xL * (1 - c.mackIirAmountA) ^ n)) ∧
    (s.mack_iirSampleAR = 0 → flushThreshold ≤ |xR| * c.mackIirAmountA →
      (∀ n, 1 ≤ n →
        |(mackHighpassAConstantRounded fl c s xL xR n).2.2 - xR * (1 - c.mackIirAmountA) ^ n| ≤
          9 * u * |xR| / c.mackIirAmountA) ∧
      (∀ ε : α, 0 < ε → ∃ N, ∀ n, N ≤ n →
        |(mackHighpassAConstantRounded fl c s xL xR n).2.2| <
          ε + 9 * u * |xR| / c.mackIirAmountA) ∧
      (∀ n, 1 ≤ n →
        (mackHighpassAConstant c s xL xR n).2.2 = xR * (1 - c.mackIirAmountA) ^ n)) := by
  constructor
  · intro hs hx
    have hout : ∀ n, 1 ≤ n →
        |(mackHighpassAConstantRounded fl c s xL xR n).2.1 - xL * (1 - c.mackIirAmountA) ^ n| ≤
          9 * u * |xL| / c.mackIirAmountA := by
      intro n hn
      obtain ⟨k, rfl⟩ : ∃ k, n = k + 1 := ⟨n - 1, by omega⟩
      obtain ⟨_, i2, i3, i4⟩ := rounded_run_memory fl u L c.mackIirAmountA xL
        (fun n => (mackHighpassAConstantRounded fl c s xL xR n).1.mack_iirSampleAL)
        hfl hu0 hu8 ha0 ha1 hT hT' hL hx hs (fun _ => rfl) (k + 1)
      exact rounded_run_output fl u L c.mackIirAmountA xL _ (k + 1) hfl hu0 ha0 ha1 hL hx
        i2 i3 i4
    refine ⟨hout, ?_, ?_⟩
    · intro ε hε
      obtain ⟨N, hN⟩ := geometric_eventually_small c.mackIirAmountA xL ε ha0 ha1 hε
      refine ⟨N + 1, fun n hn => ?_⟩
      have h1 := hout n (by omega)
      have h2 := hN n (by omega)
      have h3 := abs_sub_abs_le_abs_sub (mackHighpassAConstantRounded fl c s xL xR n).2.1
        (xL * (1 - c.mackIirAmountA) ^ n)
      linarith only [h1, h2, h3]
    · intro n hn
      obtain ⟨k, rfl⟩ : ∃ k, n = k + 1 := ⟨n - 1, by omega⟩
      exact (mackHighpassAConstant_left c s xL xR ha0 ha1 hs hx k).2
  · intro hs hx
    have hout : ∀ n, 1 ≤ n →
        |(mackHighpassAConstantRounded fl c s xL xR n).2.2 - xR * (1 - c.mackIirAmountA) ^ n| ≤
          9 * u * |xR| / c.mackIirAmountA := by
      intro n hn
      obtain ⟨k, rfl⟩ : ∃ k, n = k + 1 := ⟨n - 1, by omega⟩
      obtain ⟨_, i2, i3, i4⟩ := rounded_run_memory fl u L c.mackIirAmountA xR
        (fun n => (mackHighpassAConstantRounded fl c s xL xR n).1.mack_iirSampleAR)
        hfl hu0 hu8 ha0 ha1 hT hT' hL hx hs (fun _ => rfl) (k + 1)
      exact rounded_run_output fl u L c.mackIirAmountA xR _ (k + 1) hfl hu0 ha0 ha1 hL hx
        i2 i3 i4
    refine ⟨hout, ?_, ?_⟩
    · intro ε hε
      obtain ⟨N, hN⟩ := geometric_eventually_small c.mackIirAmountA xR ε ha0 ha1 hε
      refine ⟨N + 1, fun n hn => ?_⟩
      have h1 := hout n (by omega)
      have h2 := hN n (by omega)
      have h3 := abs_sub_abs_le_abs_sub (mackHighpassAConstantRounded fl c s xL xR n).2.2
        (xR * (1 - c.mackIirAmountA) ^ n)
      linarith only [h1, h2, h3]
    · intro n hn
      obtain ⟨k, rfl⟩ : ∃ k, n = k + 1 := ⟨n - 1, by omega⟩
      exact (mackHighpassAConstant_right c s xL xR ha0 ha1 hs hx k).2

/-- Claim C10 as amended, for rounding to the nearest double: 44100 Hz, a
freshly constructed processor and the constant input `0.5`; the left output
on the third sample is within `9 * 2^(-53) * 0.5 / a` of `0.5 * (1 - a) ^ 3`. -/
theorem mackity_dc_removal_witness :
    |(mackHighpassAConstantRounded roundDouble doubleLocals SlamityProcessor.initial
        (1 / 2) (1 / 2) 3).2.1 - 1 / 2 * (1 - doubleLocals.mackIirAmountA) ^ 3| ≤
      9 * (1 / 2 ^ 53) * |(1 : ℚ) / 2| / doubleLocals.mackIirAmountA :=
  ((mackity_dc_removal roundDouble (1 / 2 ^ 53) (1 / 2 ^ 1022) doubleLocals
    SlamityProcessor.initial (1 / 2) (1 / 2) (by norm_num [doubleLocals])
    (by norm_num [doubleLocals]) roundDouble_roundsWithin (by norm_num)
    (by norm_num [doubleLocals]) (by norm_num [doubleLocals, flushThreshold])
    roundDouble_flushThreshold
    (by rw [roundDouble_neg, roundDouble_flushThreshold])).1 rfl
    (by norm_num [doubleLocals, flushThreshold, abs_of_pos])).1 3 (by norm_num)

/-! ## C11: which one-pole memories are flushed -/

theorem flushMemory_of_lt (s : α) (h : |s| < flushThreshold) : flushMemory s = 0 := by
  unfold flushMemory
  rw [if_pos h]
  exact lit_zero

theorem onePole_zero (x a : α) : onePole 0 x a = x * a := by
  simp [onePole]

theorem flushMemory_flushThreshold : flushMemory (flushThreshold : α) = flushThreshold := by
  unfold flushMemory
  rw [if_neg]
  rw [abs_of_pos flushThreshold_pos]
  exact lt_irrefl _

/-- Claim C11 fails on the DrumSlam cascades.  At 44100 Hz, a freshly
constructed processor whose memory `drum_iirSampleAL` holds `2^(-127)` (below
the threshold) and the driven frame `(0, 0)`: the memory after the band split
is `2^(-127) * (1 - a)`, not `0 * a`; the small memory was used as it stood.
This is so in exact arithmetic and with every operation rounded to the nearest
double. -/
theorem one_pole_flush_counterexample :
    |(1 / 2 ^ 127 : ℚ)| < flushThreshold ∧
    (drumBandSplit doubleLocals
        { SlamityProcessor.initial with drum_iirSampleAL := (1 / 2 ^ 127 : ℚ) }
        0 0).1.drum_iirSampleAL ≠ 0 * doubleLocals.drumIirAmountL ∧
    (drumBandSplitRounded roundDouble doubleLocals
        { SlamityProcessor.initial with drum_iirSampleAL := (1 / 2 ^ 127 : ℚ) }
        0 0).1.drum_iirSampleAL ≠ roundDouble (0 * doubleLocals.drumIirAmountL) := by
  have h1 : onePoleRounded roundDouble (1 / 170141183460469231731687303715884105728 : ℚ) (0 : ℚ)
      (2950758475853149 / 36028797018963968 : ℚ) = (8269509635777705 /
      1532495540865888858358347027150309183618739122183602176 : ℚ) := by
    have h101 : roundDouble (1.0 - (2950758475853149 / 36028797018963968 : ℚ)) = (8269509635777705 /
        9007199254740992 : ℚ) := by
      rw [show (1.0 - (2950758475853149 / 36028797018963968 : ℚ) : ℚ) = (33078038543110819 /
          36028797018963968 : ℚ) by norm_num]
      exact roundDouble_eval _ _ (-53) (8269509635777705) (by norm_num) (by norm_num) (by norm_num)
          (by norm_num) (by norm_num [abs_lt]) (by norm_num)
    have h102 : roundDouble ((1 / 170141183460469231731687303715884105728 : ℚ) * (8269509635777705 /
        9007199254740992 : ℚ)) = (8269509635777705 /
        1532495540865888858358347027150309183618739122183602176 : ℚ) := by
      rw [show ((1 / 170141183460469231731687303715884105728 : ℚ) * (8269509635777705 /
          9007199254740992 : ℚ) : ℚ) = (8269509635777705 /
          1532495540865888858358347027150309183618739122183602176 : ℚ) by norm_num]
      exact roundDouble_eval _ _ (-180) (8269509635777705) (by norm_num) (by norm_num) (by norm_num)
          (by norm_num) (by norm_num [abs_lt]) (by norm_num)
    have h103 : roundDouble ((0 : ℚ) * (2950758475853149 / 36028797018963968 : ℚ)) = (0 : ℚ) := by
      rw [show ((0 : ℚ) * (2950758475853149 / 36028797018963968 : ℚ) : ℚ) = (0 : ℚ) by norm_num]
      exact roundDouble_zero
    have h104 : roundDouble ((8269509635777705 /
        1532495540865888858358347027150309183618739122183602176 : ℚ) + (0 : ℚ)) = (8269509635777705
        / 1532495540865888858358347027150309183618739122183602176 : ℚ) := by
      rw [show ((8269509635777705 / 1532495540865888858358347027150309183618739122183602176 : ℚ) +
          (0 : ℚ) : ℚ) = (8269509635777705 / 1532495540865888858358347027150309183618739122183602176
          : ℚ) by norm_num]
      exact roundDouble_eval _ _ (-180) (8269509635777705) (by norm_num) (by norm_num) (by norm_num)
          (by norm_num) (by norm_num [abs_lt]) (by norm_num)
    unfold onePoleRounded
    rw [h101, h102, h103, h104]
  refine ⟨by norm_num [flushThreshold, abs_of_pos], ?_, ?_⟩
  · norm_num [drumBandSplit, SlamityProcessor.initial, onePole, doubleLocals]
  · have e : (drumBandSplitRounded roundDouble doubleLocals
        { SlamityProcessor.initial with drum_iirSampleAL := (1 / 2 ^ 127 : ℚ) }
        0 0).1.drum_iirSampleAL = onePoleRounded roundDouble (1 /
            170141183460469231731687303715884105728 : ℚ) (0 : ℚ) (2950758475853149 /
            36028797018963968 : ℚ) := by
      show onePoleRounded roundDouble (1 / 2 ^ 127 : ℚ) 0 (2950758475853149 / 36028797018963968 : ℚ)
          = _
      norm_num
    rw [e, h1, zero_mul, roundDouble_zero]
    norm_num

/-- Claim C11, amended.  The flush is part of the four one-pole updates of
Mackity only: a memory `s` with `|s| < 1.18e-37`, the threshold being the
double the literal denotes (`flushThreshold`), is replaced by `0` before its
update, so the updated memory is `x * a`, `x` being the sample fed to the
smoother and `a` its coefficient; a memory equal to the threshold is kept.
The sixteen DrumSlam cascade memories are
updated without a flush: whatever `s` is, the updated memory is
`s * (1 - a) + x * a`, the second smoother of a cascade taking the updated
first memory as its input. -/
theorem one_pole_flush (c : BlockLocals α) (s : SlamityProcessor α) (sL sR : α) :
    ((|s.mack_iirSampleAL| < flushThreshold →
        (mackHighpassA c s sL sR).1.mack_iirSampleAL = sL * c.mackIirAmountA) ∧
     (|s.mack_iirSampleAR| < flushThreshold →
        (mackHighpassA c s sL sR).1.mack_iirSampleAR = sR * c.mackIirAmountA) ∧
     (|s.mack_iirSampleBL| < flushThreshold →
        (mackHighpassB c s sL sR).1.mack_iirSampleBL = sL * c.mackIirAmountB) ∧
     (|s.mack_iirSampleBR| < flushThreshold →
        (mackHighpassB c s sL sR).1.mack_iirSampleBR = sR * c.mackIirAmountB)) ∧
    (s.drum_fpFlip = true →
      (drumBandSplit c s sL sR).1.drum_iirSampleAL =
        s.drum_iirSampleAL * (1 - c.drumIirAmountL) + sL * c.drumIirAmountL ∧
      (drumBandSplit c s sL sR).1.drum_iirSampleBL =
        s.drum_iirSampleBL * (1 - c.drumIirAmountL) +
          (drumBandSplit c s sL sR).1.drum_iirSampleAL * c.drumIirAmountL ∧
      (drumBandSplit c s sL sR).1.drum_iirSampleAR =
        s.drum_iirSampleAR * (1 - c.drumIirAmountL) + sR * c.drumIirAmountL ∧
      (drumBandSplit c s sL sR).1.drum_iirSampleBR =
        s.drum_iirSampleBR * (1 - c.drumIirAmountL) +
          (drumBandSplit c s sL sR).1.drum_iirSampleAR * c.drumIirAmountL ∧
      (drumBandSplit c s sL sR).1.drum_iirSampleEL =
        s.drum_iirSampleEL * (1 - c.drumIirAmountH) + sL * c.drumIirAmountH ∧
      (drumBandSplit c s sL sR).1.drum_iirSampleFL =
        s.drum_iirSampleFL * (1 - c.drumIirAmountH) +
          (drumBandSplit c s sL sR).1.drum_iirSampleEL * c.drumIirAmountH ∧
      (drumBandSplit c s sL sR).1.drum_iirSampleER =
        s.drum_iirSampleER * (1 - c.drumIirAmountH) + sR * c.drumIirAmountH ∧
      (drumBandSplit c s sL sR).1.drum_iirSampleFR =
        s.drum_iirSampleFR * (1 - c.drumIirAmountH) +
          (drumBandSplit c s sL sR).1.drum_iirSampleER * c.drumIirAmountH) ∧
    (s.drum_fpFlip = false →
      (drumBandSplit c s sL sR).1.drum_iirSampleCL =
        s.drum_iirSampleCL * (1 - c.drumIirAmountL) + sL * c.drumIirAmountL ∧
      (drumBandSplit c s sL sR).1.drum_iirSampleDL =
        s.drum_iirSampleDL * (1 - c.drumIirAmountL) +
          (drumBandSplit c s sL sR).1.drum_iirSampleCL * c.drumIirAmountL ∧
      (drumBandSplit c s sL sR).1.drum_iirSampleCR =
        s.drum_iirSampleCR * (1 - c.drumIirAmountL) + sR * c.drumIirAmountL ∧
      (drumBandSplit c s sL sR).1.drum_iirSampleDR =
        s.drum_iirSampleDR * (1 - c.drumIirAmountL) +
          (drumBandSplit c s sL sR).1.drum_iirSampleCR * c.drumIirAmountL ∧
      (drumBandSplit c s sL sR).1.drum_iirSampleGL =
        s.drum_iirSampleGL * (1 - c.drumIirAmountH) + sL * c.drumIirAmountH ∧
      (drumBandSplit c s sL sR).1.drum_iirSampleHL =
        s.drum_iirSampleHL * (1 - c.drumIirAmountH) +
          (drumBandSplit c s sL sR).1.drum_iirSampleGL * c.drumIirAmountH ∧
      (drumBandSplit c s sL sR).1.drum_iirSampleGR =
        s.drum_iirSampleGR * (1 - c.drumIirAmountH) + sR * c.drumIirAmountH ∧
      (drumBandSplit c s sL sR).1.drum_iirSampleHR =
        s.drum_iirSampleHR * (1 - c.drumIirAmountH) +
          (drumBandSplit c s sL sR).1.drum_iirSampleGR * c.drumIirAmountH) ∧
    flushMemory (flushThreshold : α) = flushThreshold := by
  refine ⟨⟨fun h => ?_, fun h => ?_, fun h => ?_, fun h => ?_⟩, fun h => ?_, fun h => ?_,
    flushMemory_flushThreshold⟩
  · show onePole (flushMemory s.mack_iirSampleAL) sL c.mackIirAmountA = _
    rw [flushMemory_of_lt _ h, onePole_zero]
  · show onePole (flushMemory s.mack_iirSampleAR) sR c.mackIirAmountA = _
    rw [flushMemory_of_lt _ h, onePole_zero]
  · show onePole (flushMemory s.mack_iirSampleBL) sL c.mackIirAmountB = _
    rw [flushMemory_of_lt _ h, onePole_zero]
  · show onePole (flushMemory s.mack_iirSampleBR) sR c.mackIirAmountB = _
    rw [flushMemory_of_lt _ h, onePole_zero]
  · simp [drumBandSplit, h, onePole, lit_one]
  · simp [drumBandSplit, h, onePole, lit_one]

/-- Claim C11 as amended, on a processor whose memory `mack_iirSampleAL` holds
`2^(-127)`: after the subsonic stage on the frame `(1/2, 1/4)` it holds
`(1/2) * a`. -/
theorem one_pole_flush_witness :
    (mackHighpassA (blockLocals (44100 : ℚ) defaultParameters)
        { SlamityProcessor.initial with mack_iirSampleAL := (1 / 2 ^ 127 : ℚ) }
        (1 / 2) (1 / 4)).1.mack_iirSampleAL
      = 1 / 2 * (blockLocals (44100 : ℚ) defaultParameters).mackIirAmountA :=
  (one_pole_flush (blockLocals (44100 : ℚ) defaultParameters)
    { SlamityProcessor.initial with mack_iirSampleAL := (1 / 2 ^ 127 : ℚ) } (1 / 2) (1 / 4)).1.1
    (by norm_num [flushThreshold, abs_of_pos])

/-! ## C12 and C13: the mid band shaper -/

theorem midSinArg1_le (m : Libm α) (mid last : α) : midSinArg1 m mid last ≤ 1.57079633 := by
  unfold midSinArg1
  simp only
  split
  · exact le_refl _
  · rename_i h
    exact not_lt.mp h

theorem midSinArg2_le (m : Libm α) (drumDrive mid last : α) :
    midSinArg2 m drumDrive mid last ≤ 1.57079633 := by
  unfold midSinArg2
  simp only
  split
  · exact le_refl _
  · rename_i h
    exact not_lt.mp h

theorem midSkew_nonneg (m : Libm α) (mid last : α)
    (hsin : ∀ x : α, 0 ≤ x → x ≤ 3.1415926 → 0 ≤ m.sin x)
    (h : (0 ≤ mid ∧ last < mid) ∨ (mid ≤ 0 ∧ mid ≤ last)) : 0 ≤ midSkew m mid last := by
  have hb : 0 ≤ m.sin (if |mid - last| > 3.1415926 then 3.1415926 else |mid - last|) := by
    apply hsin
    · split
      · norm_num
      · exact abs_nonneg _
    · split
      · exact le_refl _
      · rename_i h1
        exact not_lt.mp h1
  unfold midSkew
  simp only
  rcases h with ⟨h1, h2⟩ | ⟨h1, h2⟩
  · have hpos : mid - last > 0 := by linarith
    rw [if_pos hpos]
    exact mul_nonneg (mul_nonneg (mul_nonneg hb (by norm_num)) h1) (by norm_num)
  · have hneg : ¬ (mid - last > 0) := by
      intro h3
      linarith
    rw [if_neg hneg]
    have e : -m.sin (if |mid - last| > 3.1415926 then 3.1415926 else |mid - last|) * 3.1415926
        * mid * 1.557079633 =
        m.sin (if |mid - last| > 3.1415926 then 3.1415926 else |mid - last|) * 3.1415926
        * (-mid) * 1.557079633 := by ring
    rw [e]
    exact mul_nonneg (mul_nonneg (mul_nonneg hb (by norm_num)) (by linarith)) (by norm_num)

theorem midSinArg1_nonneg (m : Libm α) (mid last : α) (h : 0 ≤ midSkew m mid last) :
    0 ≤ midSinArg1 m mid last := by
  unfold midSinArg1
  simp only
  split
  · norm_num
  · exact add_nonneg (abs_nonneg _) h

theorem midSinArg2_nonneg (m : Libm α) (drumDrive mid last : α)
    (hsin : ∀ x : α, 0 ≤ x → x ≤ 3.1415926 → 0 ≤ m.sin x) (hd : 0 ≤ drumDrive)
    (h : 0 ≤ midSkew m mid last) : 0 ≤ midSinArg2 m drumDrive mid last := by
  have h1 : 0 ≤ m.sin (midSinArg1 m mid last) :=
    hsin _ (midSinArg1_nonneg m mid last h)
      (le_trans (midSinArg1_le m mid last) (by norm_num))
  unfold midSinArg2
  simp only
  split
  · norm_num
  · exact add_nonneg (mul_nonneg h1 hd) h

/-- The reals' reading of the C library: `Real.sin`, `Real.tan`, `Real.sqrt`,
the exact binary exponent and `Real.pi`; the skew term at `mid = 1/10`,
`last = 11/10`. -/
theorem real_midSkew_example :
    midSkew (Libm.mk Real.sin Real.tan Real.sqrt id
      (fun x => if x = 0 then 0 else Int.log 2 |x| + 1) Real.pi) (1 / 10) (11 / 10) =
      -(Real.sin 1) * 3.1415926 * (1 / 10) * 1.557079633 := by
  have e : |((1 : ℝ) / 10 - 11 / 10)| = 1 := by norm_num
  have h1 : ¬ ((1 : ℝ) > 3.1415926) := by norm_num
  have h2 : ¬ ((1 : ℝ) / 10 - 11 / 10 > 0) := by norm_num
  simp only [midSkew, e, if_neg h1, if_neg h2]

theorem real_sin_one_bounds : 3 / 4 < Real.sin 1 ∧ Real.sin 1 ≤ 1 := by
  have h := Real.sin_gt_sub_cube (x := 1) (by norm_num) (le_refl 1)
  refine ⟨?_, Real.sin_le_one 1⟩
  norm_num at h
  linarith

theorem real_midSinArg1_example :
    midSinArg1 (Libm.mk Real.sin Real.tan Real.sqrt id
      (fun x => if x = 0 then 0 else Int.log 2 |x| + 1) Real.pi) (1 / 10) (11 / 10) < 0 ∧
    -(1 / 2) < midSinArg1 (Libm.mk Real.sin Real.tan Real.sqrt id
      (fun x => if x = 0 then 0 else Int.log 2 |x| + 1) Real.pi) (1 / 10) (11 / 10) := by
  obtain ⟨hs, hs1⟩ := real_sin_one_bounds
  have e : |((1 : ℝ) / 10)| = 1 / 10 := by norm_num [abs_of_pos]
  unfold midSinArg1
  simp only [real_midSkew_example, e]
  have hlt : ¬ ((1 : ℝ) / 10 + -(Real.sin 1) * 3.1415926 * (1 / 10) * 1.557079633 > 1.57079633) := by
    rw [not_lt]
    nlinarith
  rw [if_neg hlt]
  constructor <;> nlinarith

theorem real_midSinArg2_example :
    midSinArg2 (Libm.mk Real.sin Real.tan Real.sqrt id
      (fun x => if x = 0 then 0 else Int.log 2 |x| + 1) Real.pi) 1 (1 / 10) (11 / 10) < 0 ∧
    -Real.pi < midSinArg2 (Libm.mk Real.sin Real.tan Real.sqrt id
      (fun x => if x = 0 then 0 else Int.log 2 |x| + 1) Real.pi) 1 (1 / 10) (11 / 10) := by
  obtain ⟨hs, hs1⟩ := real_sin_one_bounds
  obtain ⟨ha, hb⟩ := real_midSinArg1_example
  have hpi := Real.pi_gt_three
  have hneg : Real.sin (midSinArg1 (Libm.mk Real.sin Real.tan Real.sqrt id
      (fun x => if x = 0 then 0 else Int.log 2 |x| + 1) Real.pi) (1 / 10) (11 / 10)) < 0 :=
    Real.sin_neg_of_neg_of_neg_pi_lt ha (by linarith)
  have hge := Real.neg_one_le_sin (midSinArg1 (Libm.mk Real.sin Real.tan Real.sqrt id
      (fun x => if x = 0 then 0 else Int.log 2 |x| + 1) Real.pi) (1 / 10) (11 / 10))
  unfold midSinArg2
  simp only [real_midSkew_example]
  split
  · rename_i h
    exfalso
    nlinarith
  · constructor <;> nlinarith

theorem real_sin_nonneg_on_code_range (x : ℝ) (h0 : 0 ≤ x) (h1 : x ≤ 3.1415926) :
    0 ≤ Real.sin x := by
  apply Real.sin_nonneg_of_nonneg_of_le_pi h0
  have := Real.pi_gt_d20
  linarith

/-- Claim C12 fails in the reals whatever the drive.  Take `drive = 1`, the
driven mid value `1/10` and the last-mid memory `11/10`.  The skew is
`-(sin 1) * 3.1415926 * (1/10) * 1.557079633`, between `-0.49` and `-0.36`;
the first sin argument `1/10 + skew` is negative, so is its sine, and the
second sin argument lies in `(-pi, 0)`: the shaped value is negative although
`mid > 0`.  Only an upper clamp precedes either sin call. -/
theorem mid_sign_restoration_counterexample :
    (0 : ℝ) < 1 / 10 ∧
    midBandShape (Libm.mk Real.sin Real.tan Real.sqrt id
      (fun x => if x = 0 then 0 else Int.log 2 |x| + 1) Real.pi) 1 (1 / 10) (11 / 10) < 0 := by
  obtain ⟨ha, hb⟩ := real_midSinArg2_example
  refine ⟨by norm_num, ?_⟩
  unfold midBandShape
  simp only
  rw [if_pos (by norm_num : (1 : ℝ) / 10 > 0)]
  exact Real.sin_neg_of_neg_of_neg_pi_lt ha hb

/-- Claim C12, amended.  The shaped mid value `drumSaturate` returns is
`midBandShape` of the driven mid value and the last-mid memory, which is
`sin a` for `mid > 0` and `-sin a` otherwise, `a` being the argument of the
last sin call.  For a drive `≥ 0` and a `sin` that is non-negative on
`[0, 3.1415926]`, it has the sign of `mid` (`≥ 0` for `mid > 0`, `≤ 0` for
`mid ≤ 0`) whenever `a ≥ 0`, and that is the case whenever the mid band moves
away from zero: `0 ≤ mid` and `last < mid`, or `mid ≤ 0` and `mid ≤ last`. -/
theorem mid_sign_restoration (m : Libm α) (c : BlockLocals α) (s : SlamityProcessor α)
    (b : Bands α) (drumDrive mid last : α)
    (hsin : ∀ x : α, 0 ≤ x → x ≤ 3.1415926 → 0 ≤ m.sin x) (hd : 0 ≤ drumDrive) :
    ((drumSaturate m c s b).2.midSampleL =
        midBandShape m c.drumDrive (b.midSampleL * c.drumDrive) s.drum_lastSampleL ∧
     (drumSaturate m c s b).2.midSampleR =
        midBandShape m c.drumDrive (b.midSampleR * c.drumDrive) s.drum_lastSampleR) ∧
    (midBandShape m drumDrive mid last =
      if mid > 0 then m.sin (midSinArg2 m drumDrive mid last)
      else -m.sin (midSinArg2 m drumDrive mid last)) ∧
    (0 ≤ midSinArg2 m drumDrive mid last →
      (0 < mid → 0 ≤ midBandShape m drumDrive mid last) ∧
      (mid ≤ 0 → midBandShape m drumDrive mid last ≤ 0)) ∧
    ((0 ≤ mid ∧ last < mid) ∨ (mid ≤ 0 ∧ mid ≤ last) →
      (0 < mid → 0 ≤ midBandShape m drumDrive mid last) ∧
      (mid ≤ 0 → midBandShape m drumDrive mid last ≤ 0)) := by
  have key : 0 ≤ midSinArg2 m drumDrive mid last →
      (0 < mid → 0 ≤ midBandShape m drumDrive mid last) ∧
      (mid ≤ 0 → midBandShape m drumDrive mid last ≤ 0) := by
    intro h
    have hs : 0 ≤ m.sin (midSinArg2 m drumDrive mid last) :=
      hsin _ h (le_trans (midSinArg2_le m drumDrive mid last) (by norm_num))
    constructor
    · intro hm
      unfold midBandShape
      simp only
      rw [if_pos hm]
      exact hs
    · intro hm
      unfold midBandShape
      simp only
      rw [if_neg (not_lt.mpr hm)]
      linarith
  refine ⟨⟨rfl, rfl⟩, rfl, key, fun h => ?_⟩
  exact key (midSinArg2_nonneg m drumDrive mid last hsin hd (midSkew_nonneg m mid last hsin h))

/-- Claim C12 as amended, in the reals: `drive = 2`, the mid band rising from
`1/4` to `1/2`. -/
theorem mid_sign_restoration_witness :
    0 ≤ midBandShape (Libm.mk Real.sin Real.tan Real.sqrt id
      (fun x => if x = 0 then 0 else Int.log 2 |x| + 1) Real.pi) 2 (1 / 2) (1 / 4) :=
  ((mid_sign_restoration (Libm.mk Real.sin Real.tan Real.sqrt id
      (fun x => if x = 0 then 0 else Int.log 2 |x| + 1) Real.pi)
    (blockLocals (44100 : ℝ) defaultParameters) SlamityProcessor.initial
    (Bands.mk 0 0 0 0 0 0) 2 (1 / 2) (1 / 4)
    real_sin_nonneg_on_code_range (by norm_num)).2.2.2
      (Or.inl ⟨by norm_num, by norm_num⟩)).1 (by norm_num)

theorem real_midSinArg1_at_rest :
    midSinArg1 (Libm.mk Real.sin Real.tan Real.sqrt id
      (fun x => if x = 0 then 0 else Int.log 2 |x| + 1) Real.pi) 2 2 = 1.57079633 := by
  have e : |((2 : ℝ) - 2)| = 0 := by norm_num
  have h1 : ¬ ((0 : ℝ) > 3.1415926) := by norm_num
  have h2 : ¬ ((2 : ℝ) - 2 > 0) := by norm_num
  have e2 : |(2 : ℝ)| = 2 := by norm_num
  simp only [midSinArg1, midSkew, e, if_neg h1, if_neg h2, Real.sin_zero, e2]
  norm_num

/-- Claim C13 fails in the reals at both ends of the interval.  With the
driven mid value `1/10`, the last-mid memory `11/10` and `drive = 1`, the
arguments of both sin calls are negative: only `> 1.57079633` is tested
before either call.  And with mid value and memory both `2`, the first
argument is the constant `1.57079633` of the code, which is above `pi / 2`. -/
theorem mid_sine_domain_counterexample :
    midSinArg1 (Libm.mk Real.sin Real.tan Real.sqrt id
      (fun x => if x = 0 then 0 else Int.log 2 |x| + 1) Real.pi) (1 / 10) (11 / 10) < 0 ∧
    midSinArg2 (Libm.mk Real.sin Real.tan Real.sqrt id
      (fun x => if x = 0 then 0 else Int.log 2 |x| + 1) Real.pi) 1 (1 / 10) (11 / 10) < 0 ∧
    Real.pi / 2 < midSinArg1 (Libm.mk Real.sin Real.tan Real.sqrt id
      (fun x => if x = 0 then 0 else Int.log 2 |x| + 1) Real.pi) 2 2 := by
  refine ⟨real_midSinArg1_example.1, real_midSinArg2_example.1, ?_⟩
  rw [real_midSinArg1_at_rest]
  have := Real.pi_lt_d20
  norm_num at this ⊢
  linarith

/-- Claim C13, amended.  For every last-mid memory, driven mid value and
drive, the arguments of the two last sin calls of the mid shaper are at most
`1.57079633`, the constant the code clamps to.  There is no lower clamp: the
first argument is non-negative whenever the skew term is, and so is the
second when moreover the drive is `≥ 0` and `sin` is non-negative on
`[0, 3.1415926]`; the skew term is non-negative whenever the mid band moves
away from zero (`0 ≤ mid` and `last < mid`, or `mid ≤ 0` and `mid ≤ last`). -/
theorem mid_sine_domain (m : Libm α) (drumDrive mid last : α) :
    (midSinArg1 m mid last ≤ 1.57079633 ∧ midSinArg2 m drumDrive mid last ≤ 1.57079633) ∧
    (midBandShape m drumDrive mid last =
      if mid > 0 then m.sin (midSinArg2 m drumDrive mid last)
      else -m.sin (midSinArg2 m drumDrive mid last)) ∧
    (0 ≤ midSkew m mid last → 0 ≤ midSinArg1 m mid last) ∧
    ((∀ x : α, 0 ≤ x → x ≤ 3.1415926 → 0 ≤ m.sin x) → 0 ≤ drumDrive →
      (0 ≤ midSkew m mid last → 0 ≤ midSinArg2 m drumDrive mid last) ∧
      ((0 ≤ mid ∧ last < mid) ∨ (mid ≤ 0 ∧ mid ≤ last) → 0 ≤ midSkew m mid last)) :=
  ⟨⟨midSinArg1_le m mid last, midSinArg2_le m drumDrive mid last⟩, rfl,
    midSinArg1_nonneg m mid last,
    fun hsin hd => ⟨midSinArg2_nonneg m drumDrive mid last hsin hd,
      midSkew_nonneg m mid last hsin⟩⟩

/-- Claim C13 as amended, in the reals: `drive = 2`, the mid band rising from
`1/4` to `1/2`; the argument of the last sin call lies in `[0, 1.57079633]`. -/
theorem mid_sine_domain_witness :
    0 ≤ midSinArg2 (Libm.mk Real.sin Real.tan Real.sqrt id
      (fun x => if x = 0 then 0 else Int.log 2 |x| + 1) Real.pi) 2 (1 / 2) (1 / 4) ∧
    midSinArg2 (Libm.mk Real.sin Real.tan Real.sqrt id
      (fun x => if x = 0 then 0 else Int.log 2 |x| + 1) Real.pi) 2 (1 / 2) (1 / 4)
      ≤ 1.57079633 :=
  ⟨((mid_sine_domain (Libm.mk Real.sin Real.tan Real.sqrt id
      (fun x => if x = 0 then 0 else Int.log 2 |x| + 1) Real.pi) 2 (1 / 2) (1 / 4)).2.2.2
      real_sin_nonneg_on_code_range (by norm_num)).1
      (((mid_sine_domain (Libm.mk Real.sin Real.tan Real.sqrt id
        (fun x => if x = 0 then 0 else Int.log 2 |x| + 1) Real.pi) 2 (1 / 2) (1 / 4)).2.2.2
        real_sin_nonneg_on_code_range (by norm_num)).2 (Or.inl ⟨by norm_num, by norm_num⟩)),
    (mid_sine_domain (Libm.mk Real.sin Real.tan Real.sqrt id
      (fun x => if x = 0 then 0 else Int.log 2 |x| + 1) Real.pi) 2 (1 / 2) (1 / 4)).1.2⟩

/-! ## C14: the denormal guard on the input -/

theorem denormalGuard_of_lt (fpd : Nat) (x : α) (h : |x| < 1.18e-23) :
    denormalGuard fpd x = (fpd : α) * 1.18e-17 := by
  simp [denormalGuard, h]

theorem denormalGuard_abs_ge (fpd : Nat) (x : α) (hv : fpd ≠ 0) :
    1.18e-23 ≤ |denormalGuard fpd x| := by
  by_cases h : |x| < 1.18e-23
  · rw [denormalGuard_of_lt fpd x h]
    have h1 : (1 : α) ≤ (fpd : α) := by
      have : 1 ≤ fpd := Nat.one_le_iff_ne_zero.mpr hv
      exact_mod_cast this
    have h2 : (0 : α) ≤ (fpd : α) * 1.18e-17 := mul_nonneg (by linarith) (by norm_num)
    rw [abs_of_nonneg h2]
    have h3 : (1.18e-23 : α) ≤ 1 * 1.18e-17 := by norm_num
    exact le_trans h3 (mul_le_mul_of_nonneg_right h1 (by norm_num))
  · rw [denormalGuard_of_le fpd x (not_lt.mp h)]
    exact not_lt.mp h

/-- Claim C14.  For every input sample `x` and every value `v` of the
channel's dither state at the start of the frame (before the generator is
advanced), the guarded sample is `x` when `|x| ≥ 1.18e-23` and
`v * 1.18e-17` otherwise; when `v ≠ 0` its magnitude is at least `1.18e-23`
and it is not `0`.  The guarded samples of the two channels are what the
loop body passes to the chain and what it mixes back as the global dry
sample. -/
theorem denormal_guard_input (m : Libm α) (c : BlockLocals α) (r : Run α) (x : α × α)
    (v : Nat) (y : α) :
    ((1.18e-23 ≤ |y| → denormalGuard v y = y) ∧
     (|y| < 1.18e-23 → denormalGuard v y = (v : α) * 1.18e-17) ∧
     (v ≠ 0 → 1.18e-23 ≤ |denormalGuard v y| ∧ denormalGuard v y ≠ 0)) ∧
    ((preDither m c r x).1.self =
        (processChain m c r (denormalGuard r.self.fpdL x.1)
          (denormalGuard r.self.fpdR x.2)).1.self ∧
     (preDither m c r x).2.1 =
        (if c.mainWet ≠ 1.0 then
          ((processChain m c r (denormalGuard r.self.fpdL x.1)
              (denormalGuard r.self.fpdR x.2)).2.1 * c.mainOutGain) * c.mainWet
            + denormalGuard r.self.fpdL x.1 * (1.0 - c.mainWet)
        else (processChain m c r (denormalGuard r.self.fpdL x.1)
              (denormalGuard r.self.fpdR x.2)).2.1 * c.mainOutGain) ∧
     (preDither m c r x).2.2 =
        (if c.mainWet ≠ 1.0 then
          ((processChain m c r (denormalGuard r.self.fpdL x.1)
              (denormalGuard r.self.fpdR x.2)).2.2 * c.mainOutGain) * c.mainWet
            + denormalGuard r.self.fpdR x.2 * (1.0 - c.mainWet)
        else (processChain m c r (denormalGuard r.self.fpdL x.1)
              (denormalGuard r.self.fpdR x.2)).2.2 * c.mainOutGain)) := by
  refine ⟨⟨denormalGuard_of_le v y, denormalGuard_of_lt v y, fun hv => ?_⟩,
    rfl, preDither_fst m c r x, preDither_snd m c r x⟩
  have h := denormalGuard_abs_ge v y hv
  refine ⟨h, fun h0 => ?_⟩
  rw [h0, abs_zero] at h
  have : (0 : α) < 1.18e-23 := by norm_num
  exact absurd h (not_le.mpr this)

/-- Claim C14 on digital silence with the dither state `123456789`: the sample
entering the chain is `123456789 * 1.18e-17`, of magnitude at least
`1.18e-23`. -/
theorem denormal_guard_input_witness :
    denormalGuard 123456789 (0 : ℚ) = 123456789 * 1.18e-17 ∧
    1.18e-23 ≤ |denormalGuard 123456789 (0 : ℚ)| :=
  ⟨(denormal_guard_input ratLibm (blockLocals 44100 defaultParameters)
      (startRun ratLibm 44100 usedProcessor) (0, 0) 123456789 0).1.2.1 (by norm_num),
   ((denormal_guard_input ratLibm (blockLocals 44100 defaultParameters)
      (startRun ratLibm 44100 usedProcessor) (0, 0) 123456789 0).1.2.2 (by norm_num)).1⟩

/-! ## C15: the flip flag toggles once per frame -/

theorem processDrumSlam_fpFlip (m : Libm α) (c : BlockLocals α) (r : Run α) (sL sR : α) :
    (processDrumSlam m c r sL sR).1.self.drum_fpFlip = !r.self.drum_fpFlip := by
  cases hf : r.self.drum_fpFlip <;>
    simp [processDrumSlam, drumSlamWet, drumBandSplit, hf, drumSaturate]

theorem processMackity_fpFlip (c : BlockLocals α) (r : Run α) (sL sR : α) :
    (processMackity c r sL sR).1.self.drum_fpFlip = r.self.drum_fpFlip := rfl

theorem processSample_fpFlip (m : Libm α) (c : BlockLocals α) (r : Run α) (x : α × α) :
    (processSample m c r x).1.self.drum_fpFlip = !r.self.drum_fpFlip := by
  show (processChain m c r (denormalGuard r.self.fpdL x.1)
    (denormalGuard r.self.fpdR x.2)).1.self.drum_fpFlip = _
  unfold processChain
  cases c.mackFirst
  · exact (processMackity_fpFlip c _ _ _).trans (processDrumSlam_fpFlip m c r _ _)
  · exact (processDrumSlam_fpFlip m c _ _ _).trans
      (congrArg (fun b => !b) (processMackity_fpFlip c r _ _))

theorem sampleLoop_fpFlip (m : Libm α) (c : BlockLocals α) (xs : List (α × α)) :
    ∀ r : Run α, (sampleLoop m c r xs).1.self.drum_fpFlip =
      if xs.length % 2 = 0 then r.self.drum_fpFlip else !r.self.drum_fpFlip := by
  induction xs with
  | nil => intro r; rfl
  | cons x xs ih =>
    intro r
    simp only [sampleLoop, List.length_cons]
    rw [ih, processSample_fpFlip]
    rcases Nat.mod_two_eq_zero_or_one xs.length with h | h
    · have h2 : (xs.length + 1) % 2 = 1 := by omega
      simp [h, h2]
    · have h2 : (xs.length + 1) % 2 = 0 := by omega
      simp [h, h2]

/-- Claim C15.  For every library, sample rate, parameter snapshot, processor
state and block: after the block `drum_fpFlip` is the flag it started with
when the number of frames is even and its negation when it is odd; the same
holds after the first `k` frames of the block, which is the flag frame `k`
(counted from 0) is processed with.  Hence, starting from `drum_fpFlip = true`
as `prepareToPlay` leaves it, frame `k` sees `true` (cascade pair A, B, E,
F) exactly when `k` is even.  Neither side mentions the samples or the
parameters. -/
theorem bandFlip_toggles_per_frame (m : Libm α) (sr : α) (p : ParameterSnapshot α)
    (s : SlamityProcessor α) (buffer : List (α × α)) (k : Nat) :
    ((processBlock m sr p s buffer).1.drum_fpFlip =
      if buffer.length % 2 = 0 then s.drum_fpFlip else !s.drum_fpFlip) ∧
    (k ≤ buffer.length →
      (sampleLoop m (blockLocals sr p) (startRun m sr s) (buffer.take k)).1.self.drum_fpFlip =
        if k % 2 = 0 then s.drum_fpFlip else !s.drum_fpFlip) ∧
    (k ≤ buffer.length → s.drum_fpFlip = true →
      ((sampleLoop m (blockLocals sr p) (startRun m sr s) (buffer.take k)).1.self.drum_fpFlip
        = true ↔ k % 2 = 0)) := by
  have hk : k ≤ buffer.length →
      (sampleLoop m (blockLocals sr p) (startRun m sr s) (buffer.take k)).1.self.drum_fpFlip =
        if k % 2 = 0 then s.drum_fpFlip else !s.drum_fpFlip := by
    intro h
    rw [sampleLoop_fpFlip, List.length_take, Nat.min_eq_left h]
    rfl
  refine ⟨?_, hk, fun h hs => ?_⟩
  · by_cases hne : buffer = []
    · subst hne
      rfl
    · rw [processBlock_of_ne_nil m sr p s buffer hne]
      show (sampleLoop m (blockLocals sr p) (startRun m sr s) buffer).1.self.drum_fpFlip = _
      rw [sampleLoop_fpFlip]
      rfl
  · rw [hk h, hs]
    rcases Nat.mod_two_eq_zero_or_one k with h2 | h2 <;> simp [h2]

/-- Claim C15 on a block of three frames from the constructor state: the flag
ends `false`, and the third frame (index 2) is processed with `true`. -/
theorem bandFlip_toggles_per_frame_witness :
    (processBlock ratLibm 44100 defaultParameters SlamityProcessor.initial
      [(1 / 2, 0), (0, 1 / 4), (1, 1)]).1.drum_fpFlip = false ∧
    (sampleLoop ratLibm (blockLocals 44100 defaultParameters)
      (startRun ratLibm 44100 SlamityProcessor.initial)
      (([(1 / 2, 0), (0, 1 / 4), (1, 1)] : List (ℚ × ℚ)).take 2)).1.self.drum_fpFlip = true :=
  ⟨(bandFlip_toggles_per_frame ratLibm 44100 defaultParameters SlamityProcessor.initial
      [(1 / 2, 0), (0, 1 / 4), (1, 1)] 2).1,
   ((bandFlip_toggles_per_frame ratLibm 44100 defaultParameters SlamityProcessor.initial
      [(1 / 2, 0), (0, 1 / 4), (1, 1)] 2).2.2 (by decide) rfl).mpr (by decide)⟩

/-! ## C16: the two cascade pairs do not disturb each other -/

/-- Claim C16.  In a `processDrumSlam` step taken with `drum_fpFlip = true` the
memories C, D, G, H of both channels are left as they were, and the bands the
splitter returns are the same for any two processors that agree on A, B, E, F
of both channels; with `drum_fpFlip = false` the memories A, B, E, F are left
as they were and the bands depend on C, D, G, H only. -/
theorem alternating_cascades (m : Libm α) (c : BlockLocals α) (r : Run α)
    (s t : SlamityProcessor α) (sL sR : α) :
    (r.self.drum_fpFlip = true →
      (processDrumSlam m c r sL sR).1.self.drum_iirSampleCL = r.self.drum_iirSampleCL ∧
      (processDrumSlam m c r sL sR).1.self.drum_iirSampleDL = r.self.drum_iirSampleDL ∧
      (processDrumSlam m c r sL sR).1.self.drum_iirSampleGL = r.self.drum_iirSampleGL ∧
      (processDrumSlam m c r sL sR).1.self.drum_iirSampleHL = r.self.drum_iirSampleHL ∧
      (processDrumSlam m c r sL sR).1.self.drum_iirSampleCR = r.self.drum_iirSampleCR ∧
      (processDrumSlam m c r sL sR).1.self.drum_iirSampleDR = r.self.drum_iirSampleDR ∧
      (processDrumSlam m c r sL sR).1.self.drum_iirSampleGR = r.self.drum_iirSampleGR ∧
      (processDrumSlam m c r sL sR).1.self.drum_iirSampleHR = r.self.drum_iirSampleHR) ∧
    (r.self.drum_fpFlip = false →
      (processDrumSlam m c r sL sR).1.self.drum_iirSampleAL = r.self.drum_iirSampleAL ∧
      (processDrumSlam m c r sL sR).1.self.drum_iirSampleBL = r.self.drum_iirSampleBL ∧
      (processDrumSlam m c r sL sR).1.self.drum_iirSampleEL = r.self.drum_iirSampleEL ∧
      (processDrumSlam m c r sL sR).1.self.drum_iirSampleFL = r.self.drum_iirSampleFL ∧
      (processDrumSlam m c r sL sR).1.self.drum_iirSampleAR = r.self.drum_iirSampleAR ∧
      (processDrumSlam m c r sL sR).1.self.drum_iirSampleBR = r.self.drum_iirSampleBR ∧
      (processDrumSlam m c r sL sR).1.self.drum_iirSampleER = r.self.drum_iirSampleER ∧
      (processDrumSlam m c r sL sR).1.self.drum_iirSampleFR = r.self.drum_iirSampleFR) ∧
    (s.drum_fpFlip = true → t.drum_fpFlip = true →
      s.drum_iirSampleAL = t.drum_iirSampleAL → s.drum_iirSampleBL = t.drum_iirSampleBL →
      s.drum_iirSampleEL = t.drum_iirSampleEL → s.drum_iirSampleFL = t.drum_iirSampleFL →
      s.drum_iirSampleAR = t.drum_iirSampleAR → s.drum_iirSampleBR = t.drum_iirSampleBR →
      s.drum_iirSampleER = t.drum_iirSampleER → s.drum_iirSampleFR = t.drum_iirSampleFR →
      (drumBandSplit c s sL sR).2 = (drumBandSplit c t sL sR).2) ∧
    (s.drum_fpFlip = false → t.drum_fpFlip = false →
      s.drum_iirSampleCL = t.drum_iirSampleCL → s.drum_iirSampleDL = t.drum_iirSampleDL →
      s.drum_iirSampleGL = t.drum_iirSampleGL → s.drum_iirSampleHL = t.drum_iirSampleHL →
      s.drum_iirSampleCR = t.drum_iirSampleCR → s.drum_iirSampleDR = t.drum_iirSampleDR →
      s.drum_iirSampleGR = t.drum_iirSampleGR → s.drum_iirSampleHR = t.drum_iirSampleHR →
      (drumBandSplit c s sL sR).2 = (drumBandSplit c t sL sR).2) := by
  refine ⟨fun h => ?_, fun h => ?_, ?_, ?_⟩
  · simp [processDrumSlam, drumSlamWet, drumBandSplit, h, drumSaturate]
  · simp [processDrumSlam, drumSlamWet, drumBandSplit, h, drumSaturate]
  · intro hs ht a1 a2 a3 a4 a5 a6 a7 a8
    simp [drumBandSplit, hs, ht, a1, a2, a3, a4, a5, a6, a7, a8]
  · intro hs ht a1 a2 a3 a4 a5 a6 a7 a8
    simp [drumBandSplit, hs, ht, a1, a2, a3, a4, a5, a6, a7, a8]

/-- Claim C16 on a processor in mid-stream whose flag is `false`: the step
leaves its memory `drum_iirSampleAL` at `1/13`. -/
theorem alternating_cascades_witness :
    (processDrumSlam ratLibm (blockLocals 44100 defaultParameters)
      (startRun ratLibm 44100 usedProcessor) (1 / 2) (-1 / 4)).1.self.drum_iirSampleAL = 1 / 13 :=
  ((alternating_cascades ratLibm (blockLocals 44100 defaultParameters)
    (startRun ratLibm 44100 usedProcessor) usedProcessor usedProcessor (1 / 2) (-1 / 4)).2.1
    rfl).1

/-! ## C17: the dither generator -/

theorem sampleLoop_fpd (m : Libm α) (c : BlockLocals α) (xs : List (α × α)) :
    ∀ r : Run α,
      (sampleLoop m c r xs).1.self.fpdL = Nat.iterate xorshift xs.length r.self.fpdL ∧
      (sampleLoop m c r xs).1.self.fpdR = Nat.iterate xorshift xs.length r.self.fpdR := by
  induction xs with
  | nil => intro r; exact ⟨rfl, rfl⟩
  | cons x xs ih =>
    intro r
    have h1 := processSample_fpd m c r x
    have h2 := ih (processSample m c r x).1
    simp only [sampleLoop, List.length_cons, Function.iterate_succ_apply]
    rw [← h1.1, ← h1.2]
    exact h2

theorem processBlock_fpd (m : Libm α) (sr : α) (p : ParameterSnapshot α)
    (s : SlamityProcessor α) (buffer : List (α × α)) :
    (processBlock m sr p s buffer).1.fpdL = Nat.iterate xorshift buffer.length s.fpdL ∧
    (processBlock m sr p s buffer).1.fpdR = Nat.iterate xorshift buffer.length s.fpdR := by
  by_cases hne : buffer = []
  · subst hne
    exact ⟨rfl, rfl⟩
  · rw [processBlock_of_ne_nil m sr p s buffer hne]
    exact sampleLoop_fpd m (blockLocals sr p) buffer (startRun m sr s)

/-- Claim C17.  For every library, sample rate, parameter snapshot, processor
state and block of `N` frames, each dither state after the block is the
`N`-fold xorshift step (`x ^= x << 13; x ^= x >> 17; x ^= x << 5`, each
reduced modulo `2^32`) of its value before the block.  The right-hand sides
mention the seed and the frame count only. -/
theorem dither_generator_evolution (m : Libm α) (sr : α) (p : ParameterSnapshot α)
    (s : SlamityProcessor α) (buffer : List (α × α)) :
    (processBlock m sr p s buffer).1.fpdL = Nat.iterate xorshift buffer.length s.fpdL ∧
    (processBlock m sr p s buffer).1.fpdR = Nat.iterate xorshift buffer.length s.fpdR :=
  processBlock_fpd m sr p s buffer

/-! ## C18: the dither term -/

theorem ratLibm_toFloat_below_one : ratLibm.toFloat (1 - 1 / 2 ^ 46) = 1 := by
  show roundFloat (1 - 1 / 2 ^ 46) = 1
  exact roundFloat_eval _ _ (-24) (2 ^ 24) (by norm_num) (by norm_num) (by norm_num)
    (by norm_num) (by norm_num [abs_lt]) (by norm_num)

theorem ratLibm_frexpf_one : ratLibm.frexpf 1 = 1 := by
  have hlog : Int.log 2 (1 : ℚ) = 0 := log_two_eq 1 0 (by norm_num) (by norm_num) (by norm_num)
  show (if (1 : ℚ) = 0 then 0 else Int.log 2 |(1 : ℚ)| + 1) = 1
  rw [if_neg (by norm_num), abs_one, hlog]
  rfl

theorem ditherTerm_below_one (g : Nat) :
    ditherTerm ratLibm g (1 - 1 / 2 ^ 46) = ((g : ℚ) - 2147483647) * 5.5e-36 * 2 ^ 63 := by
  unfold ditherTerm
  rw [ratLibm_toFloat_below_one, ratLibm_frexpf_one]
  norm_num

theorem generator_offset_abs_le (g : Nat) (hg : g < 4294967296) :
    |(g : α) - 2147483647| ≤ 2 ^ 31 := by
  have h1 : (g : α) ≤ 4294967295 := by
    have : g ≤ 4294967295 := by omega
    exact_mod_cast this
  have h2 : (0 : α) ≤ (g : α) := Nat.cast_nonneg g
  rw [abs_le]
  constructor <;> norm_num <;> linarith

/-- Claim C18 fails where the conversion to `float` rounds up to a power of
two.  The pre-dither sample `x = 1 - 2^(-46)` (the product of the floats
`1 + 2^(-23)` and `1 - 2^(-23)`: an input sample and `mainOutput` with both
engines dry) has binary exponent `0`, but `(float)x` is `1.0`, for which
`frexpf` stores `1`.  With the generator value `0xffffffff` the value added is
`2^31 * 5.5e-36 * 2^63`: not `(g - 0x7fffffff) * 5.5e-36 * 2^(0+62)`, and above
`2^94 * 5.5e-36 * |x|`. -/
theorem dither_scaled_to_magnitude_counterexample :
    ((2 : ℚ) ^ ((0 : Int) - 1) ≤ |(1 : ℚ) - 1 / 2 ^ 46| ∧
      |(1 : ℚ) - 1 / 2 ^ 46| < 2 ^ (0 : Int)) ∧
    ditherTerm ratLibm 4294967295 (1 - 1 / 2 ^ 46) ≠
      ((4294967295 : ℚ) - 2147483647) * 5.5e-36 * 2 ^ ((0 : Int) + 62) ∧
    2 ^ 94 * 5.5e-36 * |(1 : ℚ) - 1 / 2 ^ 46| <
      |ditherTerm ratLibm 4294967295 (1 - 1 / 2 ^ 46)| := by
  have hx : |(1 : ℚ) - 1 / 2 ^ 46| = 1 - 1 / 2 ^ 46 := abs_of_pos (by norm_num)
  have hd := ditherTerm_below_one 4294967295
  refine ⟨⟨?_, ?_⟩, ?_, ?_⟩
  · rw [hx]
    norm_num
  · rw [hx]
    norm_num
  · rw [hd]
    norm_num
  · rw [hd, hx, abs_of_pos (by norm_num)]
    norm_num

/-- Claim C18, amended.  Let `x` be a pre-dither sample, `e` the exponent
`frexpf` stores for its conversion `(float)x`, with `2^(e-1) ≤ |(float)x|`, and
`g` a 32-bit generator value.  The value added to the sample is
`(g - 0x7fffffff) * 5.5e-36 * 2^(e+62)`; its magnitude is at most
`2^31 * 5.5e-36 * 2^(e+62)`, hence at most `2^94 * 5.5e-36 * |(float)x|`.  Where
the conversion raises the magnitude by a factor of at most `1 + 2^(-24)`, as
rounding to the nearest `float` does in the normal range of `float`, this is
at most `2^94 * 5.5e-36 * (1 + 2^(-24)) * |x|`, which is below `1.1e-7 * |x|`.
In the loop body `x` is the pre-dither sample of the channel and `g` the
channel's generator state after its advance. -/
theorem dither_scaled_to_magnitude (m : Libm α) (c : BlockLocals α) (r : Run α)
    (frame : α × α) (g : Nat) (x : α) (e : Int)
    (hg : g < 4294967296) (he : m.frexpf (m.toFloat x) = e)
    (hlo : (2 : α) ^ (e - 1) ≤ |m.toFloat x|)
    (hcast : |m.toFloat x| ≤ (1 + 1 / 2 ^ 24) * |x|) :
    (ditherTerm m g x = ((g : α) - 2147483647) * 5.5e-36 * (2 : α) ^ (e + 62) ∧
     |ditherTerm m g x| ≤ 2 ^ 31 * 5.5e-36 * (2 : α) ^ (e + 62) ∧
     |ditherTerm m g x| ≤ 2 ^ 94 * 5.5e-36 * |m.toFloat x| ∧
     |ditherTerm m g x| ≤ 2 ^ 94 * 5.5e-36 * (1 + 1 / 2 ^ 24) * |x| ∧
     2 ^ 94 * 5.5e-36 * (1 + 1 / 2 ^ 24) * |x| < 1.1e-7 * |x|) ∧
    ((processSample m c r frame).2.1 = (preDither m c r frame).2.1 +
        ditherTerm m (xorshift (preDither m c r frame).1.self.fpdL) (preDither m c r frame).2.1 ∧
     (processSample m c r frame).2.2 = (preDither m c r frame).2.2 +
        ditherTerm m (xorshift (preDither m c r frame).1.self.fpdR)
          (preDither m c r frame).2.2) := by
  have hp : (0 : α) < (2 : α) ^ (e + 62) := zpow_pos (by norm_num) _
  have hp1 : (0 : α) < (2 : α) ^ (e - 1) := zpow_pos (by norm_num) _
  have hf : 0 < |m.toFloat x| := lt_of_lt_of_le hp1 hlo
  have hx : 0 < |x| := by
    by_contra h
    have h0 : |x| = 0 := le_antisymm (not_lt.mp h) (abs_nonneg x)
    rw [h0, mul_zero] at hcast
    exact absurd hf (not_lt.mpr hcast)
  have hsplit : (2 : α) ^ (e + 62) = (2 : α) ^ (e - 1) * 2 ^ 63 := by
    have : e + 62 = (e - 1) + 63 := by ring
    rw [this, zpow_add₀ (by norm_num : (2 : α) ≠ 0)]
    norm_cast
  have hterm : ditherTerm m g x = ((g : α) - 2147483647) * 5.5e-36 * (2 : α) ^ (e + 62) := by
    unfold ditherTerm
    rw [he]
  have habs : |ditherTerm m g x| ≤ 2 ^ 31 * 5.5e-36 * (2 : α) ^ (e + 62) := by
    rw [hterm, abs_mul, abs_mul, abs_of_pos hp, abs_of_pos (by norm_num : (0 : α) < 5.5e-36)]
    exact mul_le_mul_of_nonneg_right
      (mul_le_mul_of_nonneg_right (generator_offset_abs_le g hg) (by norm_num)) (le_of_lt hp)
  have hbound : 2 ^ 31 * 5.5e-36 * (2 : α) ^ (e + 62) ≤ 2 ^ 94 * 5.5e-36 * |m.toFloat x| := by
    rw [hsplit]
    have : (2 : α) ^ 31 * 5.5e-36 * ((2 : α) ^ (e - 1) * 2 ^ 63) =
        2 ^ 94 * 5.5e-36 * (2 : α) ^ (e - 1) := by ring
    rw [this]
    exact mul_le_mul_of_nonneg_left hlo (by norm_num)
  have hfloat := le_trans habs hbound
  have hwide : 2 ^ 94 * 5.5e-36 * |m.toFloat x| ≤ 2 ^ 94 * 5.5e-36 * (1 + 1 / 2 ^ 24) * |x| := by
    have := mul_le_mul_of_nonneg_left hcast (by norm_num : (0 : α) ≤ 2 ^ 94 * 5.5e-36)
    calc 2 ^ 94 * 5.5e-36 * |m.toFloat x| ≤ 2 ^ 94 * 5.5e-36 * ((1 + 1 / 2 ^ 24) * |x|) := this
      _ = 2 ^ 94 * 5.5e-36 * (1 + 1 / 2 ^ 24) * |x| := by ring
  refine ⟨⟨hterm, habs, hfloat, le_trans hfloat hwide, ?_⟩, rfl, rfl⟩
  exact mul_lt_mul_of_pos_right (by norm_num) hx

/-- Claim C18 as amended, on the sample `1 - 2^(-46)`, whose conversion to
`float` is `1.0` with exponent `1`, and the generator value `0xffffffff`. -/
theorem dither_scaled_to_magnitude_witness :
    |ditherTerm ratLibm 4294967295 (1 - 1 / 2 ^ 46)| ≤
      2 ^ 94 * 5.5e-36 * (1 + 1 / 2 ^ 24) * |(1 : ℚ) - 1 / 2 ^ 46| :=
  (dither_scaled_to_magnitude ratLibm (blockLocals 44100 defaultParameters)
    (startRun ratLibm 44100 usedProcessor) (0, 0) 4294967295 (1 - 1 / 2 ^ 46) 1 (by norm_num)
    (by rw [ratLibm_toFloat_below_one, ratLibm_frexpf_one])
    (by rw [ratLibm_toFloat_below_one]; norm_num)
    (by rw [ratLibm_toFloat_below_one, abs_of_pos (by norm_num : (0 : ℚ) < 1 - 1 / 2 ^ 46)]
        norm_num)).1.2.2.2.1

/-! ## C19: the wet output of DrumSlam is bounded -/

theorem recombine_abs_le (lo mi hi D O : α) (hlo : |lo| ≤ 1) (hmi : |mi| ≤ 1) (hhi : |hi| ≤ 1)
    (hD : 1 ≤ D) (hO : 0 ≤ O) :
    |((lo * D + mi + hi * D) / D) * O| ≤ (2 + 1 / D) * O := by
  have hD0 : 0 < D := by linarith
  have h1 : |lo * D + mi + hi * D| ≤ D + 1 + D := by
    have a1 : |lo * D| ≤ D := by
      rw [abs_mul, abs_of_pos hD0]
      calc |lo| * D ≤ 1 * D := mul_le_mul_of_nonneg_right hlo (le_of_lt hD0)
        _ = D := one_mul D
    have a2 : |hi * D| ≤ D := by
      rw [abs_mul, abs_of_pos hD0]
      calc |hi| * D ≤ 1 * D := mul_le_mul_of_nonneg_right hhi (le_of_lt hD0)
        _ = D := one_mul D
    calc |lo * D + mi + hi * D| ≤ |lo * D + mi| + |hi * D| := abs_add _ _
      _ ≤ (|lo * D| + |mi|) + |hi * D| := add_le_add_right (abs_add _ _) _
      _ ≤ D + 1 + D := add_le_add (add_le_add a1 hmi) a2
  rw [abs_mul, abs_div, abs_of_pos hD0, abs_of_nonneg hO]
  have h2 : |lo * D + mi + hi * D| / D ≤ 2 + 1 / D := by
    rw [div_le_iff₀ hD0]
    have : (2 + 1 / D) * D = D + 1 + D := by
      field_simp
      ring
    rw [this]
    exact h1
  exact mul_le_mul_of_nonneg_right h2 hO

theorem drumSlamWet_abs_le (m : Libm α) (c : BlockLocals α) (r : Run α) (sL sR : α)
    (hsin : ∀ x : α, |m.sin x| ≤ 1) (hD : 1 ≤ c.drumDrive) (hO : 0 ≤ c.drumOut) :
    |(drumSlamWet m c r sL sR).2.1| ≤ (2 + 1 / c.drumDrive) * c.drumOut ∧
    |(drumSlamWet m c r sL sR).2.2| ≤ (2 + 1 / c.drumDrive) * c.drumOut := by
  unfold drumSlamWet
  simp only
  rcases drumBandSplit c r.self (sL * c.drumDrive) (sR * c.drumDrive) with ⟨s1, b1⟩
  simp only [drumSaturate]
  exact ⟨recombine_abs_le _ _ _ _ _ (lowBandSaturate_abs_le _) (midBandShape_abs_le m _ _ _ hsin)
      (highBandSaturate_abs_le _) hD hO,
    recombine_abs_le _ _ _ _ _ (lowBandSaturate_abs_le _) (midBandShape_abs_le m _ _ _ hsin)
      (highBandSaturate_abs_le _) hD hO⟩

/-- Claim C19.  For `drumDrive` and `drumOutput` in `[0, 1]` the drive
`1 + 3 * drumDrive` lies in `[1, 4]`, and for every run, library with
`|sin| ≤ 1`, sample rate, other parameters and input frame of any magnitude,
the recombined DrumSlam output of each channel, before the local dry/wet,
is at most `(2 + 1 / drive) * drumOutput` in magnitude, which is at most
`3`. -/
theorem drumslam_wet_bounded (m : Libm α) (sr : α) (p : ParameterSnapshot α) (r : Run α)
    (sL sR : α) (hsin : ∀ x : α, |m.sin x| ≤ 1)
    (hd0 : 0 ≤ p.drumDrive) (hd1 : p.drumDrive ≤ 1)
    (ho0 : 0 ≤ p.drumOutput) (ho1 : p.drumOutput ≤ 1) :
    (1 ≤ (blockLocals sr p).drumDrive ∧ (blockLocals sr p).drumDrive ≤ 4) ∧
    |(drumSlamWet m (blockLocals sr p) r sL sR).2.1| ≤
      (2 + 1 / (blockLocals sr p).drumDrive) * p.drumOutput ∧
    |(drumSlamWet m (blockLocals sr p) r sL sR).2.2| ≤
      (2 + 1 / (blockLocals sr p).drumDrive) * p.drumOutput ∧
    (2 + 1 / (blockLocals sr p).drumDrive) * p.drumOutput ≤ 3 := by
  have hD : (blockLocals sr p).drumDrive = p.drumDrive * 3 + 1 := by
    show (p.drumDrive * 3.0) + 1.0 = _
    norm_num
  have hD1 : 1 ≤ (blockLocals sr p).drumDrive := by rw [hD]; linarith
  have hD4 : (blockLocals sr p).drumDrive ≤ 4 := by rw [hD]; linarith
  have hb := drumSlamWet_abs_le m (blockLocals sr p) r sL sR hsin hD1 ho0
  refine ⟨⟨hD1, hD4⟩, hb.1, hb.2, ?_⟩
  have hinv : 1 / (blockLocals sr p).drumDrive ≤ 1 := by
    rw [div_le_one (by linarith)]
    exact hD1
  have hpos : 0 ≤ 1 / (blockLocals sr p).drumDrive := by
    apply div_nonneg <;> linarith
  calc (2 + 1 / (blockLocals sr p).drumDrive) * p.drumOutput
      ≤ (2 + 1) * 1 := mul_le_mul (by linarith) ho1 ho0 (by linarith)
    _ = 3 := by norm_num

/-- Claim C19 in the reals, `sin` being `Real.sin`: the default parameters
(drive 1, output 1) and the input frame `(1000000, -3)`. -/
theorem drumslam_wet_bounded_witness :
    |(drumSlamWet (Libm.mk Real.sin Real.tan Real.sqrt id
        (fun x => if x = 0 then 0 else Int.log 2 |x| + 1) Real.pi)
      (blockLocals (44100 : ℝ) defaultParameters)
      (startRun (Libm.mk Real.sin Real.tan Real.sqrt id
        (fun x => if x = 0 then 0 else Int.log 2 |x| + 1) Real.pi) (44100 : ℝ)
        SlamityProcessor.initial) 1000000 (-3)).2.1| ≤
      (2 + 1 / (blockLocals (44100 : ℝ) defaultParameters).drumDrive) *
        (defaultParameters : ParameterSnapshot ℝ).drumOutput :=
  (drumslam_wet_bounded (Libm.mk Real.sin Real.tan Real.sqrt id
      (fun x => if x = 0 then 0 else Int.log 2 |x| + 1) Real.pi) (44100 : ℝ) defaultParameters
    (startRun (Libm.mk Real.sin Real.tan Real.sqrt id
      (fun x => if x = 0 then 0 else Int.log 2 |x| + 1) Real.pi) (44100 : ℝ)
      SlamityProcessor.initial) 1000000 (-3) (fun x => Real.abs_sin_le_one x)
    (by norm_num [defaultParameters]) (by norm_num [defaultParameters])
    (by norm_num [defaultParameters]) (by norm_num [defaultParameters])).2.1

/-! ## C20: the dither states never become zero -/

theorem testBit_false_of_lt_two_pow_32 (x i : Nat) (hx : x < 2 ^ 32) (hi : 32 ≤ i) :
    x.testBit i = false :=
  Nat.testBit_lt_two_pow (lt_of_lt_of_le hx (Nat.pow_le_pow_right (by decide) hi))

theorem xor_shiftLeft_eq_zero (k x : Nat) (hk : 0 < k) (hx : x < 2 ^ 32)
    (h : (x ^^^ (x <<< k)) % 2 ^ 32 = 0) : x = 0 := by
  apply Nat.eq_of_testBit_eq
  intro i
  rw [Nat.zero_testBit]
  induction i using Nat.strong_induction_on with
  | _ i ih =>
    by_cases hi : 32 ≤ i
    · exact testBit_false_of_lt_two_pow_32 x i hx hi
    · have hb := congrArg (fun n => n.testBit i) h
      simp only [Nat.testBit_mod_two_pow, Nat.testBit_xor, Nat.testBit_shiftLeft,
        Nat.zero_testBit] at hb
      have hlt : i < 32 := by omega
      simp only [hlt, decide_True, Bool.true_and] at hb
      by_cases hik : k ≤ i
      · have hprev : x.testBit (i - k) = false := ih (i - k) (by omega)
        simpa [hik, hprev] using hb
      · simpa [hik] using hb

theorem xor_shiftRight_eq_zero (k x : Nat) (hk : 0 < k) (hx : x < 2 ^ 32)
    (h : (x ^^^ (x >>> k)) % 2 ^ 32 = 0) : x = 0 := by
  have key : ∀ n i, 32 - i ≤ n → x.testBit i = false := by
    intro n
    induction n with
    | zero =>
      intro i hi
      exact testBit_false_of_lt_two_pow_32 x i hx (by omega)
    | succ n ih =>
      intro i hi
      by_cases h32 : 32 ≤ i
      · exact testBit_false_of_lt_two_pow_32 x i hx h32
      · have hb := congrArg (fun n => n.testBit i) h
        simp only [Nat.testBit_mod_two_pow, Nat.testBit_xor, Nat.testBit_shiftRight,
          Nat.zero_testBit] at hb
        have hlt : i < 32 := by omega
        simp only [hlt, decide_True, Bool.true_and] at hb
        have hnext : x.testBit (k + i) = false := ih (k + i) (by omega)
        simpa [hnext] using hb
  apply Nat.eq_of_testBit_eq
  intro i
  rw [Nat.zero_testBit]
  exact key (32 - i) i (le_refl _)

theorem xorshift_lt (x : Nat) : xorshift x < 4294967296 :=
  Nat.mod_lt _ (by decide)

theorem xorshift_ne_zero (x : Nat) (h0 : x ≠ 0) (hx : x < 4294967296) : xorshift x ≠ 0 := by
  intro h
  have e : (4294967296 : Nat) = 2 ^ 32 := by norm_num
  unfold xorshift at h
  simp only [e] at h hx
  have ha : (x ^^^ (x <<< 13)) % 2 ^ 32 < 2 ^ 32 := Nat.mod_lt _ (by decide)
  have hb : ((x ^^^ (x <<< 13)) % 2 ^ 32 ^^^ ((x ^^^ (x <<< 13)) % 2 ^ 32) >>> 17) % 2 ^ 32
      < 2 ^ 32 := Nat.mod_lt _ (by decide)
  have h1 := xor_shiftLeft_eq_zero 5 _ (by decide) hb h
  have h2 := xor_shiftRight_eq_zero 17 _ (by decide) ha h1
  exact h0 (xor_shiftLeft_eq_zero 13 x (by decide) hx h2)

theorem iterate_xorshift_seeded (n x : Nat) (h0 : x ≠ 0) (hx : x < 4294967296) :
    Nat.iterate xorshift n x ≠ 0 ∧ Nat.iterate xorshift n x < 4294967296 := by
  induction n with
  | zero => exact ⟨h0, hx⟩
  | succ n ih =>
    rw [Function.iterate_succ_apply']
    exact ⟨xorshift_ne_zero _ ih.1 ih.2, xorshift_lt _⟩

theorem reseedLoop_lt (rands : List Nat) :
    ∀ fpd fpd' rest, fpd < 4294967296 → reseedLoop fpd rands = some (fpd', rest) →
      fpd' < 4294967296 := by
  induction rands with
  | nil =>
    intro fpd fpd' rest hlt h
    simp only [reseedLoop] at h
    split at h
    · exact absurd h (by simp)
    · simp only [Option.some.injEq, Prod.mk.injEq] at h
      omega
  | cons r rs ih =>
    intro fpd fpd' rest hlt h
    simp only [reseedLoop] at h
    split at h
    · exact ih _ _ _ (Nat.mod_lt _ (by decide)) h
    · simp only [Option.some.injEq, Prod.mk.injEq] at h
      omega

theorem prepareToPlay_seeded (s s' : SlamityProcessor α) (rands : List Nat)
    (h : prepareToPlay s rands = some s') : DitherSeeded s' := by
  unfold prepareToPlay at h
  rcases hL : reseedLoop 1 rands with _ | ⟨fpdL, rest⟩
  · simp [hL] at h
  · rcases hR : reseedLoop 1 rest with _ | ⟨fpdR, rest'⟩
    · simp [hL, hR] at h
    · simp only [hL, hR, Option.some.injEq] at h
      have gL := reseedLoop_ge rands 1 fpdL rest hL
      have gR := reseedLoop_ge rest 1 fpdR rest' hR
      have lL := reseedLoop_lt rands 1 fpdL rest (by decide) hL
      have lR := reseedLoop_lt rest 1 fpdR rest' (by decide) hR
      subst h
      exact ⟨⟨Nat.pos_iff_ne_zero.mp (Nat.lt_of_lt_of_le (by decide) gL), lL⟩,
        ⟨Nat.pos_iff_ne_zero.mp (Nat.lt_of_lt_of_le (by decide) gR), lR⟩⟩

theorem initial_seeded : DitherSeeded (SlamityProcessor.initial : SlamityProcessor α) := by
  have h1 : (1 : Nat) ≠ 0 := by decide
  have h2 : (1 : Nat) < 4294967296 := by decide
  exact ⟨⟨h1, h2⟩, ⟨h1, h2⟩⟩

/-- Claim C20.  One xorshift step maps a nonzero 32-bit value to a nonzero
32-bit value.  Both dither states are nonzero 32-bit values after
`prepareToPlay` (whenever it returns) and in a freshly constructed processor;
and if they are so when `processBlock` is entered, they are so at the start of
every frame of the block (after its first `k` frames, for every `k` up to its
length) and when the block is done, hence across any number of blocks. -/
theorem dither_state_never_zero (m : Libm α) (sr : α) (p : ParameterSnapshot α)
    (s0 s' s : SlamityProcessor α) (rands : List Nat) (buffer : List (α × α)) :
    (∀ x : Nat, x ≠ 0 → x < 4294967296 → xorshift x ≠ 0 ∧ xorshift x < 4294967296) ∧
    (prepareToPlay s0 rands = some s' → DitherSeeded s') ∧
    DitherSeeded (SlamityProcessor.initial : SlamityProcessor α) ∧
    (DitherSeeded s →
      (∀ k, k ≤ buffer.length →
        DitherSeeded (sampleLoop m (blockLocals sr p) (startRun m sr s) (buffer.take k)).1.self) ∧
      DitherSeeded (processBlock m sr p s buffer).1) := by
  refine ⟨fun x h0 hx => ⟨xorshift_ne_zero x h0 hx, xorshift_lt x⟩,
    prepareToPlay_seeded s0 s' rands, initial_seeded,
    fun hs => ⟨fun k _ => ?_, ?_⟩⟩
  · have h := sampleLoop_fpd m (blockLocals sr p) (buffer.take k) (startRun m sr s)
    unfold DitherSeeded
    rw [h.1, h.2]
    exact ⟨iterate_xorshift_seeded _ _ hs.1.1 hs.1.2, iterate_xorshift_seeded _ _ hs.2.1 hs.2.2⟩
  · have h := processBlock_fpd m sr p s buffer
    unfold DitherSeeded
    rw [h.1, h.2]
    exact ⟨iterate_xorshift_seeded _ _ hs.1.1 hs.1.2, iterate_xorshift_seeded _ _ hs.2.1 hs.2.2⟩

/-- Claim C20 on a processor in mid-stream with the dither states `123456789`
and `987654321`: both are nonzero after a block of two frames. -/
theorem dither_state_never_zero_witness :
    DitherSeeded (processBlock ratLibm 44100 defaultParameters usedProcessor
      [(1 / 2, 0), (0, 0)]).1 :=
  ((dither_state_never_zero ratLibm 44100 defaultParameters usedProcessor usedProcessor
    usedProcessor [] [(1 / 2, 0), (0, 0)]).2.2.2
    ⟨⟨by decide, by decide⟩, ⟨by decide, by decide⟩⟩).2

/-! ## C21: the three bands and the driven sample -/

theorem onePoleRounded_id (s x a : α) : onePoleRounded id s x a = onePole s x a := rfl

theorem drumBandSplitRounded_id (c : BlockLocals α) (s : SlamityProcessor α) (sL sR : α) :
    drumBandSplitRounded id c s sL sR = drumBandSplit c s sL sR := rfl

theorem preDither_self_fpd (m : Libm α) (c : BlockLocals α) (r : Run α) (x : α × α) :
    (preDither m c r x).1.self.fpdL = r.self.fpdL ∧
    (preDither m c r x).1.self.fpdR = r.self.fpdR :=
  processChain_fpd m c r (denormalGuard r.self.fpdL x.1) (denormalGuard r.self.fpdR x.2)

theorem processSample_out (m : Libm α) (c : BlockLocals α) (r : Run α) (x : α × α) :
    (processSample m c r x).2 =
      ((preDither m c r x).2.1 + ditherTerm m (xorshift r.self.fpdL) (preDither m c r x).2.1,
       (preDither m c r x).2.2 + ditherTerm m (xorshift r.self.fpdR) (preDither m c r x).2.2) := by
  have h := preDither_self_fpd m c r x
  have e : (processSample m c r x).2 =
      ((preDither m c r x).2.1 +
          ditherTerm m (xorshift (preDither m c r x).1.self.fpdL) (preDither m c r x).2.1,
       (preDither m c r x).2.2 +
          ditherTerm m (xorshift (preDither m c r x).1.self.fpdR) (preDither m c r x).2.2) := rfl
  rw [e, h.1, h.2]

theorem processMackity_left (c : BlockLocals α) (r t : Run α) (sL sR uL uR : α)
    (hs : sL = uL) (h : leftMemories r.self = leftMemories t.self)
    (hA : coeffSlots r.self.mack_biquadA = coeffSlots t.self.mack_biquadA)
    (hB : coeffSlots r.self.mack_biquadB = coeffSlots t.self.mack_biquadB) :
    (processMackity c r sL sR).2.1 = (processMackity c t uL uR).2.1 ∧
    leftMemories (processMackity c r sL sR).1.self =
      leftMemories (processMackity c t uL uR).1.self ∧
    coeffSlots (processMackity c r sL sR).1.self.mack_biquadA =
      coeffSlots (processMackity c t uL uR).1.self.mack_biquadA ∧
    coeffSlots (processMackity c r sL sR).1.self.mack_biquadB =
      coeffSlots (processMackity c t uL uR).1.self.mack_biquadB := by
  subst hs
  simp only [leftMemories, coeffSlots, Prod.mk.injEq] at h hA hB
  obtain ⟨⟨h1, h2⟩, ⟨a7, a8, a9, a10⟩, ⟨b7, b8, b9, b10⟩,
    ⟨d1, d2, d3, d4, d5, d6, d7, d8, d9⟩, hf, hp⟩ := h
  obtain ⟨a2, a3, a4, a5, a6⟩ := hA
  obtain ⟨b2, b3, b4, b5, b6⟩ := hB
  refine ⟨?_, ?_, ?_, ?_⟩ <;>
    simp [processMackity, mackityWet, mackHighpassA, mackHighpassB, biquadDF1,
      Function.update_apply, leftMemories, coeffSlots,
      h1, h2, a7, a8, a9, a10, b7, b8, b9, b10, d1, d2, d3, d4, d5, d6, d7, d8, d9, hf, hp,
      a2, a3, a4, a5, a6, b2, b3, b4, b5, b6]

theorem processDrumSlam_left (m : Libm α) (c : BlockLocals α) (r t : Run α) (sL sR uL uR : α)
    (hs : sL = uL) (h : leftMemories r.self = leftMemories t.self)
    (hA : coeffSlots r.self.mack_biquadA = coeffSlots t.self.mack_biquadA)
    (hB : coeffSlots r.self.mack_biquadB = coeffSlots t.self.mack_biquadB) :
    (processDrumSlam m c r sL sR).2.1 = (processDrumSlam m c t uL uR).2.1 ∧
    leftMemories (processDrumSlam m c r sL sR).1.self =
      leftMemories (processDrumSlam m c t uL uR).1.self ∧
    coeffSlots (processDrumSlam m c r sL sR).1.self.mack_biquadA =
      coeffSlots (processDrumSlam m c t uL uR).1.self.mack_biquadA ∧
    coeffSlots (processDrumSlam m c r sL sR).1.self.mack_biquadB =
      coeffSlots (processDrumSlam m c t uL uR).1.self.mack_biquadB := by
  subst hs
  simp only [leftMemories, coeffSlots, Prod.mk.injEq] at h hA hB
  obtain ⟨⟨h1, h2⟩, ⟨a7, a8, a9, a10⟩, ⟨b7, b8, b9, b10⟩,
    ⟨d1, d2, d3, d4, d5, d6, d7, d8, d9⟩, hf, hp⟩ := h
  obtain ⟨a2, a3, a4, a5, a6⟩ := hA
  obtain ⟨b2, b3, b4, b5, b6⟩ := hB
  cases hr : r.self.drum_fpFlip
  · have ht : t.self.drum_fpFlip = false := by rw [← hf, hr]
    refine ⟨?_, ?_, ?_, ?_⟩ <;>
      simp [processDrumSlam, drumSlamWet, drumBandSplit, drumSaturate, leftMemories, coeffSlots,
        hr, ht, h1, h2, a7, a8, a9, a10, b7, b8, b9, b10, d1, d2, d3, d4, d5, d6, d7, d8, d9,
        hp, a2, a3, a4, a5, a6, b2, b3, b4, b5, b6]
  · have ht : t.self.drum_fpFlip = true := by rw [← hf, hr]
    refine ⟨?_, ?_, ?_, ?_⟩ <;>
      simp [processDrumSlam, drumSlamWet, drumBandSplit, drumSaturate, leftMemories, coeffSlots,
        hr, ht, h1, h2, a7, a8, a9, a10, b7, b8, b9, b10, d1, d2, d3, d4, d5, d6, d7, d8, d9,
        hp, a2, a3, a4, a5, a6, b2, b3, b4, b5, b6]

theorem processChain_left (m : Libm α) (c : BlockLocals α) (r t : Run α) (sL sR uL uR : α)
    (hs : sL = uL) (h : leftMemories r.self = leftMemories t.self)
    (hA : coeffSlots r.self.mack_biquadA = coeffSlots t.self.mack_biquadA)
    (hB : coeffSlots r.self.mack_biquadB = coeffSlots t.self.mack_biquadB) :
    (processChain m c r sL sR).2.1 = (processChain m c t uL uR).2.1 ∧
    leftMemories (processChain m c r sL sR).1.self =
      leftMemories (processChain m c t uL uR).1.self ∧
    coeffSlots (processChain m c r sL sR).1.self.mack_biquadA =
      coeffSlots (processChain m c t uL uR).1.self.mack_biquadA ∧
    coeffSlots (processChain m c r sL sR).1.self.mack_biquadB =
      coeffSlots (processChain m c t uL uR).1.self.mack_biquadB := by
  unfold processChain
  cases c.mackFirst
  · obtain ⟨e, k1, k2, k3⟩ := processDrumSlam_left m c r t sL sR uL uR hs h hA hB
    exact processMackity_left c (processDrumSlam m c r sL sR).1
      (processDrumSlam m c t uL uR).1 (processDrumSlam m c r sL sR).2.1
      (processDrumSlam m c r sL sR).2.2 (processDrumSlam m c t uL uR).2.1
      (processDrumSlam m c t uL uR).2.2 e k1 k2 k3
  · obtain ⟨e, k1, k2, k3⟩ := processMackity_left c r t sL sR uL uR hs h hA hB
    exact processDrumSlam_left m c (processMackity c r sL sR).1
      (processMackity c t uL uR).1 (processMackity c r sL sR).2.1
      (processMackity c r sL sR).2.2 (processMackity c t uL uR).2.1
      (processMackity c t uL uR).2.2 e k1 k2 k3

theorem processSample_left (m : Libm α) (c : BlockLocals α) (r t : Run α) (x y : α × α)
    (hx : x.1 = y.1) (h : leftMemories r.self = leftMemories t.self)
    (hA : coeffSlots r.self.mack_biquadA = coeffSlots t.self.mack_biquadA)
    (hB : coeffSlots r.self.mack_biquadB = coeffSlots t.self.mack_biquadB) :
    (processSample m c r x).2.1 = (processSample m c t y).2.1 ∧
    leftMemories (processSample m c r x).1.self = leftMemories (processSample m c t y).1.self ∧
    coeffSlots (processSample m c r x).1.self.mack_biquadA =
      coeffSlots (processSample m c t y).1.self.mack_biquadA ∧
    coeffSlots (processSample m c r x).1.self.mack_biquadB =
      coeffSlots (processSample m c t y).1.self.mack_biquadB := by
  have hp : r.self.fpdL = t.self.fpdL := by
    have h0 := h
    simp only [leftMemories, Prod.mk.injEq] at h0
    exact h0.2.2.2.2.2
  have hg : denormalGuard r.self.fpdL x.1 = denormalGuard t.self.fpdL y.1 := by rw [hp, hx]
  obtain ⟨hc1, hl, hcA, hcB⟩ := processChain_left m c r t (denormalGuard r.self.fpdL x.1)
    (denormalGuard r.self.fpdR x.2) (denormalGuard t.self.fpdL y.1)
    (denormalGuard t.self.fpdR y.2) hg h hA hB
  have p1 : (preDither m c r x).2.1 = (preDither m c t y).2.1 := by
    rw [preDither_fst, preDither_fst, hc1, hg]
  have o1 := congrArg Prod.fst (processSample_out m c r x)
  have o2 := congrArg Prod.fst (processSample_out m c t y)
  refine ⟨?_, ?_, hcA, hcB⟩
  · rw [o1, o2, p1, hp]
  · have f1 := processChain_fpd m c r (denormalGuard r.self.fpdL x.1)
      (denormalGuard r.self.fpdR x.2)
    have f2 := processChain_fpd m c t (denormalGuard t.self.fpdL y.1)
      (denormalGuard t.self.fpdR y.2)
    have hq : (processChain m c r (denormalGuard r.self.fpdL x.1)
        (denormalGuard r.self.fpdR x.2)).1.self.fpdL =
        (processChain m c t (denormalGuard t.self.fpdL y.1)
        (denormalGuard t.self.fpdR y.2)).1.self.fpdL := by rw [f1.1, f2.1, hp]
    have e1 : (processSample m c r x).1.self =
        { (processChain m c r (denormalGuard r.self.fpdL x.1)
            (denormalGuard r.self.fpdR x.2)).1.self with
          fpdL := xorshift (processChain m c r (denormalGuard r.self.fpdL x.1)
            (denormalGuard r.self.fpdR x.2)).1.self.fpdL
          fpdR := xorshift (processChain m c r (denormalGuard r.self.fpdL x.1)
            (denormalGuard r.self.fpdR x.2)).1.self.fpdR } := rfl
    have e2 : (processSample m c t y).1.self =
        { (processChain m c t (denormalGuard t.self.fpdL y.1)
            (denormalGuard t.self.fpdR y.2)).1.self with
          fpdL := xorshift (processChain m c t (denormalGuard t.self.fpdL y.1)
            (denormalGuard t.self.fpdR y.2)).1.self.fpdL
          fpdR := xorshift (processChain m c t (denormalGuard t.self.fpdL y.1)
            (denormalGuard t.self.fpdR y.2)).1.self.fpdR } := rfl
    rw [e1, e2]
    simp only [leftMemories, Prod.mk.injEq] at hl ⊢
    obtain ⟨h1, h2, h3, h4, h5, _⟩ := hl
    exact ⟨h1, h2, h3, h4, h5, congrArg xorshift hq⟩

theorem sampleLoop_left (m : Libm α) (c : BlockLocals α) (xs : List (α × α)) :
    ∀ (ys : List (α × α)) (r t : Run α), xs.map Prod.fst = ys.map Prod.fst →
      leftMemories r.self = leftMemories t.self →
      coeffSlots r.self.mack_biquadA = coeffSlots t.self.mack_biquadA →
      coeffSlots r.self.mack_biquadB = coeffSlots t.self.mack_biquadB →
      (sampleLoop m c r xs).2.map Prod.fst = (sampleLoop m c t ys).2.map Prod.fst ∧
      leftMemories (sampleLoop m c r xs).1.self = leftMemories (sampleLoop m c t ys).1.self := by
  induction xs with
  | nil =>
    intro ys r t hxy h _ _
    cases ys with
    | nil => exact ⟨rfl, h⟩
    | cons y ys => simp at hxy
  | cons x xs ih =>
    intro ys r t hxy h hA hB
    cases ys with
    | nil => simp at hxy
    | cons y ys =>
      simp only [List.map_cons, List.cons.injEq] at hxy
      obtain ⟨h1, h2, h3, h4⟩ := processSample_left m c r t x y hxy.1 h hA hB
      obtain ⟨k1, k2⟩ := ih ys _ _ hxy.2 h2 h3 h4
      simp only [sampleLoop, List.map_cons]
      exact ⟨by rw [h1, k1], k2⟩

theorem writeCoefficients_left (m : Libm α) (sr : α) (s t : SlamityProcessor α)
    (h : leftMemories s = leftMemories t) :
    leftMemories (writeCoefficients m sr s) = leftMemories (writeCoefficients m sr t) := by
  simp only [leftMemories, Prod.mk.injEq] at h
  obtain ⟨⟨h1, h2⟩, ⟨a7, a8, a9, a10⟩, ⟨b7, b8, b9, b10⟩,
    ⟨d1, d2, d3, d4, d5, d6, d7, d8, d9⟩, hf, hp⟩ := h
  simp [leftMemories, writeCoefficients, biquadCoefficients, Function.update_apply,
    h1, h2, a7, a8, a9, a10, b7, b8, b9, b10, d1, d2, d3, d4, d5, d6, d7, d8, d9, hf, hp]

theorem writeCoefficients_coeffSlots (m : Libm α) (sr : α) (s t : SlamityProcessor α) :
    coeffSlots (writeCoefficients m sr s).mack_biquadA =
      coeffSlots (writeCoefficients m sr t).mack_biquadA ∧
    coeffSlots (writeCoefficients m sr s).mack_biquadB =
      coeffSlots (writeCoefficients m sr t).mack_biquadB := by
  constructor <;> simp [coeffSlots, writeCoefficients, biquadCoefficients, Function.update_apply]

theorem processBlock_left (m : Libm α) (sr : α) (p : ParameterSnapshot α)
    (s t : SlamityProcessor α) (xs ys : List (α × α))
    (h : leftMemories s = leftMemories t) (hxy : xs.map Prod.fst = ys.map Prod.fst) :
    (processBlock m sr p s xs).2.map Prod.fst = (processBlock m sr p t ys).2.map Prod.fst ∧
    leftMemories (processBlock m sr p s xs).1 = leftMemories (processBlock m sr p t ys).1 := by
  by_cases hx : xs = []
  · subst hx
    have hy : ys = [] := by
      cases ys with
      | nil => rfl
      | cons y ys => simp at hxy
    subst hy
    exact ⟨rfl, h⟩
  · have hy : ys ≠ [] := by
      intro hy
      subst hy
      cases xs with
      | nil => exact hx rfl
      | cons x xs => simp at hxy
    rw [processBlock_of_ne_nil m sr p s xs hx, processBlock_of_ne_nil m sr p t ys hy]
    have hc := writeCoefficients_coeffSlots m sr s t
    exact sampleLoop_left m (blockLocals sr p) xs ys (startRun m sr s) (startRun m sr t) hxy
      (writeCoefficients_left m sr s t h) hc.1 hc.2

theorem processMackity_right (c : BlockLocals α) (r t : Run α) (sL sR uL uR : α)
    (hs : sR = uR) (h : rightMemories r.self = rightMemories t.self)
    (hA : coeffSlots r.self.mack_biquadA = coeffSlots t.self.mack_biquadA)
    (hB : coeffSlots r.self.mack_biquadB = coeffSlots t.self.mack_biquadB) :
    (processMackity c r sL sR).2.2 = (processMackity c t uL uR).2.2 ∧
    rightMemories (processMackity c r sL sR).1.self =
      rightMemories (processMackity c t uL uR).1.self ∧
    coeffSlots (processMackity c r sL sR).1.self.mack_biquadA =
      coeffSlots (processMackity c t uL uR).1.self.mack_biquadA ∧
    coeffSlots (processMackity c r sL sR).1.self.mack_biquadB =
      coeffSlots (processMackity c t uL uR).1.self.mack_biquadB := by
  subst hs
  simp only [rightMemories, coeffSlots, Prod.mk.injEq] at h hA hB
  obtain ⟨⟨h1, h2⟩, ⟨a7, a8, a9, a10⟩, ⟨b7, b8, b9, b10⟩,
    ⟨d1, d2, d3, d4, d5, d6, d7, d8, d9⟩, hf, hp⟩ := h
  obtain ⟨a2, a3, a4, a5, a6⟩ := hA
  obtain ⟨b2, b3, b4, b5, b6⟩ := hB
  refine ⟨?_, ?_, ?_, ?_⟩ <;>
    simp [processMackity, mackityWet, mackHighpassA, mackHighpassB, biquadDF1,
      Function.update_apply, rightMemories, coeffSlots,
      h1, h2, a7, a8, a9, a10, b7, b8, b9, b10, d1, d2, d3, d4, d5, d6, d7, d8, d9, hf, hp,
      a2, a3, a4, a5, a6, b2, b3, b4, b5, b6]

theorem processDrumSlam_right (m : Libm α) (c : BlockLocals α) (r t : Run α) (sL sR uL uR : α)
    (hs : sR = uR) (h : rightMemories r.self = rightMemories t.self)
    (hA : coeffSlots r.self.mack_biquadA = coeffSlots t.self.mack_biquadA)
    (hB : coeffSlots r.self.mack_biquadB = coeffSlots t.self.mack_biquadB) :
    (processDrumSlam m c r sL sR).2.2 = (processDrumSlam m c t uL uR).2.2 ∧
    rightMemories (processDrumSlam m c r sL sR).1.self =
      rightMemories (processDrumSlam m c t uL uR).1.self ∧
    coeffSlots (processDrumSlam m c r sL sR).1.self.mack_biquadA =
      coeffSlots (processDrumSlam m c t uL uR).1.self.mack_biquadA ∧
    coeffSlots (processDrumSlam m c r sL sR).1.self.mack_biquadB =
      coeffSlots (processDrumSlam m c t uL uR).1.self.mack_biquadB := by
  subst hs
  simp only [rightMemories, coeffSlots, Prod.mk.injEq] at h hA hB
  obtain ⟨⟨h1, h2⟩, ⟨a7, a8, a9, a10⟩, ⟨b7, b8, b9, b10⟩,
    ⟨d1, d2, d3, d4, d5, d6, d7, d8, d9⟩, hf, hp⟩ := h
  obtain ⟨a2, a3, a4, a5, a6⟩ := hA
  obtain ⟨b2, b3, b4, b5, b6⟩ := hB
  cases hr : r.self.drum_fpFlip
  · have ht : t.self.drum_fpFlip = false := by rw [← hf, hr]
    refine ⟨?_, ?_, ?_, ?_⟩ <;>
      simp [processDrumSlam, drumSlamWet, drumBandSplit, drumSaturate, rightMemories, coeffSlots,
        hr, ht, h1, h2, a7, a8, a9, a10, b7, b8, b9, b10, d1, d2, d3, d4, d5, d6, d7, d8, d9,
        hp, a2, a3, a4, a5, a6, b2, b3, b4, b5, b6]
  · have ht : t.self.drum_fpFlip = true := by rw [← hf, hr]
    refine ⟨?_, ?_, ?_, ?_⟩ <;>
      simp [processDrumSlam, drumSlamWet, drumBandSplit, drumSaturate, rightMemories, coeffSlots,
        hr, ht, h1, h2, a7, a8, a9, a10, b7, b8, b9, b10, d1, d2, d3, d4, d5, d6, d7, d8, d9,
        hp, a2, a3, a4, a5, a6, b2, b3, b4, b5, b6]

theorem processChain_right (m : Libm α) (c : BlockLocals α) (r t : Run α) (sL sR uL uR : α)
    (hs : sR = uR) (h : rightMemories r.self = rightMemories t.self)
    (hA : coeffSlots r.self.mack_biquadA = coeffSlots t.self.mack_biquadA)
    (hB : coeffSlots r.self.mack_biquadB = coeffSlots t.self.mack_biquadB) :
    (processChain m c r sL sR).2.2 = (processChain m c t uL uR).2.2 ∧
    rightMemories (processChain m c r sL sR).1.self =
      rightMemories (processChain m c t uL uR).1.self ∧
    coeffSlots (processChain m c r sL sR).1.self.mack_biquadA =
      coeffSlots (processChain m c t uL uR).1.self.mack_biquadA ∧
    coeffSlots (processChain m c r sL sR).1.self.mack_biquadB =
      coeffSlots (processChain m c t uL uR).1.self.mack_biquadB := by
  unfold processChain
  cases c.mackFirst
  · obtain ⟨e, k1, k2, k3⟩ := processDrumSlam_right m c r t sL sR uL uR hs h hA hB
    exact processMackity_right c (processDrumSlam m c r sL sR).1
      (processDrumSlam m c t uL uR).1 (processDrumSlam m c r sL sR).2.1
      (processDrumSlam m c r sL sR).2.2 (processDrumSlam m c t uL uR).2.1
      (processDrumSlam m c t uL uR).2.2 e k1 k2 k3
  · obtain ⟨e, k1, k2, k3⟩ := processMackity_right c r t sL sR uL uR hs h hA hB
    exact processDrumSlam_right m c (processMackity c r sL sR).1
      (processMackity c t uL uR).1 (processMackity c r sL sR).2.1
      (processMackity c r sL sR).2.2 (processMackity c t uL uR).2.1
      (processMackity c t uL uR).2.2 e k1 k2 k3

theorem processSample_right (m : Libm α) (c : BlockLocals α) (r t : Run α) (x y : α × α)
    (hx : x.2 = y.2) (h : rightMemories r.self = rightMemories t.self)
    (hA : coeffSlots r.self.mack_biquadA = coeffSlots t.self.mack_biquadA)
    (hB : coeffSlots r.self.mack_biquadB = coeffSlots t.self.mack_biquadB) :
    (processSample m c r x).2.2 = (processSample m c t y).2.2 ∧
    rightMemories (processSample m c r x).1.self = rightMemories (processSample m c t y).1.self ∧
    coeffSlots (processSample m c r x).1.self.mack_biquadA =
      coeffSlots (processSample m c t y).1.self.mack_biquadA ∧
    coeffSlots (processSample m c r x).1.self.mack_biquadB =
      coeffSlots (processSample m c t y).1.self.mack_biquadB := by
  have hp : r.self.fpdR = t.self.fpdR := by
    have h0 := h
    simp only [rightMemories, Prod.mk.injEq] at h0
    exact h0.2.2.2.2.2
  have hg : denormalGuard r.self.fpdR x.2 = denormalGuard t.self.fpdR y.2 := by rw [hp, hx]
  obtain ⟨hc1, hl, hcA, hcB⟩ := processChain_right m c r t (denormalGuard r.self.fpdL x.1)
    (denormalGuard r.self.fpdR x.2) (denormalGuard t.self.fpdL y.1)
    (denormalGuard t.self.fpdR y.2) hg h hA hB
  have p1 : (preDither m c r x).2.2 = (preDither m c t y).2.2 := by
    rw [preDither_snd, preDither_snd, hc1, hg]
  have o1 := congrArg Prod.snd (processSample_out m c r x)
  have o2 := congrArg Prod.snd (processSample_out m c t y)
  refine ⟨?_, ?_, hcA, hcB⟩
  · rw [o1, o2, p1, hp]
  · have f1 := processChain_fpd m c r (denormalGuard r.self.fpdL x.1)
      (denormalGuard r.self.fpdR x.2)
    have f2 := processChain_fpd m c t (denormalGuard t.self.fpdL y.1)
      (denormalGuard t.self.fpdR y.2)
    have hq : (processChain m c r (denormalGuard r.self.fpdL x.1)
        (denormalGuard r.self.fpdR x.2)).1.self.fpdR =
        (processChain m c t (denormalGuard t.self.fpdL y.1)
        (denormalGuard t.self.fpdR y.2)).1.self.fpdR := by rw [f1.2, f2.2, hp]
    have e1 : (processSample m c r x).1.self =
        { (processChain m c r (denormalGuard r.self.fpdL x.1)
            (denormalGuard r.self.fpdR x.2)).1.self with
          fpdL := xorshift (processChain m c r (denormalGuard r.self.fpdL x.1)
            (denormalGuard r.self.fpdR x.2)).1.self.fpdL
          fpdR := xorshift (processChain m c r (denormalGuard r.self.fpdL x.1)
            (denormalGuard r.self.fpdR x.2)).1.self.fpdR } := rfl
    have e2 : (processSample m c t y).1.self =
        { (processChain m c t (denormalGuard t.self.fpdL y.1)
            (denormalGuard t.self.fpdR y.2)).1.self with
          fpdL := xorshift (processChain m c t (denormalGuard t.self.fpdL y.1)
            (denormalGuard t.self.fpdR y.2)).1.self.fpdL
          fpdR := xorshift (processChain m c t (denormalGuard t.self.fpdL y.1)
            (denormalGuard t.self.fpdR y.2)).1.self.fpdR } := rfl
    rw [e1, e2]
    simp only [rightMemories, Prod.mk.injEq] at hl ⊢
    obtain ⟨h1, h2, h3, h4, h5, _⟩ := hl
    exact ⟨h1, h2, h3, h4, h5, congrArg xorshift hq⟩

theorem sampleLoop_right (m : Libm α) (c : BlockLocals α) (xs : List (α × α)) :
    ∀ (ys : List (α × α)) (r t : Run α), xs.map Prod.snd = ys.map Prod.snd →
      rightMemories r.self = rightMemories t.self →
      coeffSlots r.self.mack_biquadA = coeffSlots t.self.mack_biquadA →
      coeffSlots r.self.mack_biquadB = coeffSlots t.self.mack_biquadB →
      (sampleLoop m c r xs).2.map Prod.snd = (sampleLoop m c t ys).2.map Prod.snd ∧
      rightMemories (sampleLoop m c r xs).1.self = rightMemories (sampleLoop m c t ys).1.self := by
  induction xs with
  | nil =>
    intro ys r t hxy h _ _
    cases ys with
    | nil => exact ⟨rfl, h⟩
    | cons y ys => simp at hxy
  | cons x xs ih =>
    intro ys r t hxy h hA hB
    cases ys with
    | nil => simp at hxy
    | cons y ys =>
      simp only [List.map_cons, List.cons.injEq] at hxy
      obtain ⟨h1, h2, h3, h4⟩ := processSample_right m c r t x y hxy.1 h hA hB
      obtain ⟨k1, k2⟩ := ih ys _ _ hxy.2 h2 h3 h4
      simp only [sampleLoop, List.map_cons]
      exact ⟨by rw [h1, k1], k2⟩

theorem writeCoefficients_right (m : Libm α) (sr : α) (s t : SlamityProcessor α)
    (h : rightMemories s = rightMemories t) :
    rightMemories (writeCoefficients m sr s) = rightMemories (writeCoefficients m sr t) := by
  simp only [rightMemories, Prod.mk.injEq] at h
  obtain ⟨⟨h1, h2⟩, ⟨a7, a8, a9, a10⟩, ⟨b7, b8, b9, b10⟩,
    ⟨d1, d2, d3, d4, d5, d6, d7, d8, d9⟩, hf, hp⟩ := h
  simp [rightMemories, writeCoefficients, biquadCoefficients, Function.update_apply,
    h1, h2, a7, a8, a9, a10, b7, b8, b9, b10, d1, d2, d3, d4, d5, d6, d7, d8, d9, hf, hp]

theorem processBlock_right (m : Libm α) (sr : α) (p : ParameterSnapshot α)
    (s t : SlamityProcessor α) (xs ys : List (α × α))
    (h : rightMemories s = rightMemories t) (hxy : xs.map Prod.snd = ys.map Prod.snd) :
    (processBlock m sr p s xs).2.map Prod.snd = (processBlock m sr p t ys).2.map Prod.snd ∧
    rightMemories (processBlock m sr p s xs).1 = rightMemories (processBlock m sr p t ys).1 := by
  by_cases hx : xs = []
  · subst hx
    have hy : ys = [] := by
      cases ys with
      | nil => rfl
      | cons y ys => simp at hxy
    subst hy
    exact ⟨rfl, h⟩
  · have hy : ys ≠ [] := by
      intro hy
      subst hy
      cases xs with
      | nil => exact hx rfl
      | cons x xs => simp at hxy
    rw [processBlock_of_ne_nil m sr p s xs hx, processBlock_of_ne_nil m sr p t ys hy]
    have hc := writeCoefficients_coeffSlots m sr s t
    exact sampleLoop_right m (blockLocals sr p) xs ys (startRun m sr s) (startRun m sr t) hxy
      (writeCoefficients_right m sr s t h) hc.1 hc.2

/-- The three views cover the processor: two processors that agree on the
left memories, the right memories and the coefficient slots `[0..6]` of both
biquad arrays differ at most in the five published meters. -/
theorem channel_views_cover (s t : SlamityProcessor α)
    (hl : leftMemories s = leftMemories t) (hr : rightMemories s = rightMemories t)
    (hA : ∀ i : Fin 15, i.val < 7 → s.mack_biquadA i = t.mack_biquadA i)
    (hB : ∀ i : Fin 15, i.val < 7 → s.mack_biquadB i = t.mack_biquadB i) :
    withoutMeters s = withoutMeters t := by
  simp only [leftMemories, rightMemories, Prod.mk.injEq] at hl hr
  obtain ⟨⟨l1, l2⟩, ⟨a7, a8, a9, a10⟩, ⟨b7, b8, b9, b10⟩,
    ⟨d1, d2, d3, d4, d5, d6, d7, d8, d9⟩, hf, hp⟩ := hl
  obtain ⟨⟨r1, r2⟩, ⟨a11, a12, a13, a14⟩, ⟨b11, b12, b13, b14⟩,
    ⟨e1, e2, e3, e4, e5, e6, e7, e8, e9⟩, _, hq⟩ := hr
  have eA : s.mack_biquadA = t.mack_biquadA := by
    funext i
    by_cases hi : i.val < 7
    · exact hA i hi
    · revert hi
      fin_cases i <;> intro hi <;>
        first
        | (exfalso; revert hi; decide)
        | assumption
  have eB : s.mack_biquadB = t.mack_biquadB := by
    funext i
    by_cases hi : i.val < 7
    · exact hB i hi
    · revert hi
      fin_cases i <;> intro hi <;>
        first
        | (exfalso; revert hi; decide)
        | assumption
  cases s
  cases t
  simp only [withoutMeters] at *
  simp only [SlamityProcessor.mk.injEq]
  simp only [l1, l2, r1, r2, eA, eB, d1, d2, d3, d4, d5, d6, d7, d8, d9,
    e1, e2, e3, e4, e5, e6, e7, e8, e9, hf, hp, hq, and_self]

/-- Claim C23.  For every library, sample rate and parameter snapshot, and two
runs of `processBlock`: if the processors agree on the left-channel memories
(one-pole memories, biquad history taps, DrumSlam cascade and last-mid
memories), the flip flag and the left dither state, and the buffers agree on
the left-channel samples, then the left-channel samples written and the left
memories after the call are the same, whatever the right-channel inputs and
state are; and symmetrically for the right channel. -/
theorem channel_independence (m : Libm α) (sr : α) (p : ParameterSnapshot α)
    (s t : SlamityProcessor α) (xs ys : List (α × α)) :
    (leftMemories s = leftMemories t → xs.map Prod.fst = ys.map Prod.fst →
      (processBlock m sr p s xs).2.map Prod.fst = (processBlock m sr p t ys).2.map Prod.fst ∧
      leftMemories (processBlock m sr p s xs).1 = leftMemories (processBlock m sr p t ys).1) ∧
    (rightMemories s = rightMemories t → xs.map Prod.snd = ys.map Prod.snd →
      (processBlock m sr p s xs).2.map Prod.snd = (processBlock m sr p t ys).2.map Prod.snd ∧
      rightMemories (processBlock m sr p s xs).1 = rightMemories (processBlock m sr p t ys).1) :=
  ⟨processBlock_left m sr p s t xs ys, processBlock_right m sr p s t xs ys⟩

/-- Claim C23 on a processor in mid-stream at the default parameters: with the
right channel's state and input replaced, a block of two frames writes the
same left samples and leaves the same left memories; with the left channel's
state and input replaced, the same holds of the right channel. -/
theorem channel_independence_witness :
    ((processBlock ratLibm 44100 defaultParameters usedProcessor
          [(1 / 2, -1 / 4), (1 / 8, 0)]).2.map Prod.fst =
        (processBlock ratLibm 44100 defaultParameters rightAlteredProcessor
          [(1 / 2, 3), (1 / 8, -1)]).2.map Prod.fst ∧
      leftMemories (processBlock ratLibm 44100 defaultParameters usedProcessor
          [(1 / 2, -1 / 4), (1 / 8, 0)]).1 =
        leftMemories (processBlock ratLibm 44100 defaultParameters rightAlteredProcessor
          [(1 / 2, 3), (1 / 8, -1)]).1) ∧
    ((processBlock ratLibm 44100 defaultParameters usedProcessor
          [(1 / 2, -1 / 4), (1 / 8, 0)]).2.map Prod.snd =
        (processBlock ratLibm 44100 defaultParameters leftAlteredProcessor
          [(3, -1 / 4), (-1, 0)]).2.map Prod.snd ∧
      rightMemories (processBlock ratLibm 44100 defaultParameters usedProcessor
          [(1 / 2, -1 / 4), (1 / 8, 0)]).1 =
        rightMemories (processBlock ratLibm 44100 defaultParameters leftAlteredProcessor
          [(3, -1 / 4), (-1, 0)]).1) :=
  ⟨(channel_independence ratLibm 44100 defaultParameters usedProcessor rightAlteredProcessor
      [(1 / 2, -1 / 4), (1 / 8, 0)] [(1 / 2, 3), (1 / 8, -1)]).1
      rfl rfl,
    (channel_independence ratLibm 44100 defaultParameters usedProcessor leftAlteredProcessor
      [(1 / 2, -1 / 4), (1 / 8, 0)] [(3, -1 / 4), (-1, 0)]).2
      rfl rfl⟩

/-! ## C24: the feedback coefficients of the two lowpass filters -/

theorem biquadCoefficients_feedback (m : Libm α) (sr Q : α) (b : Fin 15 → α) :
    biquadCoefficients m sr Q b 5 =
      2 * (m.tan (m.pi * (19160 / sr)) * m.tan (m.pi * (19160 / sr)) - 1) *
        (1 / (1 + m.tan (m.pi * (19160 / sr)) / Q +
          m.tan (m.pi * (19160 / sr)) * m.tan (m.pi * (19160 / sr)))) ∧
    biquadCoefficients m sr Q b 6 =
      (1 - m.tan (m.pi * (19160 / sr)) / Q +
          m.tan (m.pi * (19160 / sr)) * m.tan (m.pi * (19160 / sr))) *
        (1 / (1 + m.tan (m.pi * (19160 / sr)) / Q +
          m.tan (m.pi * (19160 / sr)) * m.tan (m.pi * (19160 / sr)))) := by
  constructor <;> simp [biquadCoefficients, Function.update_apply, lit_one] <;> norm_num

theorem feedback_stable (K Q : α) (hK : 0 < K) (hQ : 0 < Q) :
    0 < 1 + K / Q + K * K ∧
    |(1 - K / Q + K * K) * (1 / (1 + K / Q + K * K))| < 1 ∧
    |2 * (K * K - 1) * (1 / (1 + K / Q + K * K))| <
      1 + (1 - K / Q + K * K) * (1 / (1 + K / Q + K * K)) := by
  have hKQ : 0 < K / Q := div_pos hK hQ
  have hKK : 0 < K * K := mul_pos hK hK
  have hD : 0 < 1 + K / Q + K * K := by linarith
  refine ⟨hD, ?_, ?_⟩
  · rw [mul_one_div, abs_div, abs_of_pos hD, div_lt_one hD, abs_lt]
    constructor <;> linarith
  · rw [mul_one_div, mul_one_div, abs_div, abs_of_pos hD]
    have e : 1 + (1 - K / Q + K * K) / (1 + K / Q + K * K) =
        (2 + 2 * (K * K)) / (1 + K / Q + K * K) := by
      field_simp
      ring
    rw [e, div_lt_div_iff_of_pos_right hD, abs_lt]
    constructor <;> linarith

/-- Claim C24.  Let `f = 19160 / sampleRate` with `0 < f < 1/2`, `Q > 0`, and let
`tan (pi * f)` be positive, as it is for the real tangent on that range.  With
`K = tan (pi * f)`: the denominator `1 + K / Q + K²` is positive, and the
feedback coefficients `processBlock` stores in slots 5 and 6 of a biquad
array, `a1 = 2 (K² - 1) norm` and `a2 = (1 - K / Q + K²) norm`, satisfy
`|a2| < 1` and `|a1| < 1 + a2`.  In particular this holds for both arrays
`writeCoefficients` fills, with `Q = 0.431684981684982` and `Q = 1.1582298`. -/
theorem biquad_coefficients_stable (m : Libm α) (sr Q : α) (b : Fin 15 → α)
    (s : SlamityProcessor α)
    (hf0 : 0 < 19160 / sr) (hf1 : 19160 / sr < 1 / 2) (hQ : 0 < Q)
    (htan : ∀ x : α, 0 < x → x < 1 / 2 → 0 < m.tan (m.pi * x)) :
    (0 < 1 + m.tan (m.pi * (19160 / sr)) / Q +
        m.tan (m.pi * (19160 / sr)) * m.tan (m.pi * (19160 / sr)) ∧
     |biquadCoefficients m sr Q b 6| < 1 ∧
     |biquadCoefficients m sr Q b 5| < 1 + biquadCoefficients m sr Q b 6) ∧
    (|(writeCoefficients m sr s).mack_biquadA 6| < 1 ∧
     |(writeCoefficients m sr s).mack_biquadA 5| < 1 + (writeCoefficients m sr s).mack_biquadA 6 ∧
     |(writeCoefficients m sr s).mack_biquadB 6| < 1 ∧
     |(writeCoefficients m sr s).mack_biquadB 5| <
        1 + (writeCoefficients m sr s).mack_biquadB 6) := by
  have hK := htan _ hf0 hf1
  have key : ∀ (q : α) (b0 : Fin 15 → α), 0 < q →
      |biquadCoefficients m sr q b0 6| < 1 ∧
      |biquadCoefficients m sr q b0 5| < 1 + biquadCoefficients m sr q b0 6 := by
    intro q b0 hq
    have h := feedback_stable _ q hK hq
    rw [(biquadCoefficients_feedback m sr q b0).1, (biquadCoefficients_feedback m sr q b0).2]
    exact h.2
  have hA := key 0.431684981684982 s.mack_biquadA (by norm_num)
  have hB := key 1.1582298 s.mack_biquadB (by norm_num)
  exact ⟨⟨(feedback_stable _ Q hK hQ).1, (key Q b hQ).1, (key Q b hQ).2⟩,
    hA.1, hA.2, hB.1, hB.2⟩

/-- Claim C24 in the reals, `tan` being `Real.tan`, at 44100 Hz: the first
lowpass of a freshly constructed processor. -/
theorem biquad_coefficients_stable_witness :
    |(writeCoefficients (Libm.mk Real.sin Real.tan Real.sqrt id
        (fun x => if x = 0 then 0 else Int.log 2 |x| + 1) Real.pi) (44100 : ℝ)
      SlamityProcessor.initial).mack_biquadA 6| < 1 :=
  (biquad_coefficients_stable (Libm.mk Real.sin Real.tan Real.sqrt id
      (fun x => if x = 0 then 0 else Int.log 2 |x| + 1) Real.pi) (44100 : ℝ) 1 (fun _ => 0)
    SlamityProcessor.initial (by norm_num) (by norm_num) (by norm_num)
    (fun x h0 h1 => Real.tan_pos_of_pos_of_lt_pi_div_two
      (mul_pos Real.pi_pos h0) (by nlinarith [Real.pi_pos]))).2.1

end Slamity
